import Mathlib

/-!
# fbtft core: dirty-line tracking, deferred flush and init-sequence interpreters

A shallow embedding of `src/fbtft/fbtft-core.c`.

* `unsigned int` values are natural numbers below `2 ^ 32`; a C `int` expression that is
  converted to `unsigned int` goes through `to_u32`.
* Calls into the operation table and into the GPIO / delay helpers are recorded, in program
  order, as a list of `Call`s.
-/

namespace Fbtft

/-! ## Machine integers -/

/-- Number of values of an `unsigned int`. -/
def U32 : Nat := 4294967296

/-- Conversion of a C `int` value to `unsigned int` (reduction modulo `2 ^ 32`). -/
def to_u32 (x : Int) : Nat := (x % 4294967296).toNat

/-- Conversion of an `unsigned int` value to `int` (two's complement). -/
def to_int (n : Nat) : Int := if n < 2147483648 then (n : Int) else (n : Int) - 4294967296

/-- The value `-EINVAL`. -/
def EINVAL_neg : Int := -22

/-! ## Recorded calls -/

/-- The calls the modelled functions make to the operation table of the driver
(`par->fbtftops`) and to kernel helpers.  `set_addr_win` and `write_vmem` carry the values of
the argument expressions at the call site. `write_register len args` carries the count and the
first `len` entries of `buf`, the ones a variadic `write_register` reads. -/
inductive Call where
  | reset : Call
  | gpio_set_value (gpio : Int) (value : Nat) : Call
  | write_register (len : Nat) (args : List Int) : Call
  | mdelay (ms : Int) : Call
  | msleep (ms : Nat) : Call
  | set_addr_win (xs ys xe ye : Nat) : Call
  | write_vmem (offset len : Nat) : Call
  deriving DecidableEq, Repr

/-! ## Dirty-line tracking and flush -/

/-- The part of `struct fbtft_par` / `struct fb_info` that the dirty tracker and the flush use:
`info->var.xres`, `info->var.yres`, `info->fix.line_length`, whether
`par->fbtftops.set_addr_win` is set, and the stored dirty interval. All numbers are
`unsigned int`. The declaration of `struct fbtft_par` (`fbtft.h`) is not among the sources:
`dirty_lines_start` and `dirty_lines_end` are taken with the type of the locals of
`fbtft_deferred_io` they are copied into, `unsigned int`. -/
structure fbtft_par where
  xres : Nat
  yres : Nat
  line_length : Nat
  set_addr_win : Bool
  dirty_lines_start : Nat
  dirty_lines_end : Nat
  deriving DecidableEq, Repr

/-- The expression `par->info->var.yres - 1`, computed in `unsigned int`. -/
def yres_m1 (par : fbtft_par) : Nat := to_u32 ((par.yres : Int) - 1)

/-- The calls at the end of `fbtft_update_display` (lines 266-272): `set_addr_win` when the
operation is set, then `write_vmem` with `offset = start_line * line_length` and
`len = (end_line - start_line + 1) * line_length`, both computed in `unsigned int`. -/
def transfer (par : fbtft_par) (start_line end_line : Nat) : List Call :=
  (if par.set_addr_win then
      [Call.set_addr_win 0 start_line (to_u32 ((par.xres : Int) - 1)) end_line]
    else []) ++
  [Call.write_vmem ((start_line * par.line_length) % U32)
      ((to_u32 ((end_line : Int) - (start_line : Int) + 1) * par.line_length) % U32)]

/-- The two sanity checks at the head of `fbtft_update_display` (lines 247-262): an inverted
pair, then an out-of-range pair, is replaced by the full frame `(0, yres - 1)`. -/
def sanity (par : fbtft_par) (start_line end_line : Nat) : Nat × Nat :=
  let p1 : Nat × Nat := if start_line > end_line then (0, yres_m1 par) else (start_line, end_line)
  if p1.1 > yres_m1 par ∨ p1.2 > yres_m1 par then (0, yres_m1 par) else p1

/-- The function `fbtft_update_display(par, start_line, end_line)`. -/
def fbtft_update_display (par : fbtft_par) (start_line end_line : Nat) : List Call :=
  transfer par (sanity par start_line end_line).1 (sanity par start_line end_line).2

/-- The function `fbtft_mkdirty(info, y, height)`: the update of the stored interval (the
scheduling of the deferred work is not part of the state). `y` and `height` are `int`; `y + height - 1` is
computed in `int` (wrapping, as the kernel is built), and the comparisons with the
`unsigned int` fields and the stores convert to `unsigned int`. -/
def fbtft_mkdirty (par : fbtft_par) (y height : Int) : fbtft_par :=
  let y1 : Int := if y = -1 then 0 else y
  let height1 : Int := if y = -1 then to_int (yres_m1 par) else height
  let s : Nat := if to_u32 y1 < par.dirty_lines_start then to_u32 y1 else par.dirty_lines_start
  let e : Nat :=
    if to_u32 (y1 + height1 - 1) > par.dirty_lines_end then to_u32 (y1 + height1 - 1)
    else par.dirty_lines_end
  { par with dirty_lines_start := s, dirty_lines_end := e }

/-- One iteration of the page loop of `fbtft_deferred_io` (lines 321-333) on the local pair
`(dirty_lines_start, dirty_lines_end)`. `PAGE_SHIFT` and the width of `unsigned long`
(`BITS_PER_LONG`) come from the kernel configuration; `index` is an `unsigned long`, `y_low`
and `y_high` are `unsigned int`. A zero `line_length` (a division by zero in C) divides to 0
here. -/
def page_merge (PAGE_SHIFT BITS_PER_LONG : Nat) (par : fbtft_par) (se : Nat × Nat)
    (page_index : Nat) : Nat × Nat :=
  let index : Nat := (page_index * 2 ^ PAGE_SHIFT) % 2 ^ BITS_PER_LONG
  let y_low : Nat := (index / par.line_length) % U32
  let y_high0 : Nat := (((index + 2 ^ PAGE_SHIFT - 1) % 2 ^ BITS_PER_LONG) / par.line_length) % U32
  let y_high : Nat := if y_high0 > yres_m1 par then yres_m1 par else y_high0
  (if y_low < se.1 then y_low else se.1, if y_high > se.2 then y_high else se.2)

/-- The critical section of `fbtft_deferred_io` (lines 311-317): the stored interval is copied
into the locals and the stored interval is set to `(yres - 1, 0)`. -/
def read_and_reset (par : fbtft_par) : (Nat × Nat) × fbtft_par :=
  ((par.dirty_lines_start, par.dirty_lines_end),
   { par with dirty_lines_start := yres_m1 par, dirty_lines_end := 0 })

/-- The function `fbtft_deferred_io(info, pagelist)`: returns the new state and the calls
made. The page list is given by the `page->index` values in list order. -/
def fbtft_deferred_io (PAGE_SHIFT BITS_PER_LONG : Nat) (par : fbtft_par) (pagelist : List Nat) :
    fbtft_par × List Call :=
  let r := read_and_reset par
  let se := pagelist.foldl (page_merge PAGE_SHIFT BITS_PER_LONG r.2) r.1
  (r.2, fbtft_update_display r.2 se.1 se.2)

/-- The values of `start_line` and `end_line` at the calls that `fbtft_update_display` makes
when `fbtft_deferred_io` runs: the stored interval, merged with the pages, after the sanity
checks. -/
def flush_lines (PAGE_SHIFT BITS_PER_LONG : Nat) (par : fbtft_par) (pagelist : List Nat) :
    Nat × Nat :=
  let r := read_and_reset par
  let se := pagelist.foldl (page_merge PAGE_SHIFT BITS_PER_LONG r.2) r.1
  sanity r.2 se.1 se.2

/-- A sequence of `fbtft_mkdirty(info, y, height)` calls, given as pairs `(y, height)`. -/
def mkdirty_all (par : fbtft_par) (marks : List (Int × Int)) : fbtft_par :=
  marks.foldl (fun p m => fbtft_mkdirty p m.1 m.2) par

/-- The empty state of the dirty interval for a display of `H` lines: `(H - 1, 0)`. -/
def empty_par (xres H line_length : Nat) (saw : Bool) : fbtft_par :=
  { xres := xres, yres := H, line_length := line_length, set_addr_win := saw,
    dirty_lines_start := H - 1, dirty_lines_end := 0 }

/-! ## Init-sequence interpreters -/

/-- How a run of an init interpreter ends: it returns a code, or the `strcat` that builds the
debug message of `fbtft_init_display` writes past the end of `char msg[128]` (undefined
behaviour in C; nothing is known about what follows), or the model has no steps left. -/
inductive Status where
  | returned (ret : Int) : Status
  | msg_overflow : Status
  | out_of_fuel : Status
  deriving DecidableEq, Repr

/-- The result of a run: how it ended and the calls made up to that point. -/
structure Run where
  status : Status
  calls : List Call
  deriving DecidableEq, Repr

/-- The run that makes the call `c` and continues as `r`. -/
def Run.after (c : Call) (r : Run) : Run := { r with calls := c :: r.calls }

/-- The run that makes the calls `cs` and continues as `r`. -/
def Run.after_all (cs : List Call) (r : Run) : Run := { r with calls := cs ++ r.calls }

/-- The calls at the start of both interpreters: `par->fbtftops.reset(par)`, then
`gpio_set_value(par->gpio.cs, 0)` when `par->gpio.cs != -1`. -/
def prologue (cs : Int) : List Call :=
  Call.reset :: (if cs ≠ -1 then [Call.gpio_set_value cs 0] else [])

/-- Number of characters `%02X` prints for a non-negative `int`: at least two, at most eight. -/
def hex_width (v : Int) : Nat :=
  if v < 256 then 2 else if v < 4096 then 3 else if v < 65536 then 4
  else if v < 1048576 then 5 else if v < 16777216 then 6 else if v < 268435456 then 7 else 8

/-- The result of the loop that builds the debug message. -/
inductive Msg where
  | fits : Msg
  | overflow : Msg
  | unfinished : Msg
  deriving DecidableEq, Repr

/-- The debug-message loop of `fbtft_init_display` (lines 900-906), started with `msg` holding
`len` characters: while `init_sequence[j] >= 0`, `sprintf(str, "0x%02X ", init_sequence[j])`
produces `2 + hex_width + 1` characters, which `strcat` appends to `char msg[128]`; the append
stays inside `msg` only when the new length plus the terminating zero is at most 128. The first
argument bounds the number of iterations (`debug_msg_total`: 128 are never used up). -/
def debug_msg (seq : Nat → Int) : Nat → Nat → Nat → Msg
  | 0, _, _ => Msg.unfinished
  | fuel + 1, j, len =>
    if seq j ≥ 0 then
      if len + (2 + hex_width (seq j) + 1) + 1 > 128 then Msg.overflow
      else debug_msg seq fuel (j + 1) (len + (2 + hex_width (seq j) + 1))
    else Msg.fits

/-- The result of a loop that collects the values of one register write. -/
inductive Collected where
  | done (i : Nat) (buf : List Int) : Collected
  | exceeded : Collected
  | unfinished : Collected
  deriving DecidableEq, Repr

/-- The write loop of `fbtft_init_display` (lines 912-921): `buf` holds `buf[0..j-1]`, so
`j = buf.length`; while `init_sequence[i] >= 0`, fail when `j > 63`, else
`buf[j++] = init_sequence[i++]`. The first argument bounds the number of iterations
(`write_loop_total`: 65 are never used up). -/
def write_loop (seq : Nat → Int) : Nat → Nat → List Int → Collected
  | 0, _, _ => Collected.unfinished
  | fuel + 1, i, buf =>
    if seq i ≥ 0 then
      if buf.length > 63 then Collected.exceeded
      else write_loop seq fuel (i + 1) (buf ++ [seq i])
    else Collected.done i buf

/-- The main loop of `fbtft_init_display` (lines 880-952), from index `i`; falling out of the
loop (`i >= FBTFT_MAX_INIT_SEQUENCE`) reaches the final `return -EINVAL`. The first argument
bounds the number of iterations (`fbtft_init_display_terminates`: the bound is never used
up). The result carries the calls made from index `i` on. -/
def init_loop (MAX : Nat) (seq : Nat → Int) : Nat → Nat → Run
  | 0, _ => ⟨Status.out_of_fuel, []⟩
  | fuel + 1, i =>
    if i < MAX then
      if seq i = -3 then ⟨Status.returned 0, []⟩
      else if seq i ≥ 0 then ⟨Status.returned EINVAL_neg, []⟩
      else if seq (i + 1) < 0 then ⟨Status.returned EINVAL_neg, []⟩
      else if seq i = -1 then
        match debug_msg seq 128 (i + 2) 0 with
        | Msg.overflow => ⟨Status.msg_overflow, []⟩
        | Msg.unfinished => ⟨Status.out_of_fuel, []⟩
        | Msg.fits =>
          match write_loop seq 65 (i + 1) [] with
          | Collected.exceeded => ⟨Status.returned EINVAL_neg, []⟩
          | Collected.unfinished => ⟨Status.out_of_fuel, []⟩
          | Collected.done i1 buf =>
            (init_loop MAX seq fuel i1).after (Call.write_register buf.length buf)
      else if seq i = -2 then
        (init_loop MAX seq fuel (i + 2)).after (Call.mdelay (seq (i + 1)))
      else ⟨Status.returned EINVAL_neg, []⟩
    else ⟨Status.returned EINVAL_neg, []⟩

/-- The stop-marker scan of `fbtft_init_display` (lines 866-868) with `n` iterations left
before `i` reaches `FBTFT_MAX_INIT_SEQUENCE`: the value of `i` after the loop. -/
def stop_scan (seq : Nat → Int) : Nat → Nat → Nat
  | 0, i => i
  | n + 1, i => if seq i = -3 then i else stop_scan seq n (i + 1)

/-- The function `fbtft_init_display(par)`: `MAX` is `FBTFT_MAX_INIT_SEQUENCE` (declared in
`fbtft.h`, not among the sources), `cs` is `par->gpio.cs`, `init_sequence` is
`par->init_sequence` (`none` for a null pointer, else the memory it points to, indexed
from 0). -/
def fbtft_init_display (MAX : Nat) (cs : Int) (init_sequence : Option (Nat → Int)) : Run :=
  match init_sequence with
  | none => ⟨Status.returned EINVAL_neg, []⟩
  | some seq =>
    if stop_scan seq MAX 0 = MAX then ⟨Status.returned EINVAL_neg, []⟩
    else (init_loop MAX seq MAX 0).after_all (prologue cs)

/-- The memory behind an `init_sequence` array with the entries `l` (entries past the end of
the array read as `0`). -/
def seq_of (l : List Int) : Nat → Int := fun i => l.getD i 0

/-- The position of `fbtft_init_display_dt` in its property after `of_prop_next_u32` has
stepped to the words `l`: `none` when `p` is null (no word left), else the word `val` that `p`
points at and the words after it. -/
def dt_pos : List Nat → Option (Nat × List Nat)
  | [] => none
  | v :: r => some (v, r)

/-- The inner loop of `fbtft_init_display_dt` (lines 787-796), entered with `p` pointing at the
word `val` and `rest` the words after it; `buf` holds `buf[0..i-1]`, so `i = buf.length`.
While `p` is not null and `val` has a zero upper half: fail when `i > 63`, else
`buf[i++] = val` and step. Returns the collected values and the position after the loop. -/
def dt_write_loop : Nat → List Nat → List Int → Option (List Int × Option (Nat × List Nat))
  | val, rest, buf =>
    if val &&& 0xFFFF0000 ≠ 0 then some (buf, some (val, rest))
    else if buf.length > 63 then none
    else
      match rest with
      | [] => some (buf ++ [(val : Int)], none)
      | v :: r => dt_write_loop v r (buf ++ [(val : Int)])

/-- The main loop `while (p)` of `fbtft_init_display_dt` (lines 783-831) from the position
`pos`; leaving the loop reaches `return 0`. `INIT_CMD` and `INIT_DELAY` are the masks
`FBTFT_OF_INIT_CMD` and `FBTFT_OF_INIT_DELAY` (declared in `fbtft.h`, not among the sources).
The first argument bounds the number of iterations (`fbtft_init_display_dt_terminates`: the
bound is never used up). -/
def dt_loop (INIT_CMD INIT_DELAY : Nat) : Nat → Option (Nat × List Nat) → Run
  | _, none => ⟨Status.returned 0, []⟩
  | 0, some _ => ⟨Status.out_of_fuel, []⟩
  | fuel + 1, some (val, rest) =>
    if val &&& INIT_CMD ≠ 0 then
      match dt_write_loop (val &&& 0xFFFF) rest [] with
      | none => ⟨Status.returned EINVAL_neg, []⟩
      | some (buf, pos) =>
        (dt_loop INIT_CMD INIT_DELAY fuel pos).after (Call.write_register buf.length buf)
    else if val &&& INIT_DELAY ≠ 0 then
      (dt_loop INIT_CMD INIT_DELAY fuel (dt_pos rest)).after (Call.msleep (val &&& 0xFFFF))
    else ⟨Status.returned EINVAL_neg, []⟩

/-- The function `fbtft_init_display_dt(par)` (the `CONFIG_OF` variant). `init` is the list
of 32-bit words of the `init` property of the device node; `none` stands for a missing node or
property, and an empty property is taken as `of_prop_next_u32` returning null. -/
def fbtft_init_display_dt (INIT_CMD INIT_DELAY : Nat) (cs : Int) (init : Option (List Nat)) :
    Run :=
  match init with
  | none => ⟨Status.returned EINVAL_neg, []⟩
  | some [] => ⟨Status.returned EINVAL_neg, []⟩
  | some (val :: rest) =>
    (dt_loop INIT_CMD INIT_DELAY (rest.length + 1) (some (val, rest))).after_all (prologue cs)

/-! ## Init programs as operation lists -/

/-- An operation of an init program: a register write (register, then data values) or a delay
in milliseconds. -/
inductive Op where
  | cmd (reg : Nat) (data : List Nat) : Op
  | delay (ms : Nat) : Op
  deriving DecidableEq, Repr

/-- Flat encoding of one operation: `-1, reg, data...` or `-2, ms`. -/
def Op.flat : Op → List Int
  | Op.cmd reg data => -1 :: (reg : Int) :: data.map (fun (d : Nat) => (d : Int))
  | Op.delay ms => [-2, (ms : Int)]

/-- Flat encoding of an operation list, ended by the stop marker `-3`. -/
def flat_encode : List Op → List Int
  | [] => [-3]
  | op :: rest => op.flat ++ flat_encode rest

/-- Property-tree encoding of one operation: `INIT_CMD | reg` followed by the data values as
zero-tagged words, or `INIT_DELAY | ms`. -/
def Op.dt (INIT_CMD INIT_DELAY : Nat) : Op → List Nat
  | Op.cmd reg data => (INIT_CMD ||| reg) :: data
  | Op.delay ms => [INIT_DELAY ||| ms]

/-- Property-tree encoding of an operation list. -/
def dt_encode (INIT_CMD INIT_DELAY : Nat) : List Op → List Nat
  | [] => []
  | op :: rest => op.dt INIT_CMD INIT_DELAY ++ dt_encode INIT_CMD INIT_DELAY rest

/-- The call the flat interpreter is to make for one operation. -/
def Op.flat_call : Op → Call
  | Op.cmd reg data =>
    Call.write_register (data.length + 1) ((reg : Int) :: data.map (fun (d : Nat) => (d : Int)))
  | Op.delay ms => Call.mdelay (ms : Int)

/-- The call the property-tree interpreter is to make for one operation. -/
def Op.dt_call : Op → Call
  | Op.cmd reg data =>
    Call.write_register (data.length + 1) ((reg : Int) :: data.map (fun (d : Nat) => (d : Int)))
  | Op.delay ms => Call.msleep ms

/-- Length of the debug message that `fbtft_init_display` builds for the data values of one
register write. -/
def msg_len : List Nat → Nat
  | [] => 0
  | d :: rest => (2 + hex_width (d : Int) + 1) + msg_len rest

/-- A register write has at most 64 values (register included). -/
def Op.in_cap : Op → Prop
  | Op.cmd _ data => data.length + 1 ≤ 64
  | Op.delay _ => True

/-- The debug message of a register write fits `char msg[128]`. -/
def Op.msg_fits : Op → Prop
  | Op.cmd _ data => msg_len data + 1 ≤ 128
  | Op.delay _ => True

instance (op : Op) : Decidable op.in_cap := by
  cases op <;> unfold Op.in_cap <;> infer_instance

instance (op : Op) : Decidable op.msg_fits := by
  cases op <;> unfold Op.msg_fits <;> infer_instance

/-- Every value of the operation fits the lower 16 bits of a property-tree word. -/
def Op.small : Op → Prop
  | Op.cmd reg data => reg < 65536 ∧ ∀ d ∈ data, d < 65536
  | Op.delay ms => ms < 65536

instance (op : Op) : Decidable op.small := by
  cases op <;> unfold Op.small <;> infer_instance

/-- The two delay primitives seen as one: `msleep(ms)` of the property-tree interpreter is
read as the `mdelay(ms)` of the flat interpreter; every other call is kept. -/
def Call.as_delay : Call → Call
  | Call.msleep ms => Call.mdelay (ms : Int)
  | c => c

/-- The memory `seq` holds the entries `l` from index `i` on. -/
def agrees (seq : Nat → Int) (i : Nat) (l : List Int) : Prop :=
  ∀ n, n < l.length → seq (i + n) = l.getD n 0

/-! ## Address window -/

/-- Modelled from the spec: the MIPI DCS command numbers come from the kernel header
`video/mipi_display.h`; the spec gives the set-column-address command as `0x2A`. -/
def MIPI_DCS_SET_COLUMN_ADDRESS : Int := 0x2A

/-- Modelled from the spec: the set-page-address command, `0x2B`. -/
def MIPI_DCS_SET_PAGE_ADDRESS : Int := 0x2B

/-- Modelled from the spec: the write-memory-start command, `0x2C`. -/
def MIPI_DCS_WRITE_MEMORY_START : Int := 0x2C

/-- Modelled from the spec: the macro `write_reg(par, ...)` is defined in `fbtft.h`, which is
not among the sources; it is the register encoder `par->fbtftops.write_register` called with
the number of values and the values (register first, then data). -/
def write_reg (vals : List Int) : Call := Call.write_register vals.length vals

/-- The function `fbtft_set_addr_win(par, xs, ys, xe, ye)` (lines 217-227); the coordinates are
`int`, `>>` is the arithmetic shift and `&` the bitwise and. -/
def fbtft_set_addr_win (xs ys xe ye : Int) : List Call :=
  [write_reg [MIPI_DCS_SET_COLUMN_ADDRESS,
      Int.land (xs >>> 8) 0xFF, Int.land xs 0xFF, Int.land (xe >>> 8) 0xFF, Int.land xe 0xFF],
   write_reg [MIPI_DCS_SET_PAGE_ADDRESS,
      Int.land (ys >>> 8) 0xFF, Int.land ys 0xFF, Int.land (ye >>> 8) 0xFF, Int.land ye 0xFF],
   write_reg [MIPI_DCS_WRITE_MEMORY_START]]

/-! ## Probe: the operation table -/

/-- The functions that can sit in a slot of `struct fbtft_ops`: the ones `fbtft-core.c` and
`fbtft-bus.c` / `fbtft-io.c` provide, named as in the source, and `driver id` for a function
supplied by the panel driver in its descriptor. -/
inductive Fn where
  | fbtft_write_spi : Fn
  | fbtft_read_spi : Fn
  | fbtft_write_spi_emulate_9 : Fn
  | fbtft_write_gpio8_wr : Fn
  | fbtft_write_gpio16_wr : Fn
  | fbtft_write_vmem16_bus8 : Fn
  | fbtft_write_vmem16_bus9 : Fn
  | fbtft_write_vmem16_bus16 : Fn
  | fbtft_write_reg8_bus8 : Fn
  | fbtft_write_reg8_bus9 : Fn
  | fbtft_write_reg16_bus8 : Fn
  | fbtft_write_reg16_bus16 : Fn
  | fbtft_set_addr_win : Fn
  | fbtft_reset : Fn
  | fbtft_register_backlight : Fn
  | fbtft_init_display : Fn
  | fbtft_init_display_dt : Fn
  | driver (id : Nat) : Fn
  deriving DecidableEq, Repr

/-- The operation table `struct fbtft_ops` with the twelve slots that
`fbtft_merge_fbtftops` copies; `none` is a null pointer. -/
structure fbtft_ops where
  write : Option Fn
  read : Option Fn
  write_vmem : Option Fn
  write_register : Option Fn
  set_addr_win : Option Fn
  reset : Option Fn
  init_display : Option Fn
  blank : Option Fn
  register_backlight : Option Fn
  unregister_backlight : Option Fn
  set_var : Option Fn
  set_gamma : Option Fn
  deriving DecidableEq, Repr

/-- The table of a zeroed `struct fbtft_par` (`devm_kzalloc`): every slot null. -/
def no_ops : fbtft_ops :=
  { write := none, read := none, write_vmem := none, write_register := none,
    set_addr_win := none, reset := none, init_display := none, blank := none,
    register_backlight := none, unregister_backlight := none, set_var := none,
    set_gamma := none }

/-- One slot of `fbtft_merge_fbtftops`: `if (src->f) dst->f = src->f;`. -/
def merge_slot (dst src : Option Fn) : Option Fn :=
  match src with
  | some f => some f
  | none => dst

/-- The function `fbtft_merge_fbtftops(dst, src)` (lines 449-475): the new `*dst`. -/
def fbtft_merge_fbtftops (dst src : fbtft_ops) : fbtft_ops :=
  { write := merge_slot dst.write src.write,
    read := merge_slot dst.read src.read,
    write_vmem := merge_slot dst.write_vmem src.write_vmem,
    write_register := merge_slot dst.write_register src.write_register,
    set_addr_win := merge_slot dst.set_addr_win src.set_addr_win,
    reset := merge_slot dst.reset src.reset,
    init_display := merge_slot dst.init_display src.init_display,
    blank := merge_slot dst.blank src.blank,
    register_backlight := merge_slot dst.register_backlight src.register_backlight,
    unregister_backlight := merge_slot dst.unregister_backlight src.unregister_backlight,
    set_var := merge_slot dst.set_var src.set_var,
    set_gamma := merge_slot dst.set_gamma src.set_gamma }

/-- The assignments of lines 1157-1164 on the zeroed table: the defaults, and
`fbtft_register_backlight` when `display->backlight` is not zero. -/
def base_ops (backlight : Nat) : fbtft_ops :=
  { write := some Fn.fbtft_write_spi,
    read := some Fn.fbtft_read_spi,
    write_vmem := some Fn.fbtft_write_vmem16_bus8,
    write_register := some Fn.fbtft_write_reg8_bus8,
    set_addr_win := some Fn.fbtft_set_addr_win,
    reset := some Fn.fbtft_reset,
    init_display := none,
    blank := none,
    register_backlight := if backlight ≠ 0 then some Fn.fbtft_register_backlight else none,
    unregister_backlight := none,
    set_var := none,
    set_gamma := none }

/-- The assignment `par->fbtftops.write_register = f`. -/
def set_write_register (t : fbtft_ops) (f : Fn) : fbtft_ops :=
  { t with write_register := some f }

/-- The assignment `par->fbtftops.write_vmem = f`. -/
def set_write_vmem (t : fbtft_ops) (f : Fn) : fbtft_ops := { t with write_vmem := some f }

/-- The assignment `par->fbtftops.write = f`. -/
def set_write (t : fbtft_ops) (f : Fn) : fbtft_ops := { t with write := some f }

/-- The choice of the register encoder (lines 1166-1180); `spi` tells whether `par->spi` is
set. The last branch only warns. -/
def select_write_register (t : fbtft_ops) (regwidth buswidth : Nat) (spi : Bool) : fbtft_ops :=
  if regwidth = 8 ∧ buswidth = 8 then set_write_register t Fn.fbtft_write_reg8_bus8
  else if regwidth = 8 ∧ buswidth = 9 ∧ spi = true then
    set_write_register t Fn.fbtft_write_reg8_bus9
  else if regwidth = 16 ∧ buswidth = 8 then set_write_register t Fn.fbtft_write_reg16_bus8
  else if regwidth = 16 ∧ buswidth = 16 then set_write_register t Fn.fbtft_write_reg16_bus16
  else t

/-- The choice of the pixel encoder (lines 1182-1188). -/
def select_write_vmem (t : fbtft_ops) (buswidth : Nat) : fbtft_ops :=
  if buswidth = 8 then set_write_vmem t Fn.fbtft_write_vmem16_bus8
  else if buswidth = 9 then set_write_vmem t Fn.fbtft_write_vmem16_bus9
  else if buswidth = 16 then set_write_vmem t Fn.fbtft_write_vmem16_bus16
  else t

/-- The choice of the GPIO `write` function (lines 1190-1196); `pdev` tells whether
`par->pdev` is set. -/
def select_gpio_write (t : fbtft_ops) (buswidth : Nat) (pdev : Bool) : fbtft_ops :=
  if pdev = true then
    if buswidth = 8 then set_write t Fn.fbtft_write_gpio8_wr
    else if buswidth = 16 then set_write t Fn.fbtft_write_gpio16_wr
    else t
  else t

/-- The default selection of `fbtft_probe_common` (lines 1157-1196), before the 9-bit SPI
setup and before the panel driver's table is merged in: the content of `par->fbtftops`,
starting from the zeroed table. `spi` and `pdev` tell whether `par->spi` and `par->pdev` are
set; `backlight`, `regwidth`, `buswidth` are the fields of the descriptor. -/
def default_ops (regwidth buswidth backlight : Nat) (spi pdev : Bool) : fbtft_ops :=
  select_gpio_write
    (select_write_vmem (select_write_register (base_ops backlight) regwidth buswidth spi)
      buswidth)
    buswidth pdev

/-- The 9-bit SPI setup of `fbtft_probe_common` (lines 1199-1213) on the operation table:
when the SPI master cannot do 9 bits per word (`spi_9bit = false`) the `write` slot becomes
the emulation. The allocation of `par->extra` is taken to succeed (its failure ends the probe
with `-ENOMEM`). -/
def spi9_setup (t : fbtft_ops) (buswidth : Nat) (spi spi_9bit : Bool) : fbtft_ops :=
  if spi = true ∧ buswidth = 9 then
    if spi_9bit = true then t
    else set_write t Fn.fbtft_write_spi_emulate_9
  else t

/-- The operation tables when `fbtft_probe_common` reaches `fbtft_framebuffer_alloc`
(lines 1157-1220): first `par->fbtftops`, then `display->fbtftops` (the descriptor copy inside
`par`). `display_ops` is the table of the panel descriptor, `init_prop` tells whether the
device node has an `init` property and `has_init_sequence` whether `par->init_sequence` is
set. -/
def probe_ops (regwidth buswidth backlight : Nat) (display_ops : fbtft_ops)
    (spi pdev spi_9bit init_prop has_init_sequence : Bool) : fbtft_ops × fbtft_ops :=
  let t := spi9_setup (default_ops regwidth buswidth backlight spi pdev) buswidth spi spi_9bit
  let par_ops := fbtft_merge_fbtftops t display_ops
  if init_prop = true then
    (par_ops, { display_ops with init_display := some Fn.fbtft_init_display_dt })
  else if has_init_sequence = true then
    ({ par_ops with init_display := some Fn.fbtft_init_display }, display_ops)
  else (par_ops, display_ops)

/-- What `fbtft_register_framebuffer` does about `init_display`: it returns an error code, or
it calls a function. -/
inductive InitChoice where
  | fails (ret : Int) : InitChoice
  | calls (f : Fn) : InitChoice
  deriving DecidableEq, Repr

/-- The sanity check at the head of `fbtft_register_framebuffer` (lines 662-666) and the
function it goes on to call at line 681: `-EINVAL` when `par->fbtftops.init_display` is null,
else that function. -/
def registered_init_display (par_ops : fbtft_ops) : InitChoice :=
  match par_ops.init_display with
  | none => InitChoice.fails EINVAL_neg
  | some f => InitChoice.calls f

/-- The transmit buffer length computed by `fbtft_probe_common` at lines 1133-1148: the value
of the local `txbuflen` when line 1150 is reached. `width`, `height` and `bpp` are the fields
of `par->display` and `prop_txbuflen` the local `txbuflen` at line 1133, all after the property
overrides of lines 1034-1070; `display_txbuflen` is the descriptor's field (an `int`, `-1` asks
for the whole frame), `little_endian` tells whether `__LITTLE_ENDIAN` is defined; all
arithmetic is `unsigned int`. Whether line 1133 is reached at all is decided by `probe_setup`;
`fbtft_probe_common_txbuf` puts the two together. -/
def probe_txbuflen (width height bpp prop_txbuflen : Nat) (display_txbuflen : Int)
    (little_endian : Bool) (PAGE_SIZE : Nat) : Nat :=
  let vmem_size : Nat := (width * height * bpp) % U32 / 8
  let t1 : Nat :=
    if prop_txbuflen = 0 ∧ display_txbuflen = -1 then (vmem_size + 2) % U32 else prop_txbuflen
  let t2 : Nat := if t1 = 0 then to_u32 display_txbuflen else t1
  let t3 : Nat := if t2 > (vmem_size + 2) % U32 then (vmem_size + 2) % U32 else t2
  if little_endian = true ∧ t3 = 0 ∧ bpp > 8 then PAGE_SIZE % U32 else t3

/-! ## Probe: the steps before the transmit buffer -/

/-- The value `-ENOMEM`. -/
def ENOMEM_neg : Int := -12

/-- A device property as `fbtft_property_unsigned` meets it: not present, or present with the
return value of `device_property_read_u32` and the value that call reads. -/
inductive DevProp where
  | absent : DevProp
  | present (ret : Int) (val32 : Nat) : DevProp
  deriving DecidableEq, Repr

/-- Function `fbtft_property_unsigned` (lines 959-975): its return value and the content of
`*val` afterwards. An absent property and a failed read leave `*val` as it was. -/
def fbtft_property_unsigned (p : DevProp) (val : Nat) : Int × Nat :=
  match p with
  | DevProp.absent => (0, val)
  | DevProp.present ret val32 => if ret ≠ 0 then (ret, val) else (0, val32 % U32)

/-- Lines 1074-1078 of `fbtft_probe_common`: the `gamma` string property, `none` when it is
absent and the return value of `device_property_read_string` otherwise. The result is the
value tested by `if (ret)` and whether `display->gamma` is non-null afterwards; a successful
read stores the string of the property. -/
def gamma_property (p : Option Int) (gamma : Bool) : Int × Bool :=
  match p with
  | none => (0, gamma)
  | some ret => if ret ≠ 0 then (ret, gamma) else (0, true)

/-- What `fbtft_probe_common` is given and what its environment answers, as far as lines
1003-1155 use them.

* The panel descriptor `*display`: `width`, `height`, `regwidth`, `buswidth`, `backlight`,
  `bpp` (`unsigned int`), `txbuflen`, `gamma_num`, `gamma_len` (`int`) and whether the `gamma`
  string is non-null. `struct fbtft_display` and `FBTFT_GAMMA_MAX_VALUES_TOTAL` are declared in
  `fbtft.h`, which is not among the sources; the limit is a parameter.
* The device properties, and whether the node has `led-gpios`; `prop_gamma` is `none` when
  the `gamma` property is absent and the return value of `device_property_read_string`
  otherwise.
* Whether each allocation succeeds: `par`, `par->buf`, `par->pdata`, the gamma curves and the
  transmit buffer.
* The return value of `fbtft_gamma_parse_str` (not among the sources).
* The platform: whether `__LITTLE_ENDIAN` is defined, and `PAGE_SIZE`. -/
structure probe_env where
  width : Nat
  height : Nat
  regwidth : Nat
  buswidth : Nat
  backlight : Nat
  bpp : Nat
  txbuflen : Int
  gamma : Bool
  gamma_num : Int
  gamma_len : Int
  FBTFT_GAMMA_MAX_VALUES_TOTAL : Int
  prop_width : DevProp
  prop_height : DevProp
  prop_regwidth : DevProp
  prop_buswidth : DevProp
  prop_backlight : DevProp
  prop_bpp : DevProp
  prop_rotate : DevProp
  prop_txbuflen : DevProp
  prop_startbyte : DevProp
  prop_gamma : Option Int
  led_gpios : Bool
  par_alloc : Bool
  buf_alloc : Bool
  pdata_alloc : Bool
  curves_alloc : Bool
  txbuf_alloc : Bool
  gamma_parse_ret : Int
  little_endian : Bool
  PAGE_SIZE : Nat
  deriving DecidableEq, Repr

/-- The fields of `par->display` and the locals of `fbtft_probe_common` that the property
reads of lines 1034-1081 set, as they stand at line 1133. -/
structure probe_locals where
  width : Nat
  height : Nat
  regwidth : Nat
  buswidth : Nat
  backlight : Nat
  bpp : Nat
  rotate : Nat
  txbuflen : Nat
  startbyte : Nat
  deriving DecidableEq, Repr

/-- How lines 1003-1131 of `fbtft_probe_common` end: with a `return` of an error code, or at
line 1133 with the locals set. -/
inductive Setup where
  | returns (ret : Int) : Setup
  | reaches (l : probe_locals) : Setup
  deriving DecidableEq, Repr

/-- Lines 1003-1131 of `fbtft_probe_common`, in program order: the gamma size check (the `int`
product wraps, as the kernel is built), the allocation of `par` and of `par->buf`, the default
of 16 for a zero `bpp`, the nine `fbtft_property_unsigned` reads, each returning its error, the
`gamma` string read, `led-gpios` forcing `backlight` to 1, the `buswidth is not set` check, the
allocation of `par->pdata` and of the gamma curves, and the gamma parse. The default of
`display->fps` and the stores into `par` that no later test reads are left out. -/
def probe_setup (e : probe_env) : Setup :=
  if to_int (to_u32 (e.gamma_num * e.gamma_len)) > e.FBTFT_GAMMA_MAX_VALUES_TOTAL then
    Setup.returns EINVAL_neg
  else if e.par_alloc = false then Setup.returns ENOMEM_neg
  else if e.buf_alloc = false then Setup.returns ENOMEM_neg
  else if (fbtft_property_unsigned e.prop_width e.width).1 ≠ 0 then
    Setup.returns (fbtft_property_unsigned e.prop_width e.width).1
  else if (fbtft_property_unsigned e.prop_height e.height).1 ≠ 0 then
    Setup.returns (fbtft_property_unsigned e.prop_height e.height).1
  else if (fbtft_property_unsigned e.prop_regwidth e.regwidth).1 ≠ 0 then
    Setup.returns (fbtft_property_unsigned e.prop_regwidth e.regwidth).1
  else if (fbtft_property_unsigned e.prop_buswidth e.buswidth).1 ≠ 0 then
    Setup.returns (fbtft_property_unsigned e.prop_buswidth e.buswidth).1
  else if (fbtft_property_unsigned e.prop_backlight e.backlight).1 ≠ 0 then
    Setup.returns (fbtft_property_unsigned e.prop_backlight e.backlight).1
  else if (fbtft_property_unsigned e.prop_bpp (if e.bpp = 0 then 16 else e.bpp)).1 ≠ 0 then
    Setup.returns (fbtft_property_unsigned e.prop_bpp (if e.bpp = 0 then 16 else e.bpp)).1
  else if (fbtft_property_unsigned e.prop_rotate 0).1 ≠ 0 then
    Setup.returns (fbtft_property_unsigned e.prop_rotate 0).1
  else if (fbtft_property_unsigned e.prop_txbuflen 0).1 ≠ 0 then
    Setup.returns (fbtft_property_unsigned e.prop_txbuflen 0).1
  else if (fbtft_property_unsigned e.prop_startbyte 0).1 ≠ 0 then
    Setup.returns (fbtft_property_unsigned e.prop_startbyte 0).1
  else if (gamma_property e.prop_gamma e.gamma).1 ≠ 0 then
    Setup.returns (gamma_property e.prop_gamma e.gamma).1
  else if (fbtft_property_unsigned e.prop_buswidth e.buswidth).2 = 0 then
    Setup.returns EINVAL_neg
  else if e.pdata_alloc = false then Setup.returns ENOMEM_neg
  else if (e.gamma_num ≠ 0 ∧ e.gamma_len ≠ 0) ∧ e.curves_alloc = false then
    Setup.returns ENOMEM_neg
  else if ((e.gamma_num ≠ 0 ∧ e.gamma_len ≠ 0) ∧
      (gamma_property e.prop_gamma e.gamma).2 = true) ∧ e.gamma_parse_ret ≠ 0 then
    Setup.returns ENOMEM_neg
  else
    Setup.reaches (probe_locals.mk
      (fbtft_property_unsigned e.prop_width e.width).2
      (fbtft_property_unsigned e.prop_height e.height).2
      (fbtft_property_unsigned e.prop_regwidth e.regwidth).2
      (fbtft_property_unsigned e.prop_buswidth e.buswidth).2
      (if e.led_gpios = true then 1 else (fbtft_property_unsigned e.prop_backlight e.backlight).2)
      (fbtft_property_unsigned e.prop_bpp (if e.bpp = 0 then 16 else e.bpp)).2
      (fbtft_property_unsigned e.prop_rotate 0).2
      (fbtft_property_unsigned e.prop_txbuflen 0).2
      (fbtft_property_unsigned e.prop_startbyte 0).2)

/-- The outcome of `fbtft_probe_common` as far as the transmit buffer goes: the error code when
the function returns at or before line 1154 (`none` when it goes on to line 1157), and
`par->txbuf.len` at that point, 0 when `par` itself was not allocated. -/
structure ProbeTx where
  ret : Option Int
  txbuf_len : Nat
  deriving DecidableEq, Repr

/-- Lines 1003-1155 of `fbtft_probe_common`: `probe_setup`, then the length of lines
1133-1148, which line 1151 stores in the zeroed `par->txbuf.len` when it is not 0, and the
allocation of the buffer, whose failure returns `-ENOMEM`. -/
def fbtft_probe_common_txbuf (e : probe_env) : ProbeTx :=
  match probe_setup e with
  | Setup.returns ret => ProbeTx.mk (some ret) 0
  | Setup.reaches l =>
    if probe_txbuflen l.width l.height l.bpp l.txbuflen e.txbuflen e.little_endian e.PAGE_SIZE
        ≠ 0 then
      ProbeTx.mk (if e.txbuf_alloc = false then some ENOMEM_neg else none)
        (probe_txbuflen l.width l.height l.bpp l.txbuflen e.txbuflen e.little_endian
          e.PAGE_SIZE)
    else ProbeTx.mk none 0

/-- A configuration with no device property, no gamma curves and every allocation succeeding:
a panel descriptor with the given geometry, bus width, pixel depth and `txbuflen`, register
width 8, on a little-endian host with 4096-byte pages. -/
def plain_env (width height buswidth bpp : Nat) (txbuflen : Int) : probe_env :=
  { width := width
    height := height
    regwidth := 8
    buswidth := buswidth
    backlight := 0
    bpp := bpp
    txbuflen := txbuflen
    gamma := false
    gamma_num := 0
    gamma_len := 0
    FBTFT_GAMMA_MAX_VALUES_TOTAL := 128
    prop_width := DevProp.absent
    prop_height := DevProp.absent
    prop_regwidth := DevProp.absent
    prop_buswidth := DevProp.absent
    prop_backlight := DevProp.absent
    prop_bpp := DevProp.absent
    prop_rotate := DevProp.absent
    prop_txbuflen := DevProp.absent
    prop_startbyte := DevProp.absent
    prop_gamma := none
    led_gpios := false
    par_alloc := true
    buf_alloc := true
    pdata_alloc := true
    curves_alloc := true
    txbuf_alloc := true
    gamma_parse_ret := 0
    little_endian := true
    PAGE_SIZE := 4096 }

/-! ## Framebuffer allocation, palette and GPIO verification -/

/-- A `struct fb_bitfield`: the offset and the length of a colour field. -/
structure fb_bitfield where
  offset : Nat
  length : Nat
  deriving DecidableEq, Repr

/-- What `fbtft_framebuffer_alloc` stores in `struct fb_info` about the geometry and the pixel
layout: `var.xres`, `var.yres`, `fix.line_length`, `fix.smem_len`, whether `fix.visual` is
`FB_VISUAL_TRUECOLOR`, and the bit fields `var.red`, `var.green`, `var.blue`. -/
structure fb_info where
  xres : Nat
  yres : Nat
  line_length : Nat
  smem_len : Nat
  truecolor : Bool
  red : fb_bitfield
  green : fb_bitfield
  blue : fb_bitfield
  deriving DecidableEq, Repr

/-- The function `fbtft_framebuffer_alloc(par, display, dev, rotate)` (lines 540-614), on the
path where every allocation succeeds: the geometry and layout it stores. `dwidth`, `dheight`
and `bpp` are `display->width`, `display->height` and `display->bpp`; the products are
`unsigned int`. -/
def fbtft_framebuffer_alloc (dwidth dheight bpp rotate : Nat) : fb_info :=
  let width : Nat := if rotate = 90 ∨ rotate = 270 then dheight else dwidth
  let height : Nat := if rotate = 90 ∨ rotate = 270 then dwidth else dheight
  let vmem_size : Nat := (width * height * bpp) % U32 / 8
  { xres := width,
    yres := height,
    line_length := (width * bpp) % U32 / 8,
    smem_len := vmem_size,
    truecolor := true,
    red := { offset := 11, length := 5 },
    green := { offset := 5, length := 6 },
    blue := { offset := 0, length := 5 } }

/-- The state of the dirty tracker and flush for a framebuffer with the geometry `info`. -/
def par_of_info (info : fb_info) (saw : Bool) (dirty_start dirty_end : Nat) : fbtft_par :=
  { xres := info.xres, yres := info.yres, line_length := info.line_length,
    set_addr_win := saw, dirty_lines_start := dirty_start, dirty_lines_end := dirty_end }

/-- The function `chan_to_field(chan, bf)` (lines 388-393) on `unsigned int` values, for a
field length of at most 16. -/
def chan_to_field (chan : Nat) (bf : fb_bitfield) : Nat :=
  (((chan &&& 0xffff) >>> (16 - bf.length)) <<< bf.offset) % U32

/-- The function `fbtft_fb_setcolreg(regno, red, green, blue, transp, info)` (lines 395-422):
the return value and the new content of `info->pseudo_palette`, given as the list of its
entries. The argument `transp` is not used by the function. -/
def fbtft_fb_setcolreg (info : fb_info) (pal : List Nat) (regno red green blue _transp : Nat) :
    Int × List Nat :=
  if info.truecolor = true then
    if regno < 16 then
      (0, pal.set regno
        (chan_to_field red info.red ||| chan_to_field green info.green
          ||| chan_to_field blue info.blue))
    else (1, pal)
  else (1, pal)

/-- The loop over the data lines of `fbtft_verify_gpios` (lines 497-503) with `n` iterations
left, at index `i`: `-EINVAL` at the first `db[i] < 0`, else falls through to `return 0`. -/
def db_loop (db : Nat → Int) : Nat → Nat → Int
  | 0, _ => 0
  | n + 1, i => if db i < 0 then EINVAL_neg else db_loop db n (i + 1)

/-- The function `fbtft_verify_gpios(par)` (lines 477-506): `buswidth` is
`par->display.buswidth`, `startbyte` is `par->startbyte`, `pdev` tells whether `par->pdev` is
set, `dc`, `wr` and `db` are the GPIO numbers in `par->gpio` (`-1` when the line is absent). -/
def fbtft_verify_gpios (buswidth startbyte : Nat) (pdev : Bool) (dc wr : Int) (db : Nat → Int) :
    Int :=
  if buswidth ≠ 9 ∧ startbyte = 0 ∧ dc < 0 then EINVAL_neg
  else if pdev = false then 0
  else if wr < 0 then EINVAL_neg
  else db_loop db buswidth 0

/-! ## The flat interpreter with its reads recorded -/

/-- The place where a run of `fbtft_init_display` ends: one of its `return` statements (with
the value of `i` there), or the overflow of `msg[128]`, or the model's steps used up. -/
inductive Exit where
  | no_sequence : Exit
  | no_stop_marker : Exit
  | done (i : Nat) : Exit
  | missing_delimiter (i : Nat) : Exit
  | missing_value (i : Nat) : Exit
  | values_exceeded (i : Nat) : Exit
  | unknown_delimiter (i : Nat) : Exit
  | fell_through : Exit
  | msg_overflow : Exit
  | out_of_fuel : Exit
  deriving DecidableEq, Repr

/-- A run of `fbtft_init_display` seen from `init_sequence`: the indices read, in order, and
the place where the run ends. -/
structure Walk where
  reads : List Nat
  exit : Exit
  deriving DecidableEq, Repr

/-- The walk that first reads the indices `rs` and continues as `w`. -/
def Walk.after_reads (rs : List Nat) (w : Walk) : Walk := { w with reads := rs ++ w.reads }

/-- The status of a run that ends at the given place: `return 0` at the stop marker,
`return -EINVAL` at every other `return`. -/
def Exit.status : Exit → Status
  | Exit.done _ => Status.returned 0
  | Exit.msg_overflow => Status.msg_overflow
  | Exit.out_of_fuel => Status.out_of_fuel
  | _ => Status.returned EINVAL_neg

/-- The stop-marker scan (`stop_scan`) with the indices it reads. -/
def stop_scan_walk (seq : Nat → Int) : Nat → Nat → List Nat × Nat
  | 0, i => ([], i)
  | n + 1, i =>
    if seq i = -3 then ([i], i)
    else (i :: (stop_scan_walk seq n (i + 1)).1, (stop_scan_walk seq n (i + 1)).2)

/-- The debug-message loop (`debug_msg`) with the indices it reads: `init_sequence[j]` in the
loop condition and in the `sprintf`. -/
def debug_msg_walk (seq : Nat → Int) : Nat → Nat → Nat → List Nat × Msg
  | 0, _, _ => ([], Msg.unfinished)
  | fuel + 1, j, len =>
    if seq j ≥ 0 then
      if len + (2 + hex_width (seq j) + 1) + 1 > 128 then ([j], Msg.overflow)
      else
        (j :: (debug_msg_walk seq fuel (j + 1) (len + (2 + hex_width (seq j) + 1))).1,
         (debug_msg_walk seq fuel (j + 1) (len + (2 + hex_width (seq j) + 1))).2)
    else ([j], Msg.fits)

/-- The write loop (`write_loop`) with the indices it reads: `init_sequence[i]` in the loop
condition and in the store to `buf`. -/
def write_loop_walk (seq : Nat → Int) : Nat → Nat → List Int → List Nat × Collected
  | 0, _, _ => ([], Collected.unfinished)
  | fuel + 1, i, buf =>
    if seq i ≥ 0 then
      if buf.length > 63 then ([i], Collected.exceeded)
      else
        (i :: (write_loop_walk seq fuel (i + 1) (buf ++ [seq i])).1,
         (write_loop_walk seq fuel (i + 1) (buf ++ [seq i])).2)
    else ([i], Collected.done i buf)

/-- The main loop (`init_loop`) with the indices it reads and the place where it ends: each
iteration reads `init_sequence[i]`, then (unless it stops there) the look-ahead
`init_sequence[i + 1]`, then the debug loop from `i + 2` and the write loop from `i + 1`, or
the delay value at `i + 1`. -/
def init_loop_walk (MAX : Nat) (seq : Nat → Int) : Nat → Nat → Walk
  | 0, _ => ⟨[], Exit.out_of_fuel⟩
  | fuel + 1, i =>
    if i < MAX then
      if seq i = -3 then ⟨[i], Exit.done i⟩
      else if seq i ≥ 0 then ⟨[i], Exit.missing_delimiter i⟩
      else if seq (i + 1) < 0 then ⟨[i, i + 1], Exit.missing_value i⟩
      else if seq i = -1 then
        match debug_msg_walk seq 128 (i + 2) 0 with
        | (rd, Msg.overflow) => ⟨[i, i + 1] ++ rd, Exit.msg_overflow⟩
        | (rd, Msg.unfinished) => ⟨[i, i + 1] ++ rd, Exit.out_of_fuel⟩
        | (rd, Msg.fits) =>
          match write_loop_walk seq 65 (i + 1) [] with
          | (rw, Collected.exceeded) => ⟨[i, i + 1] ++ rd ++ rw, Exit.values_exceeded i⟩
          | (rw, Collected.unfinished) => ⟨[i, i + 1] ++ rd ++ rw, Exit.out_of_fuel⟩
          | (rw, Collected.done i1 _) =>
            (init_loop_walk MAX seq fuel i1).after_reads ([i, i + 1] ++ rd ++ rw)
      else if seq i = -2 then
        (init_loop_walk MAX seq fuel (i + 2)).after_reads [i, i + 1]
      else ⟨[i, i + 1], Exit.unknown_delimiter i⟩
    else ⟨[], Exit.fell_through⟩

/-- The function `fbtft_init_display` with the indices of `init_sequence` it reads and the
place where it ends (the calls are those of `fbtft_init_display`). -/
def fbtft_init_display_walk (MAX : Nat) (init_sequence : Option (Nat → Int)) : Walk :=
  match init_sequence with
  | none => ⟨[], Exit.no_sequence⟩
  | some seq =>
    if (stop_scan_walk seq MAX 0).2 = MAX then ⟨(stop_scan_walk seq MAX 0).1, Exit.no_stop_marker⟩
    else (init_loop_walk MAX seq MAX 0).after_reads (stop_scan_walk seq MAX 0).1

/-- The run ends inside the program whose stop marker is at index `k`: with `return 0` at
index `k`, or with one of the `return -EINVAL` of the loop body at an index below `k`, or
with the overflow of `msg[128]`. -/
def Exit.within (k : Nat) : Exit → Prop
  | Exit.done i => i = k
  | Exit.missing_delimiter i => i < k
  | Exit.missing_value i => i < k
  | Exit.values_exceeded i => i < k
  | Exit.unknown_delimiter i => i < k
  | Exit.msg_overflow => True
  | _ => False

/-! ## Dirty tracking: auxiliary lemmas -/

theorem to_u32_of_range (x : Int) (h0 : 0 ≤ x) (h1 : x < 4294967296) : to_u32 x = x.toNat := by
  unfold to_u32
  omega

theorem yres_m1_eq (par : fbtft_par) (h1 : 1 ≤ par.yres) (h2 : par.yres < 4294967296) :
    yres_m1 par = par.yres - 1 := by
  unfold yres_m1 to_u32
  omega

theorem transfer_congr (p q : fbtft_par) (a b : Nat) (hx : p.xres = q.xres)
    (hl : p.line_length = q.line_length) (hs : p.set_addr_win = q.set_addr_win) :
    transfer p a b = transfer q a b := by
  unfold transfer
  rw [hx, hl, hs]

theorem deferred_io_calls (PS BPL : Nat) (par : fbtft_par) (pagelist : List Nat) :
    (fbtft_deferred_io PS BPL par pagelist).2
      = transfer par (flush_lines PS BPL par pagelist).1 (flush_lines PS BPL par pagelist).2 := by
  unfold fbtft_deferred_io flush_lines fbtft_update_display
  exact transfer_congr _ _ _ _ rfl rfl rfl

theorem sanity_cases (par : fbtft_par) (s e : Nat) :
    sanity par s e = (0, yres_m1 par) ∨
      (sanity par s e = (s, e) ∧ s ≤ e ∧ e ≤ yres_m1 par) := by
  unfold sanity
  by_cases h1 : s > e
  · simp [h1]
  · by_cases h2 : s > yres_m1 par ∨ e > yres_m1 par
    · simp [h1, h2]
    · right
      simp only [h1, if_false, h2]
      refine ⟨trivial, ?_, ?_⟩ <;> omega

theorem ite_lt_le (a b : Nat) :
    (if a < b then a else b) ≤ b ∧ (if a < b then a else b) ≤ a := by
  split <;> omega

theorem ite_gt_ge (a b : Nat) :
    b ≤ (if a > b then a else b) ∧ a ≤ (if a > b then a else b) := by
  split <;> omega

theorem page_merge_mono (PS BPL : Nat) (par : fbtft_par) (se : Nat × Nat) (pg : Nat) :
    (page_merge PS BPL par se pg).1 ≤ se.1 ∧ se.2 ≤ (page_merge PS BPL par se pg).2 := by
  unfold page_merge
  exact ⟨(ite_lt_le _ _).1, (ite_gt_ge _ _).1⟩

theorem page_fold_mono (PS BPL : Nat) (par : fbtft_par) (pages : List Nat) :
    ∀ se : Nat × Nat, (pages.foldl (page_merge PS BPL par) se).1 ≤ se.1 ∧
      se.2 ≤ (pages.foldl (page_merge PS BPL par) se).2 := by
  induction pages with
  | nil => intro se; simp
  | cons pg rest ih =>
    intro se
    have h1 := page_merge_mono PS BPL par se pg
    have h2 := ih (page_merge PS BPL par se pg)
    simp only [List.foldl_cons]
    omega

theorem mkdirty_frame (par : fbtft_par) (y h : Int) :
    (fbtft_mkdirty par y h).xres = par.xres ∧ (fbtft_mkdirty par y h).yres = par.yres ∧
      (fbtft_mkdirty par y h).line_length = par.line_length ∧
      (fbtft_mkdirty par y h).set_addr_win = par.set_addr_win := by
  simp [fbtft_mkdirty]

theorem mkdirty_mono (par : fbtft_par) (y h : Int) :
    (fbtft_mkdirty par y h).dirty_lines_start ≤ par.dirty_lines_start ∧
      par.dirty_lines_end ≤ (fbtft_mkdirty par y h).dirty_lines_end := by
  unfold fbtft_mkdirty
  exact ⟨(ite_lt_le _ _).1, (ite_gt_ge _ _).1⟩

theorem mkdirty_covers (par : fbtft_par) (y h : Int) (hy0 : 0 ≤ y) (hy1 : y < 2147483648)
    (hh0 : 1 ≤ h) (hh1 : h < 2147483648) :
    ((fbtft_mkdirty par y h).dirty_lines_start : Int) ≤ y ∧
      y + h - 1 ≤ ((fbtft_mkdirty par y h).dirty_lines_end : Int) := by
  have hne : y ≠ -1 := by omega
  unfold fbtft_mkdirty
  simp only [hne, if_false]
  rw [to_u32_of_range y hy0 (by omega), to_u32_of_range (y + h - 1) (by omega) (by omega)]
  have h1 := (ite_lt_le y.toNat par.dirty_lines_start).2
  have h2 := (ite_gt_ge (y + h - 1).toNat par.dirty_lines_end).2
  constructor
  · show ((if y.toNat < par.dirty_lines_start then y.toNat else par.dirty_lines_start : Nat) : Int)
      ≤ y
    omega
  · show y + h - 1 ≤ ((if (y + h - 1).toNat > par.dirty_lines_end then (y + h - 1).toNat
      else par.dirty_lines_end : Nat) : Int)
    omega

theorem mkdirty_all_frame (marks : List (Int × Int)) :
    ∀ par : fbtft_par, (mkdirty_all par marks).xres = par.xres ∧
      (mkdirty_all par marks).yres = par.yres ∧
      (mkdirty_all par marks).line_length = par.line_length ∧
      (mkdirty_all par marks).set_addr_win = par.set_addr_win := by
  induction marks with
  | nil => intro par; simp [mkdirty_all]
  | cons m rest ih =>
    intro par
    have h1 := mkdirty_frame par m.1 m.2
    have h2 := ih (fbtft_mkdirty par m.1 m.2)
    simp only [mkdirty_all, List.foldl_cons] at h2 ⊢
    refine ⟨h2.1.trans h1.1, h2.2.1.trans h1.2.1, h2.2.2.1.trans h1.2.2.1,
      h2.2.2.2.trans h1.2.2.2⟩

theorem mkdirty_all_mono (marks : List (Int × Int)) :
    ∀ par : fbtft_par, (mkdirty_all par marks).dirty_lines_start ≤ par.dirty_lines_start ∧
      par.dirty_lines_end ≤ (mkdirty_all par marks).dirty_lines_end := by
  induction marks with
  | nil => intro par; simp [mkdirty_all]
  | cons m rest ih =>
    intro par
    have h1 := mkdirty_mono par m.1 m.2
    have h2 := ih (fbtft_mkdirty par m.1 m.2)
    simp only [mkdirty_all, List.foldl_cons] at h2 ⊢
    omega

theorem mkdirty_all_covers (marks : List (Int × Int))
    (hm : ∀ m ∈ marks, 0 ≤ m.1 ∧ m.1 < 2147483648 ∧ 1 ≤ m.2 ∧ m.2 < 2147483648) :
    ∀ par : fbtft_par, ∀ m ∈ marks,
      ((mkdirty_all par marks).dirty_lines_start : Int) ≤ m.1 ∧
        m.1 + m.2 - 1 ≤ ((mkdirty_all par marks).dirty_lines_end : Int) := by
  induction marks with
  | nil => intro par m hmem; simp at hmem
  | cons m0 rest ih =>
    intro par m hmem
    have hrest : ∀ m ∈ rest, 0 ≤ m.1 ∧ m.1 < 2147483648 ∧ 1 ≤ m.2 ∧ m.2 < 2147483648 :=
      fun m hm1 => hm m (List.mem_cons_of_mem _ hm1)
    have hmono := mkdirty_all_mono rest (fbtft_mkdirty par m0.1 m0.2)
    have hstep : mkdirty_all par (m0 :: rest)
        = mkdirty_all (fbtft_mkdirty par m0.1 m0.2) rest := by
      simp [mkdirty_all]
    rw [hstep]
    rcases List.mem_cons.mp hmem with h | h
    · subst h
      obtain ⟨a0, a1, b0, b1⟩ := hm m (List.mem_cons_self _ _)
      have hc := mkdirty_covers par m.1 m.2 a0 a1 b0 b1
      omega
    · exact ih hrest (fbtft_mkdirty par m0.1 m0.2) m h

/-! ## Dirty tracking: the claims -/

/-- C1 (code evaluated at the failing input): on a 240-line display (320 pixels wide, 640
bytes per line), `fbtft_mkdirty(info, -1, 0)` on the empty interval followed by one flush with
an empty page list calls `set_addr_win` with `ye = 238` and `write_vmem` with
`len = 239 * 640`: the last line, 239, is not flushed. -/
theorem C1_full_frame_fallback_misses_last_line :
    (fbtft_deferred_io 12 64 (fbtft_mkdirty (empty_par 320 240 640 true) (-1) 0) []).2
      = [Call.set_addr_win 0 0 319 238, Call.write_vmem 0 (239 * 640)] := by
  decide

/-- The full-frame request of `fbtft_fb_write` on any display with at least two lines:
`fbtft_mkdirty(info, -1, 0)` on the empty interval followed by one flush (empty page list)
transfers the lines `[0, H - 2]`, one line short of the frame. -/
theorem mkdirty_minus_one_flushes_to_H_minus_2 (PS BPL xres H ll : Nat) (saw : Bool)
    (h1 : 2 ≤ H) (h2 : H < 4294967296) :
    (fbtft_deferred_io PS BPL (fbtft_mkdirty (empty_par xres H ll saw) (-1) 0) []).2
      = transfer (empty_par xres H ll saw) 0 (H - 2) := by
  have hym : ∀ q : fbtft_par, q.yres = H → yres_m1 q = H - 1 := by
    intro q hq
    rw [yres_m1_eq q (by omega) (by omega), hq]
  have hmk : fbtft_mkdirty (empty_par xres H ll saw) (-1) 0
      = { empty_par xres H ll saw with dirty_lines_start := 0, dirty_lines_end := H - 2 } := by
    unfold fbtft_mkdirty
    simp only [if_true]
    rw [hym _ rfl]
    have e0 : to_u32 0 = 0 := by decide
    have e1 : to_u32 (0 + to_int (H - 1) - 1) = H - 2 := by
      unfold to_u32 to_int
      split <;> omega
    rw [e0, e1]
    have s1 : (empty_par xres H ll saw).dirty_lines_start = H - 1 := rfl
    have s2 : (empty_par xres H ll saw).dirty_lines_end = 0 := rfl
    rw [s1, s2]
    have a1 : (if 0 < H - 1 then 0 else H - 1) = 0 := by split <;> omega
    have a2 : (if H - 2 > 0 then H - 2 else 0) = H - 2 := by split <;> omega
    rw [a1, a2]
  have hfl : flush_lines PS BPL (fbtft_mkdirty (empty_par xres H ll saw) (-1) 0) []
      = (0, H - 2) := by
    rw [hmk]
    simp only [flush_lines, read_and_reset, List.foldl_nil, sanity]
    rw [hym _ rfl]
    have c1 : ¬ (0 > H - 2) := by omega
    have c2 : ¬ (0 > H - 1 ∨ H - 2 > H - 1) := by omega
    simp only [c1, c2, if_false]
  rw [deferred_io_calls, hfl]
  obtain ⟨fx, _, fl, fs⟩ := mkdirty_frame (empty_par xres H ll saw) (-1) 0
  exact transfer_congr _ _ _ _ fx fl fs

theorem mkdirty_minus_one_flushes_to_H_minus_2_witness :
    (2 ≤ 2 ∧ 2 < 4294967296) ∧
    (fbtft_deferred_io 12 64 (fbtft_mkdirty (empty_par 128 2 256 true) (-1) 0) []).2
      = transfer (empty_par 128 2 256 true) 0 (2 - 2) :=
  ⟨by decide, mkdirty_minus_one_flushes_to_H_minus_2 12 64 128 2 256 true (by decide)
    (by decide)⟩

/-- C2 (counterexample): on a 240-line display a flush that finds the dirty interval empty,
with an empty page list, does transport I/O: it calls `set_addr_win` and `write_vmem` for the
whole frame. -/
theorem C2_empty_interval_flushes_counterexample :
    (fbtft_deferred_io 12 64 (empty_par 320 240 640 true) []).2
      = [Call.set_addr_win 0 0 319 239, Call.write_vmem 0 (240 * 640)] ∧
    (fbtft_deferred_io 12 64 (empty_par 320 240 640 true) []).2 ≠ [] := by
  decide

/-- C2 (amended): for every display height `H ≥ 1`, a flush that runs while the dirty interval
is in its empty state `(H - 1, 0)`, with an empty page list, transfers the full frame: the
lines at the calls are `(0, H - 1)`, so `write_vmem` is always called (and `set_addr_win` when
the operation is set). -/
theorem C2_empty_interval_flushes_full_frame (PS BPL xres H ll : Nat) (saw : Bool)
    (h1 : 1 ≤ H) (h2 : H < 4294967296) :
    (fbtft_deferred_io PS BPL (empty_par xres H ll saw) []).2
      = transfer (empty_par xres H ll saw) 0 (H - 1) ∧
    Call.write_vmem 0 ((H * ll) % U32)
      ∈ (fbtft_deferred_io PS BPL (empty_par xres H ll saw) []).2 := by
  have hy : yres_m1 (empty_par xres H ll saw) = H - 1 := yres_m1_eq _ h1 h2
  have hfl : flush_lines PS BPL (empty_par xres H ll saw) [] = (0, H - 1) := by
    have hy2 : yres_m1 { empty_par xres H ll saw with
        dirty_lines_start := yres_m1 (empty_par xres H ll saw), dirty_lines_end := 0 }
        = H - 1 := yres_m1_eq _ h1 h2
    simp only [flush_lines, read_and_reset, List.foldl_nil, sanity, hy2]
    simp only [empty_par]
    by_cases h : H - 1 > 0
    · simp [h]
    · have : H - 1 = 0 := by omega
      simp [this]
  have hlen : to_u32 (((H - 1 : Nat) : Int) - ((0 : Nat) : Int) + 1) = H := by
    unfold to_u32
    omega
  rw [deferred_io_calls, hfl]
  refine ⟨rfl, ?_⟩
  simp only [transfer, hlen, empty_par]
  simp

theorem C2_empty_interval_flushes_full_frame_witness :
    (1 ≤ 1 ∧ 1 < 4294967296) ∧
    (fbtft_deferred_io 12 64 (empty_par 128 1 256 true) []).2
      = transfer (empty_par 128 1 256 true) 0 (1 - 1) ∧
    Call.write_vmem 0 ((1 * 256) % U32)
      ∈ (fbtft_deferred_io 12 64 (empty_par 128 1 256 true) []).2 :=
  ⟨by decide, C2_empty_interval_flushes_full_frame 12 64 128 1 256 true (by decide) (by decide)⟩

/-- C3: for every display height `H ≥ 1` and every non-empty sequence of
`fbtft_mkdirty(info, y_i, h_i)` calls with `0 ≤ y_i ≤ H - 1` and `h_i ≥ 1` (both `int`),
applied in any order to the empty interval and followed by one flush (`fbtft_deferred_io`,
any page list, `line_length > 0` when pages are listed), the flush calls `set_addr_win` /
`write_vmem` for a line range `[first, last]` with `first ≤ y_i` and
`last ≥ min (y_i + h_i - 1) (H - 1)` for every `i`, that is `first ≤ min_i y_i` and
`last ≥ min (max_i (y_i + h_i - 1)) (H - 1)`. -/
theorem C3_interval_monotonic_coverage (PS BPL xres H ll : Nat) (saw : Bool)
    (marks : List (Int × Int)) (pages : List Nat)
    (hH1 : 1 ≤ H) (hH2 : H < 4294967296) (hll : pages ≠ [] → 0 < ll) (hne : marks ≠ [])
    (hm : ∀ m ∈ marks, (0 ≤ m.1 ∧ m.1 ≤ (H : Int) - 1 ∧ m.1 < 2147483648) ∧
      (1 ≤ m.2 ∧ m.2 < 2147483648)) :
    (fbtft_deferred_io PS BPL (mkdirty_all (empty_par xres H ll saw) marks) pages).2
      = transfer (empty_par xres H ll saw)
          (flush_lines PS BPL (mkdirty_all (empty_par xres H ll saw) marks) pages).1
          (flush_lines PS BPL (mkdirty_all (empty_par xres H ll saw) marks) pages).2 ∧
    ∀ m ∈ marks,
      ((flush_lines PS BPL (mkdirty_all (empty_par xres H ll saw) marks) pages).1 : Int) ≤ m.1 ∧
      min (m.1 + m.2 - 1) ((H : Int) - 1)
        ≤ ((flush_lines PS BPL (mkdirty_all (empty_par xres H ll saw) marks) pages).2 : Int) := by
  have _ := hne
  have _ := hll
  obtain ⟨fx, fy, fl, fs⟩ := mkdirty_all_frame marks (empty_par xres H ll saw)
  constructor
  · rw [deferred_io_calls]
    exact transfer_congr _ _ _ _ fx fl fs
  · intro m hmem
    have hm2 : ∀ m ∈ marks, 0 ≤ m.1 ∧ m.1 < 2147483648 ∧ 1 ≤ m.2 ∧ m.2 < 2147483648 :=
      fun m hm1 => ⟨(hm m hm1).1.1, (hm m hm1).1.2.2, (hm m hm1).2.1, (hm m hm1).2.2⟩
    have hcov := mkdirty_all_covers marks hm2 (empty_par xres H ll saw) m hmem
    have hy : yres_m1 (read_and_reset (mkdirty_all (empty_par xres H ll saw) marks)).2
        = H - 1 := by
      have fy2 : (read_and_reset (mkdirty_all (empty_par xres H ll saw) marks)).2.yres = H := fy
      rw [yres_m1_eq _ (by rw [fy2]; exact hH1) (by rw [fy2]; exact hH2), fy2]
    have hfold := page_fold_mono PS BPL
      (read_and_reset (mkdirty_all (empty_par xres H ll saw) marks)).2 pages
      (read_and_reset (mkdirty_all (empty_par xres H ll saw) marks)).1
    have hr1 : (read_and_reset (mkdirty_all (empty_par xres H ll saw) marks)).1
        = ((mkdirty_all (empty_par xres H ll saw) marks).dirty_lines_start,
           (mkdirty_all (empty_par xres H ll saw) marks).dirty_lines_end) := rfl
    rw [hr1] at hfold
    have hflush : flush_lines PS BPL (mkdirty_all (empty_par xres H ll saw) marks) pages
        = sanity (read_and_reset (mkdirty_all (empty_par xres H ll saw) marks)).2
            (pages.foldl (page_merge PS BPL
              (read_and_reset (mkdirty_all (empty_par xres H ll saw) marks)).2)
              ((mkdirty_all (empty_par xres H ll saw) marks).dirty_lines_start,
               (mkdirty_all (empty_par xres H ll saw) marks).dirty_lines_end)).1
            (pages.foldl (page_merge PS BPL
              (read_and_reset (mkdirty_all (empty_par xres H ll saw) marks)).2)
              ((mkdirty_all (empty_par xres H ll saw) marks).dirty_lines_start,
               (mkdirty_all (empty_par xres H ll saw) marks).dirty_lines_end)).2 := rfl
    rw [hflush]
    rcases sanity_cases (read_and_reset (mkdirty_all (empty_par xres H ll saw) marks)).2
        (pages.foldl (page_merge PS BPL
          (read_and_reset (mkdirty_all (empty_par xres H ll saw) marks)).2)
          ((mkdirty_all (empty_par xres H ll saw) marks).dirty_lines_start,
           (mkdirty_all (empty_par xres H ll saw) marks).dirty_lines_end)).1
        (pages.foldl (page_merge PS BPL
          (read_and_reset (mkdirty_all (empty_par xres H ll saw) marks)).2)
          ((mkdirty_all (empty_par xres H ll saw) marks).dirty_lines_start,
           (mkdirty_all (empty_par xres H ll saw) marks).dirty_lines_end)).2 with hs | hs
    · rw [hs, hy]
      have h0 := (hm m hmem).1.1
      constructor
      · simpa using h0
      · have : (((H - 1 : Nat)) : Int) = (H : Int) - 1 := by omega
        show min (m.1 + m.2 - 1) ((H : Int) - 1) ≤ (((H - 1 : Nat)) : Int)
        rw [this]
        exact min_le_right _ _
    · rw [hs.1]
      dsimp only at hfold ⊢
      constructor
      · omega
      · have := min_le_left (m.1 + m.2 - 1) ((H : Int) - 1)
        omega

theorem C3_interval_monotonic_coverage_witness :
    (1 ≤ 240 ∧ 240 < 4294967296 ∧ (([0] : List Nat) ≠ [] → 0 < 640) ∧
      [((10 : Int), (5 : Int)), (200, 100), (3, 1)] ≠ [] ∧
      ∀ m ∈ [((10 : Int), (5 : Int)), (200, 100), (3, 1)],
        (0 ≤ m.1 ∧ m.1 ≤ ((240 : Nat) : Int) - 1 ∧ m.1 < 2147483648) ∧
        (1 ≤ m.2 ∧ m.2 < 2147483648)) ∧
    ((fbtft_deferred_io 12 64
        (mkdirty_all (empty_par 320 240 640 true) [(10, 5), (200, 100), (3, 1)]) [0]).2
      = transfer (empty_par 320 240 640 true)
          (flush_lines 12 64
            (mkdirty_all (empty_par 320 240 640 true) [(10, 5), (200, 100), (3, 1)]) [0]).1
          (flush_lines 12 64
            (mkdirty_all (empty_par 320 240 640 true) [(10, 5), (200, 100), (3, 1)]) [0]).2 ∧
    ∀ m ∈ [((10 : Int), (5 : Int)), (200, 100), (3, 1)],
      ((flush_lines 12 64
          (mkdirty_all (empty_par 320 240 640 true) [(10, 5), (200, 100), (3, 1)]) [0]).1 : Int)
        ≤ m.1 ∧
      min (m.1 + m.2 - 1) (((240 : Nat) : Int) - 1)
        ≤ ((flush_lines 12 64
          (mkdirty_all (empty_par 320 240 640 true) [(10, 5), (200, 100), (3, 1)]) [0]).2 : Int)) :=
  ⟨by decide,
   C3_interval_monotonic_coverage 12 64 320 240 640 true [(10, 5), (200, 100), (3, 1)] [0]
     (by decide) (by decide) (by decide) (by decide) (by decide)⟩

/-- C4 (counterexample): on a 240-line display, `fbtft_mkdirty(info, 100, 1000)` on the empty
interval followed by one flush transfers the full frame `[0, 239]`, not `[100, 239]`: the start
line 100 is not kept. -/
theorem C4_clamp_counterexample :
    (fbtft_deferred_io 12 64 (fbtft_mkdirty (empty_par 320 240 640 true) 100 1000) []).2
      = [Call.set_addr_win 0 0 319 239, Call.write_vmem 0 (240 * 640)] ∧
    (fbtft_deferred_io 12 64 (fbtft_mkdirty (empty_par 320 240 640 true) 100 1000) []).2
      ≠ [Call.set_addr_win 0 100 319 239, Call.write_vmem (100 * 640) (140 * 640)] := by
  decide

/-- C4 (amended): for every display height `H ≥ 1`, every `y` with `0 ≤ y ≤ H - 1` and every
`height ≥ 1` (both `int`), `fbtft_mkdirty(info, y, height)` on the empty interval followed by
one flush (empty page list) transfers exactly the lines `[y, y + height - 1]` when
`y + height - 1 ≤ H - 1`, and the full frame `[0, H - 1]` when `y + height - 1 > H - 1`. -/
theorem C4_clamp_amended (PS BPL xres H ll : Nat) (saw : Bool) (y height : Int)
    (hH1 : 1 ≤ H) (hH2 : H < 4294967296)
    (hy : 0 ≤ y ∧ y ≤ (H : Int) - 1 ∧ y < 2147483648)
    (hh : 1 ≤ height ∧ height < 2147483648) :
    (fbtft_deferred_io PS BPL (fbtft_mkdirty (empty_par xres H ll saw) y height) []).2
      = if y + height - 1 ≤ (H : Int) - 1 then
          transfer (empty_par xres H ll saw) y.toNat (y + height - 1).toNat
        else transfer (empty_par xres H ll saw) 0 (H - 1) := by
  obtain ⟨hy0, hy1, hy2⟩ := hy
  obtain ⟨hh0, hh1⟩ := hh
  have hne : y ≠ -1 := by omega
  have hmk : fbtft_mkdirty (empty_par xres H ll saw) y height
      = { empty_par xres H ll saw with
          dirty_lines_start := y.toNat, dirty_lines_end := (y + height - 1).toNat } := by
    unfold fbtft_mkdirty
    simp only [hne, if_false]
    rw [to_u32_of_range y hy0 (by omega), to_u32_of_range (y + height - 1) (by omega) (by omega)]
    have e1 : (if y.toNat < (empty_par xres H ll saw).dirty_lines_start then y.toNat
        else (empty_par xres H ll saw).dirty_lines_start) = y.toNat := by
      have : (empty_par xres H ll saw).dirty_lines_start = H - 1 := rfl
      rw [this]
      split <;> omega
    have e2 : (if (y + height - 1).toNat > (empty_par xres H ll saw).dirty_lines_end then
        (y + height - 1).toNat else (empty_par xres H ll saw).dirty_lines_end)
        = (y + height - 1).toNat := by
      have : (empty_par xres H ll saw).dirty_lines_end = 0 := rfl
      rw [this]
      split <;> omega
    rw [e1, e2]
  have hym : ∀ q : fbtft_par, q.yres = H → yres_m1 q = H - 1 := by
    intro q hq
    rw [yres_m1_eq q (by omega) (by omega), hq]
  have hfl : flush_lines PS BPL (fbtft_mkdirty (empty_par xres H ll saw) y height) []
      = if y + height - 1 ≤ (H : Int) - 1 then (y.toNat, (y + height - 1).toNat)
        else (0, H - 1) := by
    rw [hmk]
    simp only [flush_lines, read_and_reset, List.foldl_nil, sanity]
    rw [hym _ rfl]
    have hle : ¬ y.toNat > (y + height - 1).toNat := by omega
    simp only [hle, if_false]
    by_cases hc : y + height - 1 ≤ (H : Int) - 1
    · have h3 : ¬ (y.toNat > H - 1 ∨ (y + height - 1).toNat > H - 1) := by omega
      simp only [hc, h3, if_true, if_false]
    · have h3 : (y.toNat > H - 1 ∨ (y + height - 1).toNat > H - 1) := by omega
      simp only [hc, h3, if_true, if_false]
  rw [deferred_io_calls, hfl]
  have hcongr : ∀ a b, transfer (fbtft_mkdirty (empty_par xres H ll saw) y height) a b
      = transfer (empty_par xres H ll saw) a b := by
    intro a b
    obtain ⟨fx, _, fl, fs⟩ := mkdirty_frame (empty_par xres H ll saw) y height
    exact transfer_congr _ _ _ _ fx fl fs
  rw [hcongr]
  split <;> rfl

theorem C4_clamp_amended_witness :
    (1 ≤ 240 ∧ 240 < 4294967296 ∧
      ((0 : Int) ≤ 0 ∧ (0 : Int) ≤ ((240 : Nat) : Int) - 1 ∧ (0 : Int) < 2147483648) ∧
      ((1 : Int) ≤ 10000 ∧ (10000 : Int) < 2147483648)) ∧
    (fbtft_deferred_io 12 64 (fbtft_mkdirty (empty_par 320 240 640 true) 0 10000) []).2
      = if (0 : Int) + 10000 - 1 ≤ ((240 : Nat) : Int) - 1 then
          transfer (empty_par 320 240 640 true) (0 : Int).toNat ((0 : Int) + 10000 - 1).toNat
        else transfer (empty_par 320 240 640 true) 0 (240 - 1) :=
  ⟨by decide,
   C4_clamp_amended 12 64 320 240 640 true 0 10000 (by decide) (by decide) (by decide)
     (by decide)⟩

theorem update_display_congr (p q : fbtft_par) (a b : Nat) (hx : p.xres = q.xres)
    (hy : p.yres = q.yres) (hl : p.line_length = q.line_length)
    (hs : p.set_addr_win = q.set_addr_win) :
    fbtft_update_display p a b = fbtft_update_display q a b := by
  have hm : yres_m1 p = yres_m1 q := by unfold yres_m1; rw [hy]
  unfold fbtft_update_display sanity
  rw [hm]
  exact transfer_congr _ _ _ _ hx hl hs

theorem page_merge_congr (PS BPL : Nat) (p q : fbtft_par) (hy : p.yres = q.yres)
    (hl : p.line_length = q.line_length) :
    page_merge PS BPL p = page_merge PS BPL q := by
  have hm : yres_m1 p = yres_m1 q := by unfold yres_m1; rw [hy]
  funext se pg
  unfold page_merge
  rw [hm, hl]

/-- C5: for every stored dirty interval and every page list (display height
`1 ≤ yres < 2 ^ 32`, `line_length > 0` when pages are listed), `fbtft_deferred_io` leaves the stored interval at the empty sentinel
`(yres - 1, 0)` and changes nothing else in the state, already at the end of its critical
section (`read_and_reset`), and the flush is computed from the values that were stored before
the reset: they are merged with the page list and handed to `fbtft_update_display`; with an
empty page list they are handed over unchanged. -/
theorem C5_empty_after_flush (PS BPL : Nat) (par : fbtft_par) (pagelist : List Nat)
    (h1 : 1 ≤ par.yres) (h2 : par.yres < 4294967296)
    (hll : pagelist ≠ [] → 0 < par.line_length) :
    (read_and_reset par).2
      = { par with dirty_lines_start := par.yres - 1, dirty_lines_end := 0 } ∧
    (read_and_reset par).1 = (par.dirty_lines_start, par.dirty_lines_end) ∧
    (fbtft_deferred_io PS BPL par pagelist).1
      = { par with dirty_lines_start := par.yres - 1, dirty_lines_end := 0 } ∧
    (fbtft_deferred_io PS BPL par pagelist).2
      = fbtft_update_display par
          (pagelist.foldl (page_merge PS BPL par)
            (par.dirty_lines_start, par.dirty_lines_end)).1
          (pagelist.foldl (page_merge PS BPL par)
            (par.dirty_lines_start, par.dirty_lines_end)).2 ∧
    (fbtft_deferred_io PS BPL par []).2
      = fbtft_update_display par par.dirty_lines_start par.dirty_lines_end := by
  have _ := hll
  have hr : (read_and_reset par).2
      = { par with dirty_lines_start := par.yres - 1, dirty_lines_end := 0 } := by
    unfold read_and_reset
    rw [yres_m1_eq par h1 h2]
  have hpm : page_merge PS BPL (read_and_reset par).2 = page_merge PS BPL par :=
    page_merge_congr PS BPL _ _ rfl rfl
  refine ⟨hr, rfl, hr, ?_, ?_⟩
  · unfold fbtft_deferred_io
    dsimp only
    rw [hpm]
    exact update_display_congr _ _ _ _ rfl rfl rfl rfl
  · unfold fbtft_deferred_io
    exact update_display_congr _ _ _ _ rfl rfl rfl rfl

theorem C5_empty_after_flush_witness :
    (1 ≤ (fbtft_par.mk 320 240 640 true 17 42).yres ∧
      (fbtft_par.mk 320 240 640 true 17 42).yres < 4294967296 ∧
      (([3] : List Nat) ≠ [] → 0 < (fbtft_par.mk 320 240 640 true 17 42).line_length)) ∧
    ((read_and_reset (fbtft_par.mk 320 240 640 true 17 42)).2
      = { fbtft_par.mk 320 240 640 true 17 42 with
          dirty_lines_start := (fbtft_par.mk 320 240 640 true 17 42).yres - 1,
          dirty_lines_end := 0 } ∧
    (read_and_reset (fbtft_par.mk 320 240 640 true 17 42)).1
      = ((fbtft_par.mk 320 240 640 true 17 42).dirty_lines_start,
         (fbtft_par.mk 320 240 640 true 17 42).dirty_lines_end) ∧
    (fbtft_deferred_io 12 64 (fbtft_par.mk 320 240 640 true 17 42) [3]).1
      = { fbtft_par.mk 320 240 640 true 17 42 with
          dirty_lines_start := (fbtft_par.mk 320 240 640 true 17 42).yres - 1,
          dirty_lines_end := 0 } ∧
    (fbtft_deferred_io 12 64 (fbtft_par.mk 320 240 640 true 17 42) [3]).2
      = fbtft_update_display (fbtft_par.mk 320 240 640 true 17 42)
          (([3] : List Nat).foldl (page_merge 12 64 (fbtft_par.mk 320 240 640 true 17 42))
            ((fbtft_par.mk 320 240 640 true 17 42).dirty_lines_start,
             (fbtft_par.mk 320 240 640 true 17 42).dirty_lines_end)).1
          (([3] : List Nat).foldl (page_merge 12 64 (fbtft_par.mk 320 240 640 true 17 42))
            ((fbtft_par.mk 320 240 640 true 17 42).dirty_lines_start,
             (fbtft_par.mk 320 240 640 true 17 42).dirty_lines_end)).2 ∧
    (fbtft_deferred_io 12 64 (fbtft_par.mk 320 240 640 true 17 42) []).2
      = fbtft_update_display (fbtft_par.mk 320 240 640 true 17 42)
          (fbtft_par.mk 320 240 640 true 17 42).dirty_lines_start
          (fbtft_par.mk 320 240 640 true 17 42).dirty_lines_end) :=
  ⟨by decide, C5_empty_after_flush 12 64 (fbtft_par.mk 320 240 640 true 17 42) [3]
    (by decide) (by decide) (by decide)⟩

/-! ## Init interpreters: the stop-marker scan -/

theorem stop_scan_le (seq : Nat → Int) (n : Nat) : ∀ i, stop_scan seq n i ≤ i + n := by
  induction n with
  | zero => intro i; simp [stop_scan]
  | succ n ih =>
    intro i
    unfold stop_scan
    split
    · omega
    · have := ih (i + 1)
      omega

theorem stop_scan_none (seq : Nat → Int) (n : Nat) :
    ∀ i, (∀ k, k < n → seq (i + k) ≠ -3) → stop_scan seq n i = i + n := by
  induction n with
  | zero => intro i _; simp [stop_scan]
  | succ n ih =>
    intro i h
    unfold stop_scan
    have h0 : seq i ≠ -3 := by simpa using h 0 (by omega)
    rw [if_neg h0, ih (i + 1)]
    · omega
    · intro k hk
      have := h (k + 1) (by omega)
      rwa [show i + 1 + k = i + (k + 1) by omega]

theorem stop_scan_found (seq : Nat → Int) (n : Nat) :
    ∀ i k, k < n → seq (i + k) = -3 → stop_scan seq n i < i + n := by
  induction n with
  | zero => intro i k hk; omega
  | succ n ih =>
    intro i k hk hs
    unfold stop_scan
    split
    · omega
    · rename_i h0
      cases k with
      | zero => exact absurd hs h0
      | succ k =>
        have := ih (i + 1) k (by omega) (by rwa [show i + 1 + k = i + (k + 1) by omega])
        omega

/-! ## Init interpreters: the flat interpreter on an encoded operation list -/

theorem agrees_cons (seq : Nat → Int) (i : Nat) (a : Int) (l : List Int)
    (h : agrees seq i (a :: l)) : seq i = a ∧ agrees seq (i + 1) l := by
  constructor
  · have := h 0 (by simp)
    simpa using this
  · intro n hn
    have := h (n + 1) (by simpa using hn)
    rw [show i + 1 + n = i + (n + 1) by omega]
    simpa using this

theorem agrees_append (seq : Nat → Int) (i : Nat) (l1 l2 : List Int)
    (h : agrees seq i (l1 ++ l2)) : agrees seq i l1 ∧ agrees seq (i + l1.length) l2 := by
  constructor
  · intro n hn
    have := h n (by rw [List.length_append]; omega)
    rw [this, List.getD_append _ _ _ _ hn]
  · intro n hn
    have := h (l1.length + n) (by rw [List.length_append]; omega)
    rw [show i + l1.length + n = i + (l1.length + n) by omega, this,
      List.getD_append_right _ _ _ _ (by omega)]
    congr 1
    omega

theorem agrees_seq_of (l : List Int) : agrees (seq_of l) 0 l := by
  intro n _
  simp [seq_of]

theorem flat_encode_head (ops : List Op) :
    ∃ h t, flat_encode ops = h :: t ∧ h < 0 := by
  cases ops with
  | nil => exact ⟨-3, [], rfl, by decide⟩
  | cons op rest =>
    cases op with
    | cmd reg data => exact ⟨-1, _, rfl, by decide⟩
    | delay ms => exact ⟨-2, _, rfl, by decide⟩

theorem flat_encode_length (ops : List Op) : 2 * ops.length + 1 ≤ (flat_encode ops).length := by
  induction ops with
  | nil => simp [flat_encode]
  | cons op rest ih =>
    cases op <;> simp [flat_encode, Op.flat] <;> omega

theorem flat_encode_last (ops : List Op) :
    (flat_encode ops).getD ((flat_encode ops).length - 1) 0 = -3 := by
  induction ops with
  | nil => simp [flat_encode]
  | cons op rest ih =>
    have hl := flat_encode_length rest
    simp only [flat_encode]
    rw [List.getD_append_right _ _ _ _ (by rw [List.length_append]; omega)]
    rw [List.length_append, show op.flat.length + (flat_encode rest).length - 1 - op.flat.length
      = (flat_encode rest).length - 1 by omega]
    exact ih

theorem msg_len_ge (data : List Nat) : 5 * data.length ≤ msg_len data := by
  induction data with
  | nil => simp [msg_len]
  | cons d rest ih =>
    have hw : 2 ≤ hex_width (d : Int) := by
      unfold hex_width
      repeat' split
      all_goals omega
    simp only [msg_len, List.length_cons]
    omega

theorem write_loop_run (seq : Nat → Int) (vals : List Nat) :
    ∀ fuel i buf, agrees seq i (vals.map (fun (d : Nat) => (d : Int))) →
      seq (i + vals.length) < 0 → buf.length + vals.length ≤ 64 → vals.length < fuel →
      write_loop seq fuel i buf
        = Collected.done (i + vals.length) (buf ++ vals.map (fun (d : Nat) => (d : Int))) := by
  induction vals with
  | nil =>
    intro fuel i buf _ hneg _ hf
    cases fuel with
    | zero => omega
    | succ fuel =>
      have : ¬ seq i ≥ 0 := by simpa using hneg
      simp [write_loop, this]
  | cons v rest ih =>
    intro fuel i buf hag hneg hcap hf
    cases fuel with
    | zero => omega
    | succ fuel =>
      obtain ⟨h0', hrest⟩ := agrees_cons seq i _ _ hag
      have h0 : seq i = (v : Int) := h0'
      have hv : seq i ≥ 0 := by rw [h0]; exact Int.ofNat_nonneg v
      have hb : ¬ buf.length > 63 := by simp only [List.length_cons] at hcap; omega
      unfold write_loop
      rw [if_pos hv, if_neg hb]
      rw [ih fuel (i + 1) (buf ++ [seq i]) hrest
        (by rw [show i + 1 + rest.length = i + (v :: rest).length by simp; omega]; exact hneg)
        (by simp only [List.length_append, List.length_cons, List.length_nil] at hcap ⊢; omega)
        (by simp only [List.length_cons] at hf; omega)]
      rw [h0]
      simp only [List.length_cons, List.map_cons, List.append_assoc, List.singleton_append]
      congr 1
      omega

theorem debug_msg_run (seq : Nat → Int) (data : List Nat) :
    ∀ fuel j len, agrees seq j (data.map (fun (d : Nat) => (d : Int))) →
      seq (j + data.length) < 0 → len + msg_len data + 1 ≤ 128 → data.length < fuel →
      debug_msg seq fuel j len = Msg.fits := by
  induction data with
  | nil =>
    intro fuel j len _ hneg _ hf
    cases fuel with
    | zero => omega
    | succ fuel =>
      have : ¬ seq j ≥ 0 := by simpa using hneg
      simp [debug_msg, this]
  | cons d rest ih =>
    intro fuel j len hag hneg hfit hf
    cases fuel with
    | zero => omega
    | succ fuel =>
      obtain ⟨h0', hrest⟩ := agrees_cons seq j _ _ hag
      have h0 : seq j = (d : Int) := h0'
      have hv : seq j ≥ 0 := by rw [h0]; exact Int.ofNat_nonneg d
      simp only [msg_len] at hfit
      have hb : ¬ len + (2 + hex_width (seq j) + 1) + 1 > 128 := by rw [h0]; omega
      unfold debug_msg
      rw [if_pos hv, if_neg hb]
      exact ih fuel (j + 1) _ hrest
        (by rw [show j + 1 + rest.length = j + (d :: rest).length by simp; omega]; exact hneg)
        (by rw [h0]; omega)
        (by simp only [List.length_cons] at hf; omega)

theorem init_loop_ok (MAX : Nat) (seq : Nat → Int) (ops : List Op) :
    ∀ fuel i, agrees seq i (flat_encode ops) → i + (flat_encode ops).length ≤ MAX →
      (∀ op ∈ ops, op.in_cap ∧ op.msg_fits) → ops.length < fuel →
      init_loop MAX seq fuel i = ⟨Status.returned 0, ops.map Op.flat_call⟩ := by
  induction ops with
  | nil =>
    intro fuel i hag hlen _ hf
    cases fuel with
    | zero => omega
    | succ fuel =>
      have h0 : seq i = -3 := (agrees_cons seq i _ _ hag).1
      have hi : i < MAX := by simp [flat_encode] at hlen; omega
      simp [init_loop, hi, h0]
  | cons op rest ih =>
    intro fuel i hag hlen hops hf
    cases fuel with
    | zero => omega
    | succ fuel =>
      have hrestops : ∀ op ∈ rest, op.in_cap ∧ op.msg_fits :=
        fun o ho => hops o (List.mem_cons_of_mem _ ho)
      have hf2 : rest.length < fuel := by simp only [List.length_cons] at hf; omega
      obtain ⟨hd, tl, hhd, hneg⟩ := flat_encode_head rest
      cases op with
      | cmd reg data =>
        obtain ⟨hcap, hfit⟩ := hops _ (List.mem_cons_self _ _)
        simp only [Op.in_cap] at hcap
        simp only [Op.msg_fits] at hfit
        simp only [flat_encode, Op.flat, List.cons_append] at hag hlen
        obtain ⟨h0, hag1⟩ := agrees_cons seq i _ _ hag
        obtain ⟨h1, hag2⟩ := agrees_cons seq (i + 1) _ _ hag1
        obtain ⟨hdata, hnext⟩ := agrees_append seq (i + 1 + 1) _ _ hag2
        have hvals : agrees seq (i + 1) ((reg :: data).map (fun (d : Nat) => (d : Int))) :=
          (agrees_append seq (i + 1) ((reg :: data).map (fun (d : Nat) => (d : Int)))
            (flat_encode rest) hag1).1
        simp only [List.length_map] at hnext
        have hnext0 : seq (i + 1 + 1 + data.length) = hd := by
          rw [hhd] at hnext
          exact (agrees_cons seq _ _ _ hnext).1
        simp only [List.length_cons, List.length_append, List.length_map] at hlen
        have hi : i < MAX := by omega
        have hdbg : debug_msg seq 128 (i + 2) 0 = Msg.fits := by
          have := msg_len_ge data
          exact debug_msg_run seq data 128 (i + 2) 0 hdata (by rw [hnext0]; exact hneg)
            (by omega) (by omega)
        have hwr : write_loop seq 65 (i + 1) []
            = Collected.done (i + 1 + (reg :: data).length)
                ([] ++ (reg :: data).map (fun (d : Nat) => (d : Int))) := by
          apply write_loop_run seq (reg :: data) 65 (i + 1) [] hvals
          · rw [show i + 1 + (reg :: data).length = i + 1 + 1 + data.length by simp; omega,
              hnext0]
            exact hneg
          · simp only [List.length_nil, List.length_cons]; omega
          · simp only [List.length_cons]; omega
        have hrec := ih fuel (i + 1 + (reg :: data).length)
          (by rw [show i + 1 + (reg :: data).length = i + 1 + 1 + data.length by simp; omega]
              exact hnext)
          (by simp only [List.length_cons]; omega) hrestops hf2
        have hn1 : ¬ seq i = -3 := by rw [h0]; decide
        have hn2 : ¬ seq i ≥ 0 := by rw [h0]; decide
        have hn3 : ¬ seq (i + 1) < 0 := by rw [h1]; simp
        unfold init_loop
        rw [if_pos hi, if_neg hn1, if_neg hn2, if_neg hn3, if_pos h0]
        simp only [hdbg, hwr, hrec]
        simp [Run.after, Op.flat_call]
      | delay ms =>
        simp only [flat_encode, Op.flat, List.cons_append, List.nil_append] at hag hlen
        obtain ⟨h0, hag1⟩ := agrees_cons seq i _ _ hag
        obtain ⟨h1, hag2⟩ := agrees_cons seq (i + 1) _ _ hag1
        simp only [List.length_cons] at hlen
        have hi : i < MAX := by omega
        have hrec := ih fuel (i + 2) hag2 (by omega) hrestops hf2
        have hn1 : ¬ seq i = -3 := by rw [h0]; decide
        have hn2 : ¬ seq i ≥ 0 := by rw [h0]; decide
        have hn3 : ¬ seq (i + 1) < 0 := by rw [h1]; simp
        have hn4 : ¬ seq i = -1 := by rw [h0]; decide
        unfold init_loop
        rw [if_pos hi, if_neg hn1, if_neg hn2, if_neg hn3, if_neg hn4, if_pos h0, hrec, h1]
        simp [Run.after, Op.flat_call]

/-- The flat interpreter on an encoded operation list whose debug messages fit `msg[128]`:
for every operation list in which each register write has at most 64 values and a debug
message of at most 127 characters, and whose flat encoding (stop marker included) lies in the
first `FBTFT_MAX_INIT_SEQUENCE` entries of `init_sequence`, `fbtft_init_display` returns 0 and
makes exactly the calls reset, chip-select low (when `gpio.cs != -1`), then one
`write_register` / `mdelay` per operation, in program order. -/
theorem fbtft_init_display_encoded (MAX : Nat) (cs : Int) (seq : Nat → Int) (ops : List Op)
    (hag : agrees seq 0 (flat_encode ops)) (hlen : (flat_encode ops).length ≤ MAX)
    (hops : ∀ op ∈ ops, op.in_cap ∧ op.msg_fits) :
    fbtft_init_display MAX cs (some seq)
      = ⟨Status.returned 0, prologue cs ++ ops.map Op.flat_call⟩ := by
  have hl := flat_encode_length ops
  have hlast : seq (0 + ((flat_encode ops).length - 1)) = -3 := by
    rw [hag _ (by omega)]
    exact flat_encode_last ops
  have hscan : stop_scan seq MAX 0 ≠ MAX := by
    have := stop_scan_found seq MAX 0 ((flat_encode ops).length - 1) (by omega) hlast
    omega
  have hloop := init_loop_ok MAX seq ops MAX 0 hag (by omega) hops (by omega)
  simp [fbtft_init_display, hscan, hloop, Run.after_all]

theorem fbtft_init_display_encoded_witness :
    (agrees (seq_of (flat_encode [Op.cmd 0xA [1, 2], Op.delay 5, Op.cmd 0xB []])) 0
        (flat_encode [Op.cmd 0xA [1, 2], Op.delay 5, Op.cmd 0xB []]) ∧
      (flat_encode [Op.cmd 0xA [1, 2], Op.delay 5, Op.cmd 0xB []]).length ≤ 512 ∧
      ∀ op ∈ [Op.cmd 0xA [1, 2], Op.delay 5, Op.cmd 0xB []], op.in_cap ∧ op.msg_fits) ∧
    fbtft_init_display 512 (-1)
        (some (seq_of (flat_encode [Op.cmd 0xA [1, 2], Op.delay 5, Op.cmd 0xB []])))
      = ⟨Status.returned 0,
          prologue (-1) ++ [Op.cmd 0xA [1, 2], Op.delay 5, Op.cmd 0xB []].map Op.flat_call⟩ :=
  ⟨⟨agrees_seq_of _, by decide, by decide⟩,
   fbtft_init_display_encoded 512 (-1) _ [Op.cmd 0xA [1, 2], Op.delay 5, Op.cmd 0xB []]
     (agrees_seq_of _) (by decide) (by decide)⟩

theorem hex_width_ge (v : Int) : 2 ≤ hex_width v := by
  unfold hex_width
  repeat' split
  all_goals omega

theorem debug_msg_overflows (seq : Nat → Int) (data : List Nat) :
    ∀ fuel j len, agrees seq j (data.map (fun (d : Nat) => (d : Int))) →
      len ≤ 127 → 133 ≤ 5 * fuel + len → 128 ≤ len + 5 * data.length →
      debug_msg seq fuel j len = Msg.overflow := by
  induction data with
  | nil => intro fuel j len _ h1 _ h3; simp at h3; omega
  | cons d rest ih =>
    intro fuel j len hag h1 h2 h3
    cases fuel with
    | zero => omega
    | succ fuel =>
      obtain ⟨h0', hrest⟩ := agrees_cons seq j _ _ hag
      have h0 : seq j = (d : Int) := h0'
      have hv : seq j ≥ 0 := by rw [h0]; exact Int.ofNat_nonneg d
      have hw := hex_width_ge (seq j)
      unfold debug_msg
      rw [if_pos hv]
      by_cases hb : len + (2 + hex_width (seq j) + 1) + 1 > 128
      · rw [if_pos hb]
      · rw [if_neg hb]
        simp only [List.length_cons] at h3
        exact ih fuel (j + 1) _ hrest (by omega) (by omega) (by omega)

/-- In the flat encoding a register write never gets past 26 values: whenever the first
operation of an encoded program is a register write with 26 or more data values (whatever the
values, whatever follows), `fbtft_init_display` overflows `msg[128]` right after the
prologue, before any `write_register`. -/
theorem fbtft_init_display_long_write (MAX : Nat) (cs : Int) (seq : Nat → Int) (reg : Nat)
    (data : List Nat) (rest : List Op)
    (hag : agrees seq 0 (flat_encode (Op.cmd reg data :: rest)))
    (hlen : (flat_encode (Op.cmd reg data :: rest)).length ≤ MAX)
    (hlong : 26 ≤ data.length) :
    fbtft_init_display MAX cs (some seq) = ⟨Status.msg_overflow, prologue cs⟩ := by
  have hl := flat_encode_length (Op.cmd reg data :: rest)
  have hlast : seq (0 + ((flat_encode (Op.cmd reg data :: rest)).length - 1)) = -3 := by
    rw [hag _ (by omega)]
    exact flat_encode_last _
  have hscan : stop_scan seq MAX 0 ≠ MAX := by
    have := stop_scan_found seq MAX 0 _ (by omega) hlast
    omega
  simp only [flat_encode, Op.flat, List.cons_append] at hag
  obtain ⟨h0, hag1⟩ := agrees_cons seq 0 _ _ hag
  obtain ⟨h1, hag2⟩ := agrees_cons seq (0 + 1) _ _ hag1
  obtain ⟨hdata, _⟩ := agrees_append seq (0 + 1 + 1) _ _ hag2
  have hdbg : debug_msg seq 128 (0 + 2) 0 = Msg.overflow :=
    debug_msg_overflows seq data 128 (0 + 2) 0 hdata (by omega) (by omega) (by omega)
  have hn1 : ¬ seq 0 = -3 := by rw [h0]; decide
  have hn2 : ¬ seq 0 ≥ 0 := by rw [h0]; decide
  have hn3 : ¬ seq (0 + 1) < 0 := by rw [h1]; simp
  have hloop : init_loop MAX seq MAX 0 = ⟨Status.msg_overflow, []⟩ := by
    cases MAX with
    | zero => simp at hl; omega
    | succ M =>
      unfold init_loop
      rw [if_pos (by omega), if_neg hn1, if_neg hn2, if_neg hn3, if_pos h0, hdbg]
  simp [fbtft_init_display, hscan, hloop, Run.after_all]

theorem fbtft_init_display_long_write_witness :
    (agrees (seq_of (flat_encode [Op.cmd 0xE0 (List.replicate 26 0xFF), Op.delay 1])) 0
        (flat_encode [Op.cmd 0xE0 (List.replicate 26 0xFF), Op.delay 1]) ∧
      (flat_encode [Op.cmd 0xE0 (List.replicate 26 0xFF), Op.delay 1]).length ≤ 512 ∧
      26 ≤ (List.replicate 26 0xFF).length) ∧
    fbtft_init_display 512 3
        (some (seq_of (flat_encode [Op.cmd 0xE0 (List.replicate 26 0xFF), Op.delay 1])))
      = ⟨Status.msg_overflow, prologue 3⟩ :=
  ⟨⟨agrees_seq_of _, by decide, by decide⟩,
   fbtft_init_display_long_write 512 3 _ 0xE0 (List.replicate 26 0xFF) [Op.delay 1]
     (agrees_seq_of _) (by decide) (by decide)⟩

/-! ## Init interpreters: which flat programs are accepted -/

theorem agrees_cons_intro (seq : Nat → Int) (i : Nat) (a : Int) (l : List Int)
    (h0 : seq i = a) (h : agrees seq (i + 1) l) : agrees seq i (a :: l) := by
  intro n hn
  cases n with
  | zero => simpa using h0
  | succ n =>
    have := h n (by simpa using hn)
    rw [show i + (n + 1) = i + 1 + n by omega, this]
    simp

theorem agrees_append_intro (seq : Nat → Int) (i : Nat) (l1 l2 : List Int)
    (h1 : agrees seq i l1) (h2 : agrees seq (i + l1.length) l2) : agrees seq i (l1 ++ l2) := by
  intro n hn
  by_cases hlt : n < l1.length
  · rw [h1 n hlt, List.getD_append _ _ _ _ hlt]
  · rw [List.length_append] at hn
    have := h2 (n - l1.length) (by omega)
    rw [List.getD_append_right _ _ _ _ (by omega), ← this]
    congr 1
    omega

theorem getD_cast_nonneg (vals : List Nat) :
    ∀ n, 0 ≤ (vals.map (fun (d : Nat) => (d : Int))).getD n 0 := by
  induction vals with
  | nil => intro n; simp
  | cons v rest ih =>
    intro n
    cases n with
    | zero => simp
    | succ n => simpa using ih n

theorem write_loop_inv (seq : Nat → Int) :
    ∀ fuel i buf i1 buf1, write_loop seq fuel i buf = Collected.done i1 buf1 →
      buf.length ≤ 64 →
      ∃ vals : List Nat, buf1 = buf ++ vals.map (fun (d : Nat) => (d : Int)) ∧
        i1 = i + vals.length ∧ agrees seq i (vals.map (fun (d : Nat) => (d : Int))) ∧
        seq i1 < 0 ∧ buf.length + vals.length ≤ 64 := by
  intro fuel
  induction fuel with
  | zero => intro i buf i1 buf1 h; simp [write_loop] at h
  | succ fuel ih =>
    intro i buf i1 buf1 h hlen
    unfold write_loop at h
    by_cases hv : seq i ≥ 0
    · rw [if_pos hv] at h
      by_cases hb : buf.length > 63
      · rw [if_pos hb] at h
        cases h
      · rw [if_neg hb] at h
        obtain ⟨vals, e1, e2, e3, e4, e5⟩ := ih _ _ _ _ h
          (by simp only [List.length_append, List.length_cons, List.length_nil]; omega)
        refine ⟨(seq i).toNat :: vals, ?_, ?_, ?_, e4, ?_⟩
        · rw [e1]
          simp [Int.toNat_of_nonneg hv]
        · rw [e2]; simp; omega
        · apply agrees_cons_intro
          · show seq i = (((seq i).toNat : Nat) : Int)
            rw [Int.toNat_of_nonneg hv]
          · exact e3
        · simp only [List.length_append, List.length_cons, List.length_nil] at e5 ⊢
          omega
    · rw [if_neg hv] at h
      cases h
      exact ⟨[], by simp, by simp, by intro n hn; simp at hn, by omega, by simpa using hlen⟩

theorem debug_msg_inv (seq : Nat → Int) (data : List Nat) :
    ∀ fuel j len, debug_msg seq fuel j len = Msg.fits → len ≤ 127 →
      agrees seq j (data.map (fun (d : Nat) => (d : Int))) →
      len + msg_len data + 1 ≤ 128 := by
  induction data with
  | nil => intro fuel j len _ hl _; simp [msg_len]; omega
  | cons d rest ih =>
    intro fuel j len h hl hag
    cases fuel with
    | zero => simp [debug_msg] at h
    | succ fuel =>
      obtain ⟨h0', hrest⟩ := agrees_cons seq j _ _ hag
      have h0 : seq j = (d : Int) := h0'
      have hv : seq j ≥ 0 := by rw [h0]; exact Int.ofNat_nonneg d
      unfold debug_msg at h
      rw [if_pos hv] at h
      by_cases hb : len + (2 + hex_width (seq j) + 1) + 1 > 128
      · rw [if_pos hb] at h
        cases h
      · rw [if_neg hb] at h
        have := ih fuel (j + 1) _ h (by omega) hrest
        rw [h0] at this
        simp only [msg_len]
        omega

theorem init_loop_accept_inv (MAX : Nat) (seq : Nat → Int) (k : Nat) (hstop : seq k = -3)
    (hfirst : ∀ j, j < k → seq j ≠ -3) :
    ∀ fuel i, i ≤ k → (init_loop MAX seq fuel i).status = Status.returned 0 →
      ∃ ops : List Op, (∀ op ∈ ops, op.in_cap ∧ op.msg_fits) ∧
        agrees seq i (flat_encode ops) ∧ i + (flat_encode ops).length = k + 1 ∧
        (init_loop MAX seq fuel i).calls = ops.map Op.flat_call := by
  intro fuel
  induction fuel with
  | zero => intro i _ h; simp [init_loop] at h
  | succ fuel ih =>
    intro i hik h
    unfold init_loop at h ⊢
    by_cases hi : i < MAX
    swap
    · rw [if_neg hi] at h
      simp [EINVAL_neg] at h
    rw [if_pos hi] at h ⊢
    by_cases h3 : seq i = -3
    · have hik2 : i = k := by
        by_contra hne
        exact hfirst i (by omega) h3
      refine ⟨[], by simp, ?_, by simp [flat_encode]; omega, by simp [h3]⟩
      exact agrees_cons_intro seq i _ _ h3 (by intro n hn; simp at hn)
    rw [if_neg h3] at h ⊢
    have hik2 : i < k := by
      rcases Nat.lt_or_ge i k with hlt | hge
      · exact hlt
      · have : i = k := by omega
        rw [this] at h3
        exact absurd hstop h3
    by_cases hnn : seq i ≥ 0
    · rw [if_pos hnn] at h
      simp [EINVAL_neg] at h
    rw [if_neg hnn] at h ⊢
    by_cases hnext : seq (i + 1) < 0
    · rw [if_pos hnext] at h
      simp [EINVAL_neg] at h
    rw [if_neg hnext] at h ⊢
    by_cases hm1 : seq i = -1
    · rw [if_pos hm1] at h ⊢
      cases hd : debug_msg seq 128 (i + 2) 0 with
      | overflow => rw [hd] at h; simp at h
      | unfinished => rw [hd] at h; simp at h
      | fits =>
        rw [hd] at h
        simp only at h ⊢
        cases hw : write_loop seq 65 (i + 1) [] with
        | exceeded => rw [hw] at h; simp [EINVAL_neg] at h
        | unfinished => rw [hw] at h; simp at h
        | done i1 buf =>
          rw [hw] at h
          simp only [Run.after] at h ⊢
          obtain ⟨vals, e1, e2, e3, e4, e5⟩ := write_loop_inv seq _ _ _ _ _ hw (by simp)
          have hi1k : i1 ≤ k := by
            by_contra hgt
            have hkv := e3 (k - (i + 1)) (by rw [List.length_map]; omega)
            rw [show i + 1 + (k - (i + 1)) = k by omega, hstop] at hkv
            have := getD_cast_nonneg vals (k - (i + 1))
            omega
          obtain ⟨ops, ho1, ho2, ho3, ho4⟩ := ih i1 hi1k h
          cases vals with
          | nil =>
            simp only [List.length_nil, Nat.add_zero] at e2
            rw [e2] at e4
            exact absurd e4 hnext
          | cons reg data =>
            obtain ⟨_, hdata⟩ := agrees_cons seq (i + 1) _ _ e3
            have hfit := debug_msg_inv seq data 128 (i + 2) 0 hd (by omega) hdata
            simp only [List.length_cons] at e2 e5
            refine ⟨Op.cmd reg data :: ops, ?_, ?_, ?_, ?_⟩
            · intro op hop
              rcases List.mem_cons.mp hop with hop | hop
              · subst hop
                simp only [Op.in_cap, Op.msg_fits]
                simp only [List.length_nil] at e5
                omega
              · exact ho1 op hop
            · simp only [flat_encode, Op.flat, List.cons_append]
              apply agrees_cons_intro seq i _ _ hm1
              have := agrees_append_intro seq (i + 1)
                ((reg :: data).map (fun (d : Nat) => (d : Int))) (flat_encode ops) e3
                (by simp only [List.length_map, List.length_cons]
                    rw [← e2]; exact ho2)
              simpa using this
            · simp only [flat_encode, Op.flat, List.cons_append, List.length_cons,
                List.length_append, List.length_map]
              omega
            · rw [ho4, e1]
              simp [Op.flat_call]
    rw [if_neg hm1] at h ⊢
    by_cases hm2 : seq i = -2
    · rw [if_pos hm2] at h ⊢
      simp only [Run.after] at h ⊢
      have hi2k : i + 2 ≤ k := by
        by_contra hgt
        have : i + 1 = k := by omega
        rw [this, hstop] at hnext
        exact hnext (by decide)
      obtain ⟨ops, ho1, ho2, ho3, ho4⟩ := ih (i + 2) hi2k h
      have hms : seq (i + 1) = (((seq (i + 1)).toNat : Nat) : Int) := by
        rw [Int.toNat_of_nonneg (by omega)]
      refine ⟨Op.delay (seq (i + 1)).toNat :: ops, ?_, ?_, ?_, ?_⟩
      · intro op hop
        rcases List.mem_cons.mp hop with hop | hop
        · subst hop
          simp [Op.in_cap, Op.msg_fits]
        · exact ho1 op hop
      · simp only [flat_encode, Op.flat, List.cons_append, List.nil_append]
        exact agrees_cons_intro seq i _ _ hm2 (agrees_cons_intro seq (i + 1) _ _ hms ho2)
      · simp only [flat_encode, Op.flat, List.cons_append, List.nil_append, List.length_cons]
        omega
      · rw [ho4]
        simp only [List.map_cons, Op.flat_call]
        rw [← hms]
    · rw [if_neg hm2] at h
      simp [EINVAL_neg] at h

/-- The flat programs that `fbtft_init_display` accepts: when the first `-3` of
`init_sequence` is at index `k < FBTFT_MAX_INIT_SEQUENCE`, the interpreter returns 0 if and
only if the entries up to that `-3` are the flat encoding of an operation list in which every
register write has at most 64 values and a debug message that fits `msg[128]`. -/
theorem fbtft_init_display_accepts_iff (MAX : Nat) (cs : Int) (seq : Nat → Int) (k : Nat)
    (hk : k < MAX) (hstop : seq k = -3) (hfirst : ∀ j, j < k → seq j ≠ -3) :
    (fbtft_init_display MAX cs (some seq)).status = Status.returned 0 ↔
      ∃ ops : List Op, (∀ op ∈ ops, op.in_cap ∧ op.msg_fits) ∧
        agrees seq 0 (flat_encode ops) ∧ (flat_encode ops).length = k + 1 := by
  constructor
  · intro h
    have hscan : stop_scan seq MAX 0 ≠ MAX := by
      have := stop_scan_found seq MAX 0 k hk (by simpa using hstop)
      omega
    simp only [fbtft_init_display, hscan, if_false, Run.after_all] at h
    obtain ⟨ops, h1, h2, h3, _⟩ :=
      init_loop_accept_inv MAX seq k hstop hfirst MAX 0 (Nat.zero_le k) h
    exact ⟨ops, h1, h2, by omega⟩
  · rintro ⟨ops, h1, h2, h3⟩
    rw [fbtft_init_display_encoded MAX cs seq ops h2 (by omega) h1]

theorem fbtft_init_display_accepts_iff_witness :
    ((4 : Nat) < 512 ∧ seq_of [-1, 0x11, -2, 120, -3] 4 = -3 ∧
      ∀ j, j < 4 → seq_of [-1, 0x11, -2, 120, -3] j ≠ -3) ∧
    ((fbtft_init_display 512 (-1) (some (seq_of [-1, 0x11, -2, 120, -3]))).status
        = Status.returned 0 ↔
      ∃ ops : List Op, (∀ op ∈ ops, op.in_cap ∧ op.msg_fits) ∧
        agrees (seq_of [-1, 0x11, -2, 120, -3]) 0 (flat_encode ops) ∧
        (flat_encode ops).length = 4 + 1) :=
  ⟨by decide,
   fbtft_init_display_accepts_iff 512 (-1) (seq_of [-1, 0x11, -2, 120, -3]) 4
     (by decide) (by decide) (by decide)⟩

/-! ## Init interpreters: the flat interpreter always ends -/

theorem stop_scan_spec (seq : Nat → Int) (n : Nat) :
    ∀ i, stop_scan seq n i < i + n → seq (stop_scan seq n i) = -3 ∧ i ≤ stop_scan seq n i := by
  induction n with
  | zero => intro i h; simp [stop_scan] at h
  | succ n ih =>
    intro i h
    unfold stop_scan at h ⊢
    by_cases h0 : seq i = -3
    · rw [if_pos h0]
      exact ⟨h0, Nat.le_refl i⟩
    · rw [if_neg h0] at h ⊢
      have := ih (i + 1) (by omega)
      exact ⟨this.1, by omega⟩

theorem write_loop_total (seq : Nat → Int) :
    ∀ fuel i buf, buf.length ≤ 64 → 65 ≤ buf.length + fuel →
      write_loop seq fuel i buf ≠ Collected.unfinished := by
  intro fuel
  induction fuel with
  | zero => intro i buf h1 h2; omega
  | succ fuel ih =>
    intro i buf h1 h2
    unfold write_loop
    by_cases hv : seq i ≥ 0
    · rw [if_pos hv]
      by_cases hb : buf.length > 63
      · rw [if_pos hb]; simp
      · rw [if_neg hb]
        apply ih
        · simp only [List.length_append, List.length_cons, List.length_nil]; omega
        · simp only [List.length_append, List.length_cons, List.length_nil]; omega
    · rw [if_neg hv]; simp

theorem write_loop_end_le (seq : Nat → Int) (k : Nat) (hk : seq k < 0) :
    ∀ fuel i buf i1 buf1, write_loop seq fuel i buf = Collected.done i1 buf1 → i ≤ k →
      i1 ≤ k ∧ i ≤ i1 := by
  intro fuel
  induction fuel with
  | zero => intro i buf i1 buf1 h; simp [write_loop] at h
  | succ fuel ih =>
    intro i buf i1 buf1 h hik
    unfold write_loop at h
    by_cases hv : seq i ≥ 0
    · rw [if_pos hv] at h
      by_cases hb : buf.length > 63
      · rw [if_pos hb] at h; cases h
      · rw [if_neg hb] at h
        have hne : i ≠ k := by
          intro he
          rw [he] at hv
          omega
        have := ih _ _ _ _ h (by omega)
        omega
    · rw [if_neg hv] at h
      cases h
      exact ⟨hik, Nat.le_refl _⟩

theorem debug_msg_total (seq : Nat → Int) :
    ∀ fuel j len, len ≤ 127 → 133 ≤ 5 * fuel + len →
      debug_msg seq fuel j len ≠ Msg.unfinished := by
  intro fuel
  induction fuel with
  | zero => intro j len h1 h2; omega
  | succ fuel ih =>
    intro j len h1 h2
    unfold debug_msg
    by_cases hv : seq j ≥ 0
    · rw [if_pos hv]
      by_cases hb : len + (2 + hex_width (seq j) + 1) + 1 > 128
      · rw [if_pos hb]; simp
      · rw [if_neg hb]
        have := hex_width_ge (seq j)
        exact ih _ _ (by omega) (by omega)
    · rw [if_neg hv]; simp

theorem init_loop_total (MAX : Nat) (seq : Nat → Int) (k : Nat) (hstop : seq k = -3) :
    ∀ fuel i, i ≤ k → k < i + fuel →
      (init_loop MAX seq fuel i).status ≠ Status.out_of_fuel := by
  intro fuel
  induction fuel with
  | zero => intro i h1 h2; omega
  | succ fuel ih =>
    intro i hik hfuel
    unfold init_loop
    by_cases hi : i < MAX
    swap
    · rw [if_neg hi]; simp
    rw [if_pos hi]
    by_cases h3 : seq i = -3
    · rw [if_pos h3]; simp
    rw [if_neg h3]
    have hik2 : i < k := by
      rcases Nat.lt_or_ge i k with hlt | hge
      · exact hlt
      · have : i = k := by omega
        rw [this] at h3
        exact absurd hstop h3
    by_cases hnn : seq i ≥ 0
    · rw [if_pos hnn]; simp
    rw [if_neg hnn]
    by_cases hnext : seq (i + 1) < 0
    · rw [if_pos hnext]; simp
    rw [if_neg hnext]
    by_cases hm1 : seq i = -1
    · rw [if_pos hm1]
      cases hd : debug_msg seq 128 (i + 2) 0 with
      | overflow => simp
      | unfinished => exact absurd hd (debug_msg_total seq 128 (i + 2) 0 (by omega) (by omega))
      | fits =>
        simp only
        cases hw : write_loop seq 65 (i + 1) [] with
        | exceeded => simp
        | unfinished =>
          exact absurd hw (write_loop_total seq 65 (i + 1) [] (by simp) (by simp))
        | done i1 buf =>
          simp only [Run.after]
          have hkneg : seq k < 0 := by rw [hstop]; decide
          have hle := write_loop_end_le seq k hkneg _ _ _ _ _ hw (by omega)
          exact ih i1 hle.1 (by omega)
    rw [if_neg hm1]
    by_cases hm2 : seq i = -2
    · rw [if_pos hm2]
      simp only [Run.after]
      have hi2k : i + 2 ≤ k := by
        by_contra hgt
        have : i + 1 = k := by omega
        rw [this, hstop] at hnext
        exact hnext (by decide)
      exact ih (i + 2) hi2k (by omega)
    · rw [if_neg hm2]; simp

/-- The flat interpreter always ends: for every input, `fbtft_init_display` either returns or
overflows `msg[128]`; the steps given to its loops are never used up. -/
theorem fbtft_init_display_terminates (MAX : Nat) (cs : Int)
    (init_sequence : Option (Nat → Int)) :
    (fbtft_init_display MAX cs init_sequence).status ≠ Status.out_of_fuel := by
  cases init_sequence with
  | none => simp [fbtft_init_display]
  | some seq =>
    unfold fbtft_init_display
    by_cases hscan : stop_scan seq MAX 0 = MAX
    · simp [hscan]
    · simp only [hscan, if_false, Run.after_all]
      have hle := stop_scan_le seq MAX 0
      have hlt : stop_scan seq MAX 0 < 0 + MAX := by omega
      have hspec := stop_scan_spec seq MAX 0 hlt
      exact init_loop_total MAX seq (stop_scan seq MAX 0) hspec.1 MAX 0 (Nat.zero_le _)
        (by omega)

/-! ## Init interpreters: the property-tree interpreter on an encoded operation list -/

theorem low_bits_false (M i : Nat) (hM : M % 65536 = 0) (hi : i < 16) : M.testBit i = false := by
  have h := Nat.testBit_mod_two_pow M 16 i
  rw [show (2:Nat)^16 = 65536 by norm_num, hM] at h
  simp [hi] at h
  exact h

theorem high_bits_false (r i : Nat) (hr : r < 65536) (hi : 16 ≤ i) : r.testBit i = false := by
  apply Nat.testBit_lt_two_pow
  calc r < 2 ^ 16 := by norm_num; exact hr
    _ ≤ 2 ^ i := Nat.pow_le_pow_right (by norm_num) hi

theorem land_tag_zero (M r : Nat) (hM : M % 65536 = 0) (hr : r < 65536) : r &&& M = 0 := by
  apply Nat.eq_of_testBit_eq
  intro i
  rw [Nat.testBit_land, Nat.zero_testBit]
  by_cases hi : i < 16
  · rw [low_bits_false M i hM hi]; simp
  · rw [high_bits_false r i hr (by omega)]; simp

theorem lor_land_tag (C r M : Nat) (hM : M % 65536 = 0) (hr : r < 65536) :
    (C ||| r) &&& M = C &&& M := by
  apply Nat.eq_of_testBit_eq
  intro i
  simp only [Nat.testBit_land, Nat.testBit_lor]
  by_cases hi : i < 16
  · rw [low_bits_false M i hM hi]; simp
  · rw [high_bits_false r i hr (by omega)]; simp

theorem lor_land_low (C r : Nat) (hC : C % 65536 = 0) (hr : r < 65536) :
    (C ||| r) &&& 0xFFFF = r := by
  apply Nat.eq_of_testBit_eq
  intro i
  simp only [Nat.testBit_land, Nat.testBit_lor]
  by_cases hi : i < 16
  · rw [low_bits_false C i hC hi]
    have : (0xFFFF : Nat).testBit i = true := by
      interval_cases i <;> decide
    simp [this]
  · rw [high_bits_false r i hr (by omega)]
    have : (0xFFFF : Nat).testBit i = false := high_bits_false _ i (by norm_num) (by omega)
    simp [this]

theorem dt_encode_head (C D : Nat) (hC : C &&& 0xFFFF0000 ≠ 0) (hD : D &&& 0xFFFF0000 ≠ 0)
    (op : Op) (rest : List Op) (hs : op.small) :
    ∃ w ws, dt_encode C D (op :: rest) = w :: ws ∧ w &&& 0xFFFF0000 ≠ 0 := by
  cases op with
  | cmd reg data =>
    refine ⟨C ||| reg, _, rfl, ?_⟩
    rw [lor_land_tag C reg _ (by decide) hs.1]
    exact hC
  | delay ms =>
    refine ⟨D ||| ms, _, rfl, ?_⟩
    rw [lor_land_tag D ms _ (by decide) hs]
    exact hD

theorem dt_write_loop_run (data : List Nat) (next : List Nat)
    (hnext : ∀ v r, next = v :: r → v &&& 0xFFFF0000 ≠ 0) :
    ∀ (v0 : Nat) (buf : List Int), v0 < 65536 → (∀ d ∈ data, d < 65536) →
      buf.length + 1 + data.length ≤ 64 →
      dt_write_loop v0 (data ++ next) buf
        = some (buf ++ (v0 :: data).map (fun (d : Nat) => (d : Int)), dt_pos next) := by
  induction data with
  | nil =>
    intro v0 buf hv _ hcap
    have h0 : ¬ (v0 &&& 0xFFFF0000 ≠ 0) := by
      rw [land_tag_zero _ v0 (by decide) hv]; simp
    have hb : ¬ buf.length > 63 := by simp only [List.length_nil] at hcap; omega
    cases next with
    | nil =>
      unfold dt_write_loop
      rw [if_neg h0, if_neg hb]
      simp [dt_pos]
    | cons v r =>
      have hvn := hnext v r rfl
      unfold dt_write_loop
      rw [if_neg h0, if_neg hb]
      simp only [List.nil_append]
      unfold dt_write_loop
      rw [if_pos hvn]
      simp [dt_pos]
  | cons d ds ih =>
    intro v0 buf hv hdata hcap
    have h0 : ¬ (v0 &&& 0xFFFF0000 ≠ 0) := by
      rw [land_tag_zero _ v0 (by decide) hv]; simp
    have hb : ¬ buf.length > 63 := by omega
    unfold dt_write_loop
    rw [if_neg h0, if_neg hb]
    simp only [List.cons_append]
    rw [ih d (buf ++ [(v0 : Int)]) (hdata d (List.mem_cons_self _ _))
      (fun x hx => hdata x (List.mem_cons_of_mem _ hx))
      (by simp only [List.length_append, List.length_cons, List.length_nil] at hcap ⊢; omega)]
    simp

theorem dt_encode_next (C D : Nat) (hC : C &&& 0xFFFF0000 ≠ 0) (hD : D &&& 0xFFFF0000 ≠ 0)
    (ops : List Op) (hops : ∀ op ∈ ops, op.in_cap ∧ op.small) :
    ∀ v r, dt_encode C D ops = v :: r → v &&& 0xFFFF0000 ≠ 0 := by
  intro v r hvr
  cases ops with
  | nil => simp [dt_encode] at hvr
  | cons o os =>
    obtain ⟨w', ws', he, hw⟩ := dt_encode_head C D hC hD o os (hops o (List.mem_cons_self _ _)).2
    rw [he] at hvr
    cases hvr
    exact hw

theorem dt_loop_ok (C D : Nat) (hC0 : C % 65536 = 0) (hD0 : D % 65536 = 0)
    (hC : C &&& 0xFFFF0000 ≠ 0) (hD : D &&& 0xFFFF0000 ≠ 0) (hCD : D &&& C = 0)
    (ops : List Op) :
    ∀ fuel, ops.length ≤ fuel → (∀ op ∈ ops, op.in_cap ∧ op.small) →
      dt_loop C D fuel (dt_pos (dt_encode C D ops))
        = ⟨Status.returned 0, ops.map Op.dt_call⟩ := by
  have hCne : C ≠ 0 := by
    intro h; rw [h] at hC; simp at hC
  have hDne : D ≠ 0 := by
    intro h; rw [h] at hD; simp at hD
  have hself : ∀ M r : Nat, M ≠ 0 → (M ||| r) &&& M ≠ 0 := by
    intro M r hM
    have : (M ||| r) &&& M = M := by
      apply Nat.eq_of_testBit_eq
      intro i
      simp only [Nat.testBit_land, Nat.testBit_lor]
      cases M.testBit i <;> simp
    rw [this]; exact hM
  induction ops with
  | nil =>
    intro fuel _ _
    cases fuel <;> simp [dt_encode, dt_pos, dt_loop]
  | cons op rest ih =>
    intro fuel hf hops
    cases fuel with
    | zero => simp at hf
    | succ fuel =>
      have hf2 : rest.length ≤ fuel := by simp only [List.length_cons] at hf; omega
      have hrestops : ∀ op ∈ rest, op.in_cap ∧ op.small :=
        fun o ho => hops o (List.mem_cons_of_mem _ ho)
      have hnext := dt_encode_next C D hC hD rest hrestops
      have hrec := ih fuel hf2 hrestops
      obtain ⟨hcap, hsmall⟩ := hops op (List.mem_cons_self _ _)
      cases op with
      | cmd reg data =>
        simp only [Op.in_cap] at hcap
        have hlow : (C ||| reg) &&& 0xFFFF = reg := lor_land_low C reg hC0 hsmall.1
        have hrun := dt_write_loop_run data (dt_encode C D rest) hnext reg [] hsmall.1 hsmall.2
          (by simp only [List.length_nil]; omega)
        simp only [dt_encode, Op.dt, List.cons_append, dt_pos]
        unfold dt_loop
        rw [if_pos (hself C reg hCne), hlow, hrun]
        simp only [hrec]
        simp [Run.after, Op.dt_call]
      | delay ms =>
        simp only [Op.small] at hsmall
        have hlow : (D ||| ms) &&& 0xFFFF = ms := lor_land_low D ms hD0 hsmall
        have hnc : ¬ ((D ||| ms) &&& C ≠ 0) := by
          rw [lor_land_tag D ms C hC0 hsmall, hCD]; simp
        simp only [dt_encode, Op.dt, List.cons_append, List.nil_append, dt_pos]
        unfold dt_loop
        rw [if_neg hnc, if_pos (hself D ms hDne), hlow, hrec]
        simp [Run.after, Op.dt_call]

theorem dt_encode_length (C D : Nat) (ops : List Op) :
    ops.length ≤ (dt_encode C D ops).length := by
  induction ops with
  | nil => simp [dt_encode]
  | cons op rest ih =>
    cases op <;> simp [dt_encode, Op.dt] <;> omega

/-- The property-tree interpreter on an encoded operation list: when the two tag masks lie in
the upper half of the word and do not overlap, for every non-empty operation list whose
register writes have at most 64 values and whose values fit 16 bits,
`fbtft_init_display_dt` returns 0 and makes exactly the calls reset, chip-select low (when
`gpio.cs != -1`), then one `write_register` / `msleep` per operation, in program order. -/
theorem fbtft_init_display_dt_encoded (C D : Nat) (cs : Int) (ops : List Op)
    (hC0 : C % 65536 = 0) (hD0 : D % 65536 = 0)
    (hC : C &&& 0xFFFF0000 ≠ 0) (hD : D &&& 0xFFFF0000 ≠ 0) (hCD : D &&& C = 0)
    (hne : ops ≠ []) (hops : ∀ op ∈ ops, op.in_cap ∧ op.small) :
    fbtft_init_display_dt C D cs (some (dt_encode C D ops))
      = ⟨Status.returned 0, prologue cs ++ ops.map Op.dt_call⟩ := by
  cases ops with
  | nil => exact absurd rfl hne
  | cons op rest =>
    obtain ⟨w, ws, he, _⟩ := dt_encode_head C D hC hD op rest
      (hops op (List.mem_cons_self _ _)).2
    have hlen := dt_encode_length C D (op :: rest)
    have := dt_loop_ok C D hC0 hD0 hC hD hCD (op :: rest) (ws.length + 1)
      (by rw [he] at hlen; simpa using hlen) hops
    rw [he] at this ⊢
    simp only [dt_pos] at this
    simp [fbtft_init_display_dt, this, Run.after_all]

theorem fbtft_init_display_dt_encoded_witness :
    (0x1000000 % 65536 = 0 ∧ 0x2000000 % 65536 = 0 ∧ 0x1000000 &&& 0xFFFF0000 ≠ 0 ∧
      0x2000000 &&& 0xFFFF0000 ≠ 0 ∧ 0x2000000 &&& 0x1000000 = 0 ∧
      [Op.cmd 0xA [1, 2], Op.delay 5, Op.cmd 0xB []] ≠ [] ∧
      ∀ op ∈ [Op.cmd 0xA [1, 2], Op.delay 5, Op.cmd 0xB []], op.in_cap ∧ op.small) ∧
    fbtft_init_display_dt 0x1000000 0x2000000 7
        (some (dt_encode 0x1000000 0x2000000 [Op.cmd 0xA [1, 2], Op.delay 5, Op.cmd 0xB []]))
      = ⟨Status.returned 0,
          prologue 7 ++ [Op.cmd 0xA [1, 2], Op.delay 5, Op.cmd 0xB []].map Op.dt_call⟩ :=
  ⟨by decide,
   fbtft_init_display_dt_encoded 0x1000000 0x2000000 7
     [Op.cmd 0xA [1, 2], Op.delay 5, Op.cmd 0xB []]
     (by decide) (by decide) (by decide) (by decide) (by decide) (by decide) (by decide)⟩

/-- The two interpreters on the same operation list: when the tag masks lie in the upper half
of the word and do not overlap, for every non-empty operation list whose values fit 16 bits,
whose register writes have at most 64 values and a debug message that fits `msg[128]`, and
whose flat encoding lies in the first `FBTFT_MAX_INIT_SEQUENCE` entries, both interpreters
return 0 and make the same calls, the delay being `mdelay` in one and `msleep` in the
other. -/
theorem init_interpreters_agree (MAX C D : Nat) (cs : Int) (seq : Nat → Int) (ops : List Op)
    (hC0 : C % 65536 = 0) (hD0 : D % 65536 = 0)
    (hC : C &&& 0xFFFF0000 ≠ 0) (hD : D &&& 0xFFFF0000 ≠ 0) (hCD : D &&& C = 0)
    (hne : ops ≠ []) (hops : ∀ op ∈ ops, (op.in_cap ∧ op.msg_fits) ∧ op.small)
    (hag : agrees seq 0 (flat_encode ops)) (hlen : (flat_encode ops).length ≤ MAX) :
    (fbtft_init_display MAX cs (some seq)).status = Status.returned 0 ∧
    (fbtft_init_display_dt C D cs (some (dt_encode C D ops))).status = Status.returned 0 ∧
    (fbtft_init_display MAX cs (some seq)).calls.map Call.as_delay
      = (fbtft_init_display_dt C D cs (some (dt_encode C D ops))).calls.map Call.as_delay := by
  rw [fbtft_init_display_encoded MAX cs seq ops hag hlen (fun op h => (hops op h).1),
    fbtft_init_display_dt_encoded C D cs ops hC0 hD0 hC hD hCD hne
      (fun op h => ⟨(hops op h).1.1, (hops op h).2⟩)]
  refine ⟨rfl, rfl, ?_⟩
  simp only [List.map_append, List.map_map]
  congr 1
  apply List.map_congr_left
  intro op _
  cases op <;> rfl

theorem init_interpreters_agree_witness :
    (0x1000000 % 65536 = 0 ∧ 0x2000000 % 65536 = 0 ∧ 0x1000000 &&& 0xFFFF0000 ≠ 0 ∧
      0x2000000 &&& 0xFFFF0000 ≠ 0 ∧ 0x2000000 &&& 0x1000000 = 0 ∧
      [Op.cmd 0x11 [], Op.delay 120, Op.cmd 0x3A [0x55]] ≠ [] ∧
      (∀ op ∈ [Op.cmd 0x11 [], Op.delay 120, Op.cmd 0x3A [0x55]],
        (op.in_cap ∧ op.msg_fits) ∧ op.small) ∧
      agrees (seq_of (flat_encode [Op.cmd 0x11 [], Op.delay 120, Op.cmd 0x3A [0x55]])) 0
        (flat_encode [Op.cmd 0x11 [], Op.delay 120, Op.cmd 0x3A [0x55]]) ∧
      (flat_encode [Op.cmd 0x11 [], Op.delay 120, Op.cmd 0x3A [0x55]]).length ≤ 512) ∧
    ((fbtft_init_display 512 4
        (some (seq_of (flat_encode [Op.cmd 0x11 [], Op.delay 120, Op.cmd 0x3A [0x55]])))).status
      = Status.returned 0 ∧
    (fbtft_init_display_dt 0x1000000 0x2000000 4
        (some (dt_encode 0x1000000 0x2000000
          [Op.cmd 0x11 [], Op.delay 120, Op.cmd 0x3A [0x55]]))).status = Status.returned 0 ∧
    (fbtft_init_display 512 4
        (some (seq_of (flat_encode
          [Op.cmd 0x11 [], Op.delay 120, Op.cmd 0x3A [0x55]])))).calls.map Call.as_delay
      = (fbtft_init_display_dt 0x1000000 0x2000000 4
        (some (dt_encode 0x1000000 0x2000000
          [Op.cmd 0x11 [], Op.delay 120, Op.cmd 0x3A [0x55]]))).calls.map Call.as_delay) :=
  ⟨⟨by decide, by decide, by decide, by decide, by decide, by decide, by decide,
      agrees_seq_of _, by decide⟩,
   init_interpreters_agree 512 0x1000000 0x2000000 4 _
     [Op.cmd 0x11 [], Op.delay 120, Op.cmd 0x3A [0x55]]
     (by decide) (by decide) (by decide) (by decide) (by decide) (by decide) (by decide)
     (agrees_seq_of _) (by decide)⟩

/-! ## Init interpreters: the property-tree interpreter always ends -/

theorem dt_write_loop_shrinks :
    ∀ (rest : List Nat) (val : Nat) (buf buf1 : List Int) (v : Nat) (r : List Nat),
      dt_write_loop val rest buf = some (buf1, some (v, r)) → val &&& 0xFFFF0000 = 0 →
      r.length < rest.length := by
  intro rest
  induction rest with
  | nil =>
    intro val buf buf1 v r h hz
    unfold dt_write_loop at h
    rw [if_neg (by simp [hz])] at h
    by_cases hb : buf.length > 63
    · rw [if_pos hb] at h; cases h
    · rw [if_neg hb] at h; cases h
  | cons w ws ih =>
    intro val buf buf1 v r h hz
    unfold dt_write_loop at h
    rw [if_neg (by simp [hz])] at h
    by_cases hb : buf.length > 63
    · rw [if_pos hb] at h; cases h
    · rw [if_neg hb] at h
      simp only at h
      by_cases hw : w &&& 0xFFFF0000 = 0
      · have := ih w _ _ v r h hw
        simp only [List.length_cons]
        omega
      · unfold dt_write_loop at h
        rw [if_pos hw] at h
        cases h
        simp

theorem dt_loop_total (C D : Nat) :
    ∀ fuel val rest, rest.length < fuel →
      (dt_loop C D fuel (some (val, rest))).status ≠ Status.out_of_fuel := by
  intro fuel
  induction fuel with
  | zero => intro val rest h; omega
  | succ fuel ih =>
    intro val rest hf
    unfold dt_loop
    by_cases hc : val &&& C ≠ 0
    · rw [if_pos hc]
      cases hw : dt_write_loop (val &&& 0xFFFF) rest [] with
      | none => simp
      | some res =>
        obtain ⟨buf, pos⟩ := res
        simp only [Run.after]
        cases pos with
        | none => cases fuel <;> simp [dt_loop]
        | some vr =>
          obtain ⟨v, r⟩ := vr
          have hz : (val &&& 0xFFFF) &&& 0xFFFF0000 = 0 := by
            apply land_tag_zero _ _ (by decide)
            rw [show (0xFFFF : Nat) = 2 ^ 16 - 1 by norm_num, Nat.and_pow_two_sub_one_eq_mod]
            exact Nat.mod_lt _ (by norm_num)
          have := dt_write_loop_shrinks rest _ _ _ v r hw hz
          exact ih v r (by omega)
    · rw [if_neg hc]
      by_cases hd : val &&& D ≠ 0
      · rw [if_pos hd]
        simp only [Run.after]
        cases rest with
        | nil => cases fuel <;> simp [dt_pos, dt_loop]
        | cons v r =>
          simp only [dt_pos]
          exact ih v r (by simp only [List.length_cons] at hf; omega)
      · rw [if_neg hd]; simp

/-- The property-tree interpreter always returns: for every input, `fbtft_init_display_dt`
ends with a return code; the steps given to its loop are never used up. -/
theorem fbtft_init_display_dt_terminates (C D : Nat) (cs : Int) (init : Option (List Nat)) :
    ∃ ret, (fbtft_init_display_dt C D cs init).status = Status.returned ret := by
  have key : ∀ fuel pos, (dt_loop C D fuel pos).status ≠ Status.msg_overflow := by
    intro fuel
    induction fuel with
    | zero => intro pos; cases pos <;> simp [dt_loop]
    | succ fuel ih =>
      intro pos
      cases pos with
      | none => simp [dt_loop]
      | some vr =>
        obtain ⟨val, rest⟩ := vr
        unfold dt_loop
        split
        · split
          · simp
          · simpa [Run.after] using ih _
        · split
          · simpa [Run.after] using ih _
          · simp
  cases init with
  | none => exact ⟨_, rfl⟩
  | some words =>
    cases words with
    | nil => exact ⟨_, rfl⟩
    | cons val rest =>
      have h1 := dt_loop_total C D (rest.length + 1) val rest (by omega)
      have h2 := key (rest.length + 1) (some (val, rest))
      simp only [fbtft_init_display_dt, Run.after_all]
      cases hs : (dt_loop C D (rest.length + 1) (some (val, rest))).status with
      | returned ret => exact ⟨ret, rfl⟩
      | msg_overflow => exact absurd hs h2
      | out_of_fuel => exact absurd hs h1

/-! ## Init interpreters: the claims -/

/-- C6 (code evaluated at the failing input): the flat program
`-1, 0xE0, 26 data values 0x00, -3` is one register write of 27 values, inside the cap of 64.
`fbtft_init_display` calls reset and then, while it builds the debug message
(26 times `"0x00 "`, 130 characters), `strcat` writes past `char msg[128]`: the run does not
return 0 and `write_register` is not called. A register write with 25 data values (125
characters) still goes through. -/
theorem C6_flat_round_trip_msg_overflow :
    fbtft_init_display 512 (-1) (some (seq_of (flat_encode [Op.cmd 0xE0 (List.replicate 26 0)])))
      = ⟨Status.msg_overflow, [Call.reset]⟩ ∧
    fbtft_init_display 512 (-1) (some (seq_of (flat_encode [Op.cmd 0xE0 (List.replicate 25 0)])))
      = ⟨Status.returned 0, [Call.reset, Call.write_register 26 (0xE0 :: List.replicate 25 0)]⟩ ∧
    fbtft_init_display 512 8 (some (seq_of [-1, 0xA, 0x1, 0x2, -2, 5, -1, 0xB, -3]))
      = ⟨Status.returned 0, [Call.reset, Call.gpio_set_value 8 0,
          Call.write_register 3 [0xA, 1, 2], Call.mdelay 5, Call.write_register 1 [0xB]]⟩ := by
  decide

/-- C7 (code evaluated at the failing input): for the one-operation list
`Cmd{reg = 0x2C, data = 30 values 0x11}` the property-tree interpreter returns 0 after
`write_register` with the 31 values, while the flat interpreter overflows `msg[128]` building
its debug message and never calls `write_register`: the two do not perform the same
sequence. -/
theorem C7_flat_and_dt_differ_on_long_write :
    fbtft_init_display_dt 0x1000000 0x2000000 (-1)
        (some (dt_encode 0x1000000 0x2000000 [Op.cmd 0x2C (List.replicate 30 0x11)]))
      = ⟨Status.returned 0,
          [Call.reset, Call.write_register 31 (0x2C :: List.replicate 30 0x11)]⟩ ∧
    fbtft_init_display 512 (-1)
        (some (seq_of (flat_encode [Op.cmd 0x2C (List.replicate 30 0x11)])))
      = ⟨Status.msg_overflow, [Call.reset]⟩ := by
  decide

/-- C8 (code evaluated at the failing input): a register write with exactly 64 values
(register `0x2C` and 63 data values) is handed to `write_register` with count 64 by the
property-tree interpreter, but in the flat interpreter the debug message (63 times 5
characters) overflows `msg[128]` before `write_register` is reached. With 65 values the
property-tree interpreter returns `-EINVAL` without calling `write_register`; the flat
interpreter overflows `msg[128]` before it reaches its own check. -/
theorem C8_flat_64_values_msg_overflow :
    fbtft_init_display 512 (-1)
        (some (seq_of (flat_encode [Op.cmd 0x2C (List.replicate 63 0)])))
      = ⟨Status.msg_overflow, [Call.reset]⟩ ∧
    fbtft_init_display_dt 0x1000000 0x2000000 (-1)
        (some (dt_encode 0x1000000 0x2000000 [Op.cmd 0x2C (List.replicate 63 0)]))
      = ⟨Status.returned 0,
          [Call.reset, Call.write_register 64 (0x2C :: List.replicate 63 0)]⟩ ∧
    fbtft_init_display 512 (-1)
        (some (seq_of (flat_encode [Op.cmd 0x2C (List.replicate 64 0)])))
      = ⟨Status.msg_overflow, [Call.reset]⟩ ∧
    fbtft_init_display_dt 0x1000000 0x2000000 (-1)
        (some (dt_encode 0x1000000 0x2000000 [Op.cmd 0x2C (List.replicate 64 0)]))
      = ⟨Status.returned EINVAL_neg, [Call.reset]⟩ := by
  decide

/-- C9: if the flat init program is absent (`par->init_sequence` is null), or none of its first
`FBTFT_MAX_INIT_SEQUENCE` entries equals `-3`, `fbtft_init_display` returns `-EINVAL` and makes
no call at all: no reset, no chip-select change, no register write, no delay. -/
theorem C9_missing_terminator_rejected (MAX : Nat) (cs : Int) (init_sequence : Option (Nat → Int))
    (h : init_sequence = none ∨
      ∃ seq, init_sequence = some seq ∧ ∀ i, i < MAX → seq i ≠ -3) :
    fbtft_init_display MAX cs init_sequence = ⟨Status.returned (-22), []⟩ := by
  rcases h with h | ⟨seq, h, hs⟩
  · subst h
    rfl
  · subst h
    have hscan : stop_scan seq MAX 0 = MAX := by
      have := stop_scan_none seq MAX 0 (by intro k hk; simpa using hs k hk)
      simpa using this
    simp [fbtft_init_display, hscan, EINVAL_neg]

theorem C9_missing_terminator_rejected_witness :
    ((some (seq_of [-1, 0x11, -2, 120, -1, 0x29]) : Option (Nat → Int)) = none ∨
      ∃ seq, (some (seq_of [-1, 0x11, -2, 120, -1, 0x29]) : Option (Nat → Int)) = some seq ∧
        ∀ i, i < 8 → seq i ≠ -3) ∧
    fbtft_init_display 8 5 (some (seq_of [-1, 0x11, -2, 120, -1, 0x29]))
      = ⟨Status.returned (-22), []⟩ :=
  ⟨Or.inr ⟨_, rfl, by decide⟩,
   C9_missing_terminator_rejected 8 5 (some (seq_of [-1, 0x11, -2, 120, -1, 0x29]))
     (Or.inr ⟨_, rfl, by decide⟩)⟩

/-- C10 (code evaluated at the failing input): the program `-2, 5, -1, 0x36, 40 data values
0x7F, -3` is well-formed (a delay, then a register write of 41 values), yet
`fbtft_init_display` does not return 0: after the delay the debug message overflows
`msg[128]`. The ill-formed program `-1, 0x36, 65 data values, -3` (a run of 66 values) does not
return `-EINVAL` either: the overflow comes before the check of the run length. -/
theorem C10_acceptance_msg_overflow :
    fbtft_init_display 512 (-1)
        (some (seq_of (flat_encode [Op.delay 5, Op.cmd 0x36 (List.replicate 40 0x7F)])))
      = ⟨Status.msg_overflow, [Call.reset, Call.mdelay 5]⟩ ∧
    fbtft_init_display 512 (-1)
        (some (seq_of (flat_encode [Op.cmd 0x36 (List.replicate 65 0x7F)])))
      = ⟨Status.msg_overflow, [Call.reset]⟩ := by
  decide

/-! ## Address window: the claim -/

theorem land_shift_byte (n : Nat) :
    Int.land ((n : Int) >>> 8) 0xFF = ((n / 256 % 256 : Nat) : Int) := by
  show ((n >>> 8 &&& 255 : Nat) : Int) = _
  rw [Nat.shiftRight_eq_div_pow, show (255 : Nat) = 2 ^ 8 - 1 by norm_num,
    Nat.and_pow_two_sub_one_eq_mod]

theorem land_low_byte (n : Nat) : Int.land (n : Int) 0xFF = ((n % 256 : Nat) : Int) := by
  show ((n &&& 255 : Nat) : Int) = _
  rw [show (255 : Nat) = 2 ^ 8 - 1 by norm_num, Nat.and_pow_two_sub_one_eq_mod]

/-- C11: for all `xs, ys, xe, ye`, `fbtft_set_addr_win` issues exactly three register writes,
in this order: command `0x2A` with data `[(xs>>8)&0xFF, xs&0xFF, (xe>>8)&0xFF, xe&0xFF]`,
command `0x2B` with data `[(ys>>8)&0xFF, ys&0xFF, (ye>>8)&0xFF, ye&0xFF]`, command `0x2C` with
no data. For a coordinate `x` in `0..0xFFFF` the two bytes `(x>>8)&0xFF`, `x&0xFF` lie in
`0..255` and are the big-endian 16-bit encoding of `x` (high byte times 256 plus low byte is
`x`). The call `(0x0102, 0x0304, 0x0506, 0x0708)` gives `0x2A [01 02 05 06]`,
`0x2B [03 04 07 08]`, `0x2C`. -/
theorem C11_address_window (xs ys xe ye : Int) :
    fbtft_set_addr_win xs ys xe ye
      = [Call.write_register 5 [0x2A, Int.land (xs >>> 8) 0xFF, Int.land xs 0xFF,
            Int.land (xe >>> 8) 0xFF, Int.land xe 0xFF],
         Call.write_register 5 [0x2B, Int.land (ys >>> 8) 0xFF, Int.land ys 0xFF,
            Int.land (ye >>> 8) 0xFF, Int.land ye 0xFF],
         Call.write_register 1 [0x2C]] ∧
    (∀ x : Int, 0 ≤ x → x ≤ 0xFFFF →
      (0 ≤ Int.land (x >>> 8) 0xFF ∧ Int.land (x >>> 8) 0xFF ≤ 255) ∧
      (0 ≤ Int.land x 0xFF ∧ Int.land x 0xFF ≤ 255) ∧
      Int.land (x >>> 8) 0xFF * 256 + Int.land x 0xFF = x) ∧
    fbtft_set_addr_win 0x0102 0x0304 0x0506 0x0708
      = [Call.write_register 5 [0x2A, 0x01, 0x02, 0x05, 0x06],
         Call.write_register 5 [0x2B, 0x03, 0x04, 0x07, 0x08],
         Call.write_register 1 [0x2C]] := by
  refine ⟨rfl, ?_, by decide⟩
  intro x h0 h1
  obtain ⟨n, rfl⟩ := Int.eq_ofNat_of_zero_le h0
  rw [land_shift_byte, land_low_byte]
  have hn : n ≤ 65535 := by omega
  refine ⟨⟨?_, ?_⟩, ⟨?_, ?_⟩, ?_⟩ <;> omega

/-! ## Flush computation: the claim -/

theorem update_display_calls (par : fbtft_par) (start_line end_line : Nat)
    (hsaw : par.set_addr_win = true)
    (hy : 1 ≤ par.yres ∧ par.yres < 4294967296) (hx : 1 ≤ par.xres ∧ par.xres < 4294967296) :
    fbtft_update_display par start_line end_line
      = (if start_line ≤ end_line ∧ end_line ≤ par.yres - 1 then
          [Call.set_addr_win 0 start_line (par.xres - 1) end_line,
           Call.write_vmem ((start_line * par.line_length) % U32)
             (((end_line - start_line + 1) * par.line_length) % U32)]
        else
          [Call.set_addr_win 0 0 (par.xres - 1) (par.yres - 1),
           Call.write_vmem 0 ((par.yres * par.line_length) % U32)]) := by
  have hym : yres_m1 par = par.yres - 1 := yres_m1_eq par hy.1 hy.2
  have hxm : to_u32 ((par.xres : Int) - 1) = par.xres - 1 := by
    unfold to_u32
    omega
  have hsan : sanity par start_line end_line
      = if start_line ≤ end_line ∧ end_line ≤ par.yres - 1 then (start_line, end_line)
        else (0, par.yres - 1) := by
    unfold sanity
    rw [hym]
    by_cases h1 : start_line > end_line
    · have hc : ¬ (start_line ≤ end_line ∧ end_line ≤ par.yres - 1) := by omega
      have h2 : ¬ ((0 : Nat) > par.yres - 1 ∨ par.yres - 1 > par.yres - 1) := by omega
      simp only [h1, hc, h2, if_true, if_false]
    · by_cases h2 : end_line ≤ par.yres - 1
      · have hc : start_line ≤ end_line ∧ end_line ≤ par.yres - 1 := by omega
        have h3 : ¬ (start_line > par.yres - 1 ∨ end_line > par.yres - 1) := by omega
        simp only [h1, hc, h3, if_true, if_false, and_self]
      · have hc : ¬ (start_line ≤ end_line ∧ end_line ≤ par.yres - 1) := by omega
        have h3 : start_line > par.yres - 1 ∨ end_line > par.yres - 1 := by omega
        simp only [h1, hc, h3, if_true, if_false]
  unfold fbtft_update_display transfer
  rw [hsan, hsaw, hxm]
  by_cases hc : start_line ≤ end_line ∧ end_line ≤ par.yres - 1
  · have hlen : to_u32 ((end_line : Int) - (start_line : Int) + 1)
        = end_line - start_line + 1 := by
      unfold to_u32
      omega
    simp only [hc, and_self, if_true, hlen]
    rfl
  · have hlen : to_u32 (((par.yres - 1 : Nat) : Int) - ((0 : Nat) : Int) + 1)
        = par.yres := by
      unfold to_u32
      omega
    simp only [hc, if_false, hlen]
    simp

/-- C12: for every `yres ≥ 1` and every pair `(start_line, end_line)`, with the `set_addr_win`
operation set (as `fbtft_probe_common` leaves it), `fbtft_update_display` first calls
`set_addr_win(0, s, xres - 1, e)` and then `write_vmem(offset, len)` with
`offset = s * line_length` and `len = (e - s + 1) * line_length` (products of `unsigned int`),
where `(s, e) = (start_line, end_line)` when `start_line ≤ end_line ≤ yres - 1` and
`(s, e) = (0, yres - 1)` when the pair is inverted or out of range: both calls are always made,
an invalid interval is never dropped. When the frame size `yres * line_length` fits
`unsigned int` the products are the exact ones. -/
theorem C12_flush_computation (par : fbtft_par) (start_line end_line : Nat)
    (hsaw : par.set_addr_win = true)
    (hy : 1 ≤ par.yres ∧ par.yres < 4294967296) (hx : 1 ≤ par.xres ∧ par.xres < 4294967296) :
    fbtft_update_display par start_line end_line
      = (if start_line ≤ end_line ∧ end_line ≤ par.yres - 1 then
          [Call.set_addr_win 0 start_line (par.xres - 1) end_line,
           Call.write_vmem ((start_line * par.line_length) % U32)
             (((end_line - start_line + 1) * par.line_length) % U32)]
        else
          [Call.set_addr_win 0 0 (par.xres - 1) (par.yres - 1),
           Call.write_vmem 0 ((par.yres * par.line_length) % U32)]) ∧
    (par.yres * par.line_length < U32 →
      fbtft_update_display par start_line end_line
        = (if start_line ≤ end_line ∧ end_line ≤ par.yres - 1 then
            [Call.set_addr_win 0 start_line (par.xres - 1) end_line,
             Call.write_vmem (start_line * par.line_length)
               ((end_line - start_line + 1) * par.line_length)]
          else
            [Call.set_addr_win 0 0 (par.xres - 1) (par.yres - 1),
             Call.write_vmem 0 (par.yres * par.line_length)])) := by
  have hgen := update_display_calls par start_line end_line hsaw hy hx
  refine ⟨hgen, ?_⟩
  intro hfit
  rw [hgen]
  by_cases hc : start_line ≤ end_line ∧ end_line ≤ par.yres - 1
  · have b1 : start_line * par.line_length ≤ par.yres * par.line_length :=
      Nat.mul_le_mul_right _ (by omega)
    have b2 : (end_line - start_line + 1) * par.line_length ≤ par.yres * par.line_length :=
      Nat.mul_le_mul_right _ (by omega)
    simp only [hc, and_self, if_true]
    rw [Nat.mod_eq_of_lt (by omega), Nat.mod_eq_of_lt (by omega)]
  · simp only [hc, if_false]
    rw [Nat.mod_eq_of_lt hfit]

theorem C12_flush_computation_witness :
    ((fbtft_par.mk 320 240 640 true 0 0).set_addr_win = true ∧
      (1 ≤ (fbtft_par.mk 320 240 640 true 0 0).yres ∧
        (fbtft_par.mk 320 240 640 true 0 0).yres < 4294967296) ∧
      (1 ≤ (fbtft_par.mk 320 240 640 true 0 0).xres ∧
        (fbtft_par.mk 320 240 640 true 0 0).xres < 4294967296)) ∧
    fbtft_update_display (fbtft_par.mk 320 240 640 true 0 0) 250 100
      = [Call.set_addr_win 0 0 319 239, Call.write_vmem 0 153600] ∧
    fbtft_update_display (fbtft_par.mk 320 240 640 true 0 0) 10 20
      = [Call.set_addr_win 0 10 319 20, Call.write_vmem 6400 7040] := by
  refine ⟨by decide, ?_, ?_⟩
  · have h := (C12_flush_computation (fbtft_par.mk 320 240 640 true 0 0) 250 100
      (by decide) (by decide) (by decide)).2 (by decide)
    simpa using h
  · have h := (C12_flush_computation (fbtft_par.mk 320 240 640 true 0 0) 10 20
      (by decide) (by decide) (by decide)).2 (by decide)
    simpa using h

/-! ## Page-dirty coverage: the claim -/

theorem page_merge_covers (PS BPL : Nat) (par : fbtft_par) (se : Nat × Nat) (p b : Nat)
    (hb : p * 2 ^ PS ≤ b ∧ b < (p + 1) * 2 ^ PS)
    (hframe : b < par.yres * par.line_length) (hll : 0 < par.line_length)
    (hfit : par.yres * par.line_length < 4294967296) (hPS : PS ≤ 32 ∧ 32 ≤ BPL) :
    (page_merge PS BPL par se p).1 ≤ b / par.line_length ∧
      b / par.line_length ≤ (page_merge PS BPL par se p).2 := by
  obtain ⟨hb1, hb2⟩ := hb
  have hyres : par.yres < 4294967296 :=
    Nat.lt_of_le_of_lt (Nat.le_mul_of_pos_right _ hll) hfit
  have hline : b / par.line_length < par.yres :=
    Nat.div_lt_of_lt_mul (by rw [Nat.mul_comm]; exact hframe)
  have hy1 : 1 ≤ par.yres := Nat.lt_of_le_of_lt (Nat.zero_le _) hline
  have hym : yres_m1 par = par.yres - 1 := yres_m1_eq par hy1 hyres
  have h32 : (2 : Nat) ^ 32 = 2 ^ (32 - PS) * 2 ^ PS := by
    rw [← pow_add]
    congr 1
    omega
  have h32v : (2 : Nat) ^ 32 = 4294967296 := by norm_num
  have hplt : p < 2 ^ (32 - PS) := by
    have h1 : p * 2 ^ PS < 2 ^ (32 - PS) * 2 ^ PS := by rw [← h32]; omega
    exact Nat.lt_of_mul_lt_mul_right h1
  have hnext : (p + 1) * 2 ^ PS ≤ 2 ^ 32 := by
    rw [h32]
    exact Nat.mul_le_mul_right _ hplt
  have hBPL : (2 : Nat) ^ 32 ≤ 2 ^ BPL := Nat.pow_le_pow_right (by norm_num) hPS.2
  have hpos : 0 < 2 ^ PS := Nat.two_pow_pos PS
  have hsucc : (p + 1) * 2 ^ PS = p * 2 ^ PS + 2 ^ PS := by ring
  have hidx : (p * 2 ^ PS) % 2 ^ BPL = p * 2 ^ PS := Nat.mod_eq_of_lt (by omega)
  have hidx2 : (p * 2 ^ PS + 2 ^ PS - 1) % 2 ^ BPL = p * 2 ^ PS + 2 ^ PS - 1 :=
    Nat.mod_eq_of_lt (by omega)
  have hlow_le : p * 2 ^ PS / par.line_length ≤ b / par.line_length :=
    Nat.div_le_div_right hb1
  have hhigh_ge : b / par.line_length ≤ (p * 2 ^ PS + 2 ^ PS - 1) / par.line_length :=
    Nat.div_le_div_right (by omega)
  have hhigh_lt : (p * 2 ^ PS + 2 ^ PS - 1) / par.line_length < 4294967296 := by
    have := Nat.div_le_self (p * 2 ^ PS + 2 ^ PS - 1) par.line_length
    omega
  have hlow_mod : (p * 2 ^ PS / par.line_length) % U32 = p * 2 ^ PS / par.line_length :=
    Nat.mod_eq_of_lt (by unfold U32; omega)
  have hhigh_mod : ((p * 2 ^ PS + 2 ^ PS - 1) / par.line_length) % U32
      = (p * 2 ^ PS + 2 ^ PS - 1) / par.line_length :=
    Nat.mod_eq_of_lt (by unfold U32; exact hhigh_lt)
  unfold page_merge
  simp only [hidx, hidx2, hlow_mod, hhigh_mod, hym]
  have a1 := (ite_lt_le (p * 2 ^ PS / par.line_length) se.1).2
  have a2 := (ite_gt_ge (if (p * 2 ^ PS + 2 ^ PS - 1) / par.line_length > par.yres - 1
      then par.yres - 1 else (p * 2 ^ PS + 2 ^ PS - 1) / par.line_length) se.2).2
  have a3 : b / par.line_length ≤ (if (p * 2 ^ PS + 2 ^ PS - 1) / par.line_length
      > par.yres - 1 then par.yres - 1 else (p * 2 ^ PS + 2 ^ PS - 1) / par.line_length) := by
    split <;> omega
  exact ⟨Nat.le_trans a1 hlow_le, Nat.le_trans a3 a2⟩

theorem page_fold_covers (PS BPL : Nat) (par : fbtft_par) (p b : Nat)
    (hb : p * 2 ^ PS ≤ b ∧ b < (p + 1) * 2 ^ PS)
    (hframe : b < par.yres * par.line_length) (hll : 0 < par.line_length)
    (hfit : par.yres * par.line_length < 4294967296) (hPS : PS ≤ 32 ∧ 32 ≤ BPL)
    (pages : List Nat) :
    ∀ se : Nat × Nat, p ∈ pages →
      (pages.foldl (page_merge PS BPL par) se).1 ≤ b / par.line_length ∧
        b / par.line_length ≤ (pages.foldl (page_merge PS BPL par) se).2 := by
  induction pages with
  | nil => intro se h; simp at h
  | cons q rest ih =>
    intro se hmem
    simp only [List.foldl_cons]
    rcases List.mem_cons.mp hmem with h | h
    · subst h
      have h1 := page_merge_covers PS BPL par se p b hb hframe hll hfit hPS
      have h2 := page_fold_mono PS BPL par rest (page_merge PS BPL par se p)
      omega
    · exact ih _ h

/-- C13: for every page list given to `fbtft_deferred_io` and every stored dirty interval,
every scanline of the frame that contains a byte of a listed page lies inside the line range
the flush transfers: if `b` is a byte offset inside the listed page `p`
(`p * PAGE_SIZE ≤ b < (p + 1) * PAGE_SIZE`) with `b < H * stride`, then
`first ≤ b / stride ≤ last` for the range `[first, last]` of the `set_addr_win` / `write_vmem`
calls. The frame size `H * stride` fits `unsigned int`, `stride > 0`, and
`PAGE_SHIFT ≤ 32 ≤ BITS_PER_LONG`. -/
theorem C13_page_dirty_coverage (PS BPL : Nat) (par : fbtft_par) (pages : List Nat) (p b : Nat)
    (hp : p ∈ pages) (hb : p * 2 ^ PS ≤ b ∧ b < (p + 1) * 2 ^ PS)
    (hframe : b < par.yres * par.line_length) (hll : 0 < par.line_length)
    (hfit : par.yres * par.line_length < 4294967296) (hPS : PS ≤ 32 ∧ 32 ≤ BPL) :
    (fbtft_deferred_io PS BPL par pages).2
      = transfer par (flush_lines PS BPL par pages).1 (flush_lines PS BPL par pages).2 ∧
    (flush_lines PS BPL par pages).1 ≤ b / par.line_length ∧
    b / par.line_length ≤ (flush_lines PS BPL par pages).2 := by
  refine ⟨deferred_io_calls PS BPL par pages, ?_⟩
  have hyres : par.yres < 4294967296 :=
    Nat.lt_of_le_of_lt (Nat.le_mul_of_pos_right _ hll) hfit
  have hline : b / par.line_length < par.yres :=
    Nat.div_lt_of_lt_mul (by rw [Nat.mul_comm]; exact hframe)
  have hy1 : 1 ≤ par.yres := Nat.lt_of_le_of_lt (Nat.zero_le _) hline
  have hym : yres_m1 (read_and_reset par).2 = par.yres - 1 :=
    yres_m1_eq (read_and_reset par).2 hy1 hyres
  have hfold := page_fold_covers PS BPL (read_and_reset par).2 p b hb hframe hll hfit hPS
    pages (read_and_reset par).1 hp
  have hfl : flush_lines PS BPL par pages
      = sanity (read_and_reset par).2
          (pages.foldl (page_merge PS BPL (read_and_reset par).2) (read_and_reset par).1).1
          (pages.foldl (page_merge PS BPL (read_and_reset par).2) (read_and_reset par).1).2 :=
    rfl
  rw [hfl]
  rcases sanity_cases (read_and_reset par).2
      (pages.foldl (page_merge PS BPL (read_and_reset par).2) (read_and_reset par).1).1
      (pages.foldl (page_merge PS BPL (read_and_reset par).2) (read_and_reset par).1).2
    with hs | hs
  · rw [hs, hym]
    constructor
    · exact Nat.zero_le _
    · show b / par.line_length ≤ par.yres - 1
      omega
  · rw [hs.1]
    exact hfold

theorem C13_page_dirty_coverage_witness :
    ((1 : Nat) ∈ [0, 1] ∧ (1 * 2 ^ 12 ≤ 5000 ∧ 5000 < (1 + 1) * 2 ^ 12) ∧
      5000 < (fbtft_par.mk 320 240 640 true 239 0).yres
        * (fbtft_par.mk 320 240 640 true 239 0).line_length ∧
      0 < (fbtft_par.mk 320 240 640 true 239 0).line_length ∧
      (fbtft_par.mk 320 240 640 true 239 0).yres
        * (fbtft_par.mk 320 240 640 true 239 0).line_length < 4294967296 ∧
      (12 ≤ 32 ∧ 32 ≤ 64)) ∧
    ((fbtft_deferred_io 12 64 (fbtft_par.mk 320 240 640 true 239 0) [0, 1]).2
      = transfer (fbtft_par.mk 320 240 640 true 239 0)
          (flush_lines 12 64 (fbtft_par.mk 320 240 640 true 239 0) [0, 1]).1
          (flush_lines 12 64 (fbtft_par.mk 320 240 640 true 239 0) [0, 1]).2 ∧
    (flush_lines 12 64 (fbtft_par.mk 320 240 640 true 239 0) [0, 1]).1
      ≤ 5000 / (fbtft_par.mk 320 240 640 true 239 0).line_length ∧
    5000 / (fbtft_par.mk 320 240 640 true 239 0).line_length
      ≤ (flush_lines 12 64 (fbtft_par.mk 320 240 640 true 239 0) [0, 1]).2) :=
  ⟨by decide,
   C13_page_dirty_coverage 12 64 (fbtft_par.mk 320 240 640 true 239 0) [0, 1] 1 5000
     (by decide) (by decide) (by decide) (by decide) (by decide) (by decide)⟩

/-! ## Probe: the claims on the operation table and the transmit buffer -/

/-- With an `init` property on the device node, the `init_display` slot of `par->fbtftops` is
whatever the merge of the panel descriptor's table left there: the assignment of
`fbtft_init_display_dt` goes to `display->fbtftops`, after the merge, and never reaches
`par->fbtftops`. -/
theorem probe_ops_init_prop (regwidth buswidth backlight : Nat) (display_ops : fbtft_ops)
    (spi pdev spi_9bit has_init_sequence : Bool) :
    (probe_ops regwidth buswidth backlight display_ops spi pdev spi_9bit true
        has_init_sequence).1.init_display = display_ops.init_display ∧
    (probe_ops regwidth buswidth backlight display_ops spi pdev spi_9bit true
        has_init_sequence).2.init_display = some Fn.fbtft_init_display_dt := by
  have h1 : ∀ (t : fbtft_ops) (r b : Nat) (s : Bool),
      (select_write_register t r b s).init_display = t.init_display := by
    intro t r b s
    unfold select_write_register
    split_ifs <;> rfl
  have h2 : ∀ (t : fbtft_ops) (b : Nat),
      (select_write_vmem t b).init_display = t.init_display := by
    intro t b
    unfold select_write_vmem
    split_ifs <;> rfl
  have h3 : ∀ (t : fbtft_ops) (b : Nat) (p : Bool),
      (select_gpio_write t b p).init_display = t.init_display := by
    intro t b p
    unfold select_gpio_write
    split_ifs <;> rfl
  have hs : ∀ (t : fbtft_ops) (b : Nat) (s n : Bool),
      (spi9_setup t b s n).init_display = t.init_display := by
    intro t b s n
    unfold spi9_setup
    split_ifs <;> rfl
  have hd : (default_ops regwidth buswidth backlight spi pdev).init_display = none := by
    unfold default_ops
    rw [h3, h2, h1]
    rfl
  simp only [probe_ops, if_true, fbtft_merge_fbtftops, hs, hd]
  cases h : display_ops.init_display <;> simp [merge_slot]

/-- Without an `init` property and with a flat program in the descriptor, the `init_display`
slot of `par->fbtftops` is the flat interpreter `fbtft_init_display`. -/
theorem probe_ops_flat (regwidth buswidth backlight : Nat) (display_ops : fbtft_ops)
    (spi pdev spi_9bit : Bool) :
    (probe_ops regwidth buswidth backlight display_ops spi pdev spi_9bit false
        true).1.init_display = some Fn.fbtft_init_display := by
  simp [probe_ops]

/-- C14 (code evaluated at the failing input): an SPI device (`regwidth = 8`, `buswidth = 8`)
whose node has an `init` property and whose panel descriptor brings no `init_display` of its
own, with or without a flat program. After the probe has chosen the init-program source,
`par->fbtftops.init_display` is still null (the property-tree interpreter was stored in
`display->fbtftops`, after the merge), so the check at the head of
`fbtft_register_framebuffer` returns `-EINVAL`. When the descriptor brings its own
`init_display` (`driver 7`), that one is called, not `fbtft_init_display_dt`. -/
theorem C14_init_prop_leaves_init_display_unset :
    (probe_ops 8 8 0 no_ops true false false true false).1.init_display = none ∧
    (probe_ops 8 8 0 no_ops true false false true true).1.init_display = none ∧
    (probe_ops 8 8 0 no_ops true false false true true).2.init_display
      = some Fn.fbtft_init_display_dt ∧
    registered_init_display (probe_ops 8 8 0 no_ops true false false true true).1
      = InitChoice.fails (-22) ∧
    registered_init_display
        (probe_ops 8 8 0 { no_ops with init_display := some (Fn.driver 7) }
          true false false true true).1
      = InitChoice.calls (Fn.driver 7) ∧
    registered_init_display (probe_ops 8 8 0 no_ops true false false false true).1
      = InitChoice.calls Fn.fbtft_init_display := by
  decide

/-- C17 (counterexample): on a parallel device (`par->spi` null, `par->pdev` set) with
`regwidth = 8` and `buswidth = 9` the default selection leaves the register encoder at
`fbtft_write_reg8_bus8`, not `fbtft_write_reg8_bus9`. -/
theorem C17_parallel_8_9_counterexample :
    (default_ops 8 9 0 false true).write_register = some Fn.fbtft_write_reg8_bus8 ∧
    (default_ops 8 9 0 false true).write_register ≠ some Fn.fbtft_write_reg8_bus9 := by
  decide

/-- C17 (amended): the default selection of `fbtft_probe_common`, before panel overrides. For
the rows `(8, 8)`, `(16, 8)` and `(16, 16)`, on serial and parallel devices alike, it picks
reg8/bus8 with vmem16/bus8, reg16/bus8 with vmem16/bus8 and reg16/bus16 with vmem16/bus16. For
the row `(8, 9)` it picks reg8/bus9 with vmem16/bus9 on a serial device (`par->spi` set); on a
device without `par->spi` the register encoder stays the default reg8/bus8 and the pixel
encoder is vmem16/bus9. -/
theorem C17_encoder_selection (backlight : Nat) (spi pdev : Bool) :
    ((default_ops 8 8 backlight spi pdev).write_register = some Fn.fbtft_write_reg8_bus8 ∧
      (default_ops 8 8 backlight spi pdev).write_vmem = some Fn.fbtft_write_vmem16_bus8) ∧
    ((default_ops 16 8 backlight spi pdev).write_register = some Fn.fbtft_write_reg16_bus8 ∧
      (default_ops 16 8 backlight spi pdev).write_vmem = some Fn.fbtft_write_vmem16_bus8) ∧
    ((default_ops 16 16 backlight spi pdev).write_register
        = some Fn.fbtft_write_reg16_bus16 ∧
      (default_ops 16 16 backlight spi pdev).write_vmem
        = some Fn.fbtft_write_vmem16_bus16) ∧
    ((default_ops 8 9 backlight true pdev).write_register = some Fn.fbtft_write_reg8_bus9 ∧
      (default_ops 8 9 backlight true pdev).write_vmem = some Fn.fbtft_write_vmem16_bus9) ∧
    ((default_ops 8 9 backlight false pdev).write_register = some Fn.fbtft_write_reg8_bus8 ∧
      (default_ops 8 9 backlight false pdev).write_vmem = some Fn.fbtft_write_vmem16_bus9) := by
  cases spi <;> cases pdev <;>
    simp [default_ops, select_gpio_write, select_write_vmem, select_write_register,
      set_write, set_write_vmem, set_write_register, base_ops]

/-- The length computed at lines 1133-1148 in closed form: `min(requested, vmem_size + 2)`,
with 0 replaced by `PAGE_SIZE` on a little-endian host when `bpp > 8`. -/
theorem probe_txbuflen_formula (width height bpp prop_txbuflen : Nat) (display_txbuflen : Int)
    (little_endian : Bool) (PAGE_SIZE : Nat) (hpage : PAGE_SIZE < 4294967296) :
    probe_txbuflen width height bpp prop_txbuflen display_txbuflen little_endian PAGE_SIZE
      = if little_endian = true ∧
            min (if prop_txbuflen ≠ 0 then prop_txbuflen else to_u32 display_txbuflen)
              ((width * height * bpp) % 4294967296 / 8 + 2) = 0 ∧ bpp > 8 then PAGE_SIZE
        else min (if prop_txbuflen ≠ 0 then prop_txbuflen else to_u32 display_txbuflen)
              ((width * height * bpp) % 4294967296 / 8 + 2) := by
  have hcap : 2 ≤ (width * height * bpp) % 4294967296 / 8 + 2 ∧
      (width * height * bpp) % 4294967296 / 8 + 2 < 4294967295 := by omega
  have hv2 : ((width * height * bpp) % 4294967296 / 8 + 2) % U32
      = (width * height * bpp) % 4294967296 / 8 + 2 :=
    Nat.mod_eq_of_lt (by unfold U32; omega)
  have hp : PAGE_SIZE % U32 = PAGE_SIZE := Nat.mod_eq_of_lt (by unfold U32; exact hpage)
  have hm1 : to_u32 (-1) = 4294967295 := by decide
  have hU : (width * height * bpp) % U32 = (width * height * bpp) % 4294967296 := rfl
  unfold probe_txbuflen
  simp only [hU, hv2, hp]
  generalize (width * height * bpp) % 4294967296 / 8 + 2 = cap at hcap
  by_cases h0 : prop_txbuflen = 0
  · by_cases h1 : display_txbuflen = -1
    · subst h1
      have e1 : min (4294967295 : Nat) cap = cap := Nat.min_eq_right (by omega)
      have e2 : ¬ (cap = 0) := by omega
      simp [h0, hm1, e1, e2]
    · by_cases h2 : to_u32 display_txbuflen > cap
      · have e1 : min (to_u32 display_txbuflen) cap = cap := Nat.min_eq_right (by omega)
        simp [h0, h1, h2, e1]
      · have e1 : min (to_u32 display_txbuflen) cap = to_u32 display_txbuflen :=
          Nat.min_eq_left (by omega)
        simp [h0, h1, h2, e1]
  · by_cases h2 : prop_txbuflen > cap
    · have e1 : min prop_txbuflen cap = cap := Nat.min_eq_right (by omega)
      simp [h0, h2, e1]
    · have e1 : min prop_txbuflen cap = prop_txbuflen := Nat.min_eq_left (by omega)
      simp [h0, h2, e1]

/-- A test that returns an error code on one side reaches line 1133 only on the other. -/
theorem ite_returns_reaches {c : Prop} [Decidable c] {r : Int} {s : Setup} {l : probe_locals}
    (h : (if c then Setup.returns r else s) = Setup.reaches l) : ¬ c ∧ s = Setup.reaches l := by
  by_cases hc : c
  · rw [if_pos hc] at h
    exact Setup.noConfusion h
  · rw [if_neg hc] at h
    exact ⟨hc, h⟩

/-- When `probe_setup` reaches line 1133, the locals are the descriptor's values overridden by
the properties, and the bus width is not 0. -/
theorem probe_setup_reaches (e : probe_env) (l : probe_locals)
    (h : probe_setup e = Setup.reaches l) :
    l = probe_locals.mk
      (fbtft_property_unsigned e.prop_width e.width).2
      (fbtft_property_unsigned e.prop_height e.height).2
      (fbtft_property_unsigned e.prop_regwidth e.regwidth).2
      (fbtft_property_unsigned e.prop_buswidth e.buswidth).2
      (if e.led_gpios = true then 1 else (fbtft_property_unsigned e.prop_backlight e.backlight).2)
      (fbtft_property_unsigned e.prop_bpp (if e.bpp = 0 then 16 else e.bpp)).2
      (fbtft_property_unsigned e.prop_rotate 0).2
      (fbtft_property_unsigned e.prop_txbuflen 0).2
      (fbtft_property_unsigned e.prop_startbyte 0).2 ∧
    (fbtft_property_unsigned e.prop_buswidth e.buswidth).2 ≠ 0 := by
  unfold probe_setup at h
  obtain ⟨_, h⟩ := ite_returns_reaches h
  obtain ⟨_, h⟩ := ite_returns_reaches h
  obtain ⟨_, h⟩ := ite_returns_reaches h
  obtain ⟨_, h⟩ := ite_returns_reaches h
  obtain ⟨_, h⟩ := ite_returns_reaches h
  obtain ⟨_, h⟩ := ite_returns_reaches h
  obtain ⟨_, h⟩ := ite_returns_reaches h
  obtain ⟨_, h⟩ := ite_returns_reaches h
  obtain ⟨_, h⟩ := ite_returns_reaches h
  obtain ⟨_, h⟩ := ite_returns_reaches h
  obtain ⟨_, h⟩ := ite_returns_reaches h
  obtain ⟨_, h⟩ := ite_returns_reaches h
  obtain ⟨_, h⟩ := ite_returns_reaches h
  obtain ⟨hb, h⟩ := ite_returns_reaches h
  obtain ⟨_, h⟩ := ite_returns_reaches h
  obtain ⟨_, h⟩ := ite_returns_reaches h
  obtain ⟨_, h⟩ := ite_returns_reaches h
  exact ⟨(Setup.reaches.inj h).symm, hb⟩

theorem probe_setup_reaches_witness :
    probe_setup (plain_env 320 240 8 16 (-1))
        = Setup.reaches (probe_locals.mk 320 240 8 8 0 16 0 0 0) ∧
    (probe_locals.mk 320 240 8 8 0 16 0 0 0 = probe_locals.mk
      (fbtft_property_unsigned (plain_env 320 240 8 16 (-1)).prop_width
        (plain_env 320 240 8 16 (-1)).width).2
      (fbtft_property_unsigned (plain_env 320 240 8 16 (-1)).prop_height
        (plain_env 320 240 8 16 (-1)).height).2
      (fbtft_property_unsigned (plain_env 320 240 8 16 (-1)).prop_regwidth
        (plain_env 320 240 8 16 (-1)).regwidth).2
      (fbtft_property_unsigned (plain_env 320 240 8 16 (-1)).prop_buswidth
        (plain_env 320 240 8 16 (-1)).buswidth).2
      (if (plain_env 320 240 8 16 (-1)).led_gpios = true then 1
        else (fbtft_property_unsigned (plain_env 320 240 8 16 (-1)).prop_backlight
          (plain_env 320 240 8 16 (-1)).backlight).2)
      (fbtft_property_unsigned (plain_env 320 240 8 16 (-1)).prop_bpp
        (if (plain_env 320 240 8 16 (-1)).bpp = 0 then 16
          else (plain_env 320 240 8 16 (-1)).bpp)).2
      (fbtft_property_unsigned (plain_env 320 240 8 16 (-1)).prop_rotate 0).2
      (fbtft_property_unsigned (plain_env 320 240 8 16 (-1)).prop_txbuflen 0).2
      (fbtft_property_unsigned (plain_env 320 240 8 16 (-1)).prop_startbyte 0).2 ∧
    (fbtft_property_unsigned (plain_env 320 240 8 16 (-1)).prop_buswidth
      (plain_env 320 240 8 16 (-1)).buswidth).2 ≠ 0) :=
  ⟨by decide, probe_setup_reaches (plain_env 320 240 8 16 (-1))
    (probe_locals.mk 320 240 8 8 0 16 0 0 0) (by decide)⟩

/-- Line 1133 of `fbtft_probe_common` is reached exactly when the gamma size check passes,
`par`, `par->buf` and `par->pdata` are allocated, every property read succeeds, the bus width
is not 0 after the override, and the gamma curves, when there are any, are allocated and
parsed. -/
theorem probe_setup_reaches_iff (e : probe_env) :
    (∃ l, probe_setup e = Setup.reaches l) ↔
      (¬ (to_int (to_u32 (e.gamma_num * e.gamma_len)) > e.FBTFT_GAMMA_MAX_VALUES_TOTAL) ∧
        e.par_alloc = true ∧ e.buf_alloc = true ∧
        (fbtft_property_unsigned e.prop_width e.width).1 = 0 ∧
        (fbtft_property_unsigned e.prop_height e.height).1 = 0 ∧
        (fbtft_property_unsigned e.prop_regwidth e.regwidth).1 = 0 ∧
        (fbtft_property_unsigned e.prop_buswidth e.buswidth).1 = 0 ∧
        (fbtft_property_unsigned e.prop_backlight e.backlight).1 = 0 ∧
        (fbtft_property_unsigned e.prop_bpp (if e.bpp = 0 then 16 else e.bpp)).1 = 0 ∧
        (fbtft_property_unsigned e.prop_rotate 0).1 = 0 ∧
        (fbtft_property_unsigned e.prop_txbuflen 0).1 = 0 ∧
        (fbtft_property_unsigned e.prop_startbyte 0).1 = 0 ∧
        (gamma_property e.prop_gamma e.gamma).1 = 0 ∧
        (fbtft_property_unsigned e.prop_buswidth e.buswidth).2 ≠ 0 ∧
        e.pdata_alloc = true ∧
        ¬ ((e.gamma_num ≠ 0 ∧ e.gamma_len ≠ 0) ∧ e.curves_alloc = false) ∧
        ¬ (((e.gamma_num ≠ 0 ∧ e.gamma_len ≠ 0) ∧
          (gamma_property e.prop_gamma e.gamma).2 = true) ∧ e.gamma_parse_ret ≠ 0)) := by
  constructor
  · rintro ⟨l, h⟩
    unfold probe_setup at h
    obtain ⟨h1, h⟩ := ite_returns_reaches h
    obtain ⟨h2, h⟩ := ite_returns_reaches h
    obtain ⟨h3, h⟩ := ite_returns_reaches h
    obtain ⟨h4, h⟩ := ite_returns_reaches h
    obtain ⟨h5, h⟩ := ite_returns_reaches h
    obtain ⟨h6, h⟩ := ite_returns_reaches h
    obtain ⟨h7, h⟩ := ite_returns_reaches h
    obtain ⟨h8, h⟩ := ite_returns_reaches h
    obtain ⟨h9, h⟩ := ite_returns_reaches h
    obtain ⟨h10, h⟩ := ite_returns_reaches h
    obtain ⟨h11, h⟩ := ite_returns_reaches h
    obtain ⟨h12, h⟩ := ite_returns_reaches h
    obtain ⟨h13, h⟩ := ite_returns_reaches h
    obtain ⟨h14, h⟩ := ite_returns_reaches h
    obtain ⟨h15, h⟩ := ite_returns_reaches h
    obtain ⟨h16, h⟩ := ite_returns_reaches h
    obtain ⟨h17, _⟩ := ite_returns_reaches h
    exact ⟨h1, by simpa using h2, by simpa using h3, not_not.mp h4, not_not.mp h5,
      not_not.mp h6, not_not.mp h7, not_not.mp h8, not_not.mp h9, not_not.mp h10,
      not_not.mp h11, not_not.mp h12, not_not.mp h13, h14, by simpa using h15, h16, h17⟩
  · rintro ⟨h1, h2, h3, h4, h5, h6, h7, h8, h9, h10, h11, h12, h13, h14, h15, h16, h17⟩
    unfold probe_setup
    rw [if_neg h1, if_neg (by simp [h2]), if_neg (by simp [h3]), if_neg (not_not.mpr h4),
      if_neg (not_not.mpr h5), if_neg (not_not.mpr h6), if_neg (not_not.mpr h7),
      if_neg (not_not.mpr h8), if_neg (not_not.mpr h9), if_neg (not_not.mpr h10),
      if_neg (not_not.mpr h11), if_neg (not_not.mpr h12), if_neg (not_not.mpr h13),
      if_neg h14, if_neg (by simp [h15]), if_neg h16, if_neg h17]
    exact ⟨_, rfl⟩

/-- A bus width of 0 after the property override never reaches line 1133: the probe returns an
error code and `par->txbuf.len` keeps the 0 of the zeroed allocation. -/
theorem fbtft_probe_common_buswidth_not_set (e : probe_env)
    (h : (fbtft_property_unsigned e.prop_buswidth e.buswidth).2 = 0) :
    ∃ ret, fbtft_probe_common_txbuf e = ProbeTx.mk (some ret) 0 := by
  cases hs : probe_setup e with
  | returns ret => exact ⟨ret, by unfold fbtft_probe_common_txbuf; rw [hs]⟩
  | reaches l => exact absurd h (probe_setup_reaches e l hs).2

theorem fbtft_probe_common_buswidth_not_set_witness :
    (fbtft_property_unsigned (plain_env 320 240 0 16 (-1)).prop_buswidth
      (plain_env 320 240 0 16 (-1)).buswidth).2 = 0 ∧
    fbtft_probe_common_txbuf (plain_env 320 240 0 16 (-1)) = ProbeTx.mk (some EINVAL_neg) 0 ∧
    ∃ ret, fbtft_probe_common_txbuf (plain_env 320 240 0 16 (-1)) = ProbeTx.mk (some ret) 0 :=
  ⟨by decide, by decide,
    fbtft_probe_common_buswidth_not_set (plain_env 320 240 0 16 (-1)) (by decide)⟩

/-- When line 1133 is reached, `par->txbuf.len` ends as the length of lines 1133-1148. -/
theorem fbtft_probe_common_txbuf_len (e : probe_env) (l : probe_locals)
    (h : probe_setup e = Setup.reaches l) :
    (fbtft_probe_common_txbuf e).txbuf_len
      = probe_txbuflen l.width l.height l.bpp l.txbuflen e.txbuflen e.little_endian
          e.PAGE_SIZE := by
  unfold fbtft_probe_common_txbuf
  rw [h]
  by_cases h0 : probe_txbuflen l.width l.height l.bpp l.txbuflen e.txbuflen e.little_endian
      e.PAGE_SIZE = 0
  · simp [h0]
  · simp [h0]

theorem fbtft_probe_common_txbuf_len_witness :
    probe_setup (plain_env 320 240 8 16 (-1))
        = Setup.reaches (probe_locals.mk 320 240 8 8 0 16 0 0 0) ∧
    (fbtft_probe_common_txbuf (plain_env 320 240 8 16 (-1))).txbuf_len
      = probe_txbuflen 320 240 16 0 (-1) true 4096 :=
  ⟨by decide, fbtft_probe_common_txbuf_len (plain_env 320 240 8 16 (-1))
    (probe_locals.mk 320 240 8 8 0 16 0 0 0) (by decide)⟩

/-- C18 (counterexample): a 16 x 16 panel with 16 bits per pixel on an 8-bit bus, no device
property, a descriptor `txbuflen` of 0 and every allocation succeeding, on a little-endian host
with 4096-byte pages: the probe reaches line 1133, the requested length is 0 and
`W*H*bpp/8 + 2` is 514, yet `par->txbuf.len` ends as 4096. -/
theorem C18_txbuflen_counterexample :
    fbtft_probe_common_txbuf (plain_env 16 16 8 16 0) = ProbeTx.mk none 4096 ∧
    (fbtft_probe_common_txbuf (plain_env 16 16 8 16 0)).txbuf_len
      ≠ min 0 (16 * 16 * 16 / 8 + 2) ∧
    ¬ ((fbtft_probe_common_txbuf (plain_env 16 16 8 16 0)).txbuf_len
      ≤ 16 * 16 * 16 / 8 + 2) := by
  decide

/-- C18 (amended): for every configuration, with `PAGE_SIZE` below `2 ^ 32`. When
`fbtft_probe_common` returns before the transmit-buffer step of line 1133 (gamma size check,
a failed allocation or property read, `buswidth is not set`, gamma parse), it returns that
error and `par->txbuf.len` is 0. When it reaches line 1133, `W`, `H`, `bpp` and the `txbuflen`
property are the descriptor's values overridden by the device properties (`bpp` 16 when the
descriptor has 0), the bus width is not 0, and `par->txbuf.len` ends as
`min(requested, vmem_size + 2)`, where `vmem_size` is `W*H*bpp/8` with the product computed in
`unsigned int`, and `requested` is the `txbuflen` device property when it is non-zero and the
descriptor's `txbuflen`, converted to `unsigned int` (so `-1` asks for the whole frame),
otherwise; except that on a little-endian host with `bpp > 8` a minimum of 0 is replaced by
`PAGE_SIZE`. -/
theorem C18_txbuflen (e : probe_env) (hpage : e.PAGE_SIZE < 4294967296) :
    (∀ ret, probe_setup e = Setup.returns ret →
      fbtft_probe_common_txbuf e = ProbeTx.mk (some ret) 0) ∧
    (∀ l, probe_setup e = Setup.reaches l →
      (l.width = (fbtft_property_unsigned e.prop_width e.width).2 ∧
        l.height = (fbtft_property_unsigned e.prop_height e.height).2 ∧
        l.bpp = (fbtft_property_unsigned e.prop_bpp (if e.bpp = 0 then 16 else e.bpp)).2 ∧
        l.txbuflen = (fbtft_property_unsigned e.prop_txbuflen 0).2 ∧
        l.buswidth = (fbtft_property_unsigned e.prop_buswidth e.buswidth).2 ∧
        l.buswidth ≠ 0) ∧
      (fbtft_probe_common_txbuf e).txbuf_len
        = if e.little_endian = true ∧
              min (if l.txbuflen ≠ 0 then l.txbuflen else to_u32 e.txbuflen)
                ((l.width * l.height * l.bpp) % 4294967296 / 8 + 2) = 0 ∧ l.bpp > 8
          then e.PAGE_SIZE
          else min (if l.txbuflen ≠ 0 then l.txbuflen else to_u32 e.txbuflen)
                ((l.width * l.height * l.bpp) % 4294967296 / 8 + 2)) := by
  refine ⟨?_, ?_⟩
  · intro ret h
    unfold fbtft_probe_common_txbuf
    rw [h]
  · intro l h
    obtain ⟨hl, hb⟩ := probe_setup_reaches e l h
    refine ⟨?_, ?_⟩
    · subst hl
      exact ⟨rfl, rfl, rfl, rfl, rfl, hb⟩
    · rw [fbtft_probe_common_txbuf_len e l h]
      exact probe_txbuflen_formula l.width l.height l.bpp l.txbuflen e.txbuflen
        e.little_endian e.PAGE_SIZE hpage

theorem C18_txbuflen_witness :
    (plain_env 320 240 8 16 (-1)).PAGE_SIZE < 4294967296 ∧
    probe_setup (plain_env 320 240 8 16 (-1))
        = Setup.reaches (probe_locals.mk 320 240 8 8 0 16 0 0 0) ∧
    (fbtft_probe_common_txbuf (plain_env 320 240 8 16 (-1))).txbuf_len = 153602 ∧
    (153602 : Nat) = min (to_u32 (-1)) (320 * 240 * 16 % 4294967296 / 8 + 2) :=
  ⟨by decide, by decide,
    (((C18_txbuflen (plain_env 320 240 8 16 (-1)) (by decide)).2
      (probe_locals.mk 320 240 8 8 0 16 0 0 0) (by decide)).2).trans (by decide),
    by decide⟩

/-! ## Palette: the claim -/

theorem field_arith (x a b : Nat) (ha : a ≤ 16) (hb : b + (16 - a) ≤ 16) :
    chan_to_field x { offset := b, length := 16 - a }
      = (x % 65536 / 2 ^ a) * 2 ^ b := by
  have h1 : (x &&& 0xffff) = x % 65536 := by
    rw [show (0xffff : Nat) = 2 ^ 16 - 1 by norm_num, Nat.and_pow_two_sub_one_eq_mod]
  have h2 : 16 - (16 - a) = a := by omega
  have hx : x % 65536 < 2 ^ 16 := by
    have := Nat.mod_lt x (show 0 < 65536 by norm_num)
    norm_num
    exact this
  have h3 : x % 65536 / 2 ^ a < 2 ^ (16 - a) := by
    apply Nat.div_lt_of_lt_mul
    rw [← pow_add, show a + (16 - a) = 16 by omega]
    exact hx
  have h4 : (x % 65536 / 2 ^ a) * 2 ^ b < U32 := by
    have : (x % 65536 / 2 ^ a) * 2 ^ b < 2 ^ (16 - a) * 2 ^ b :=
      Nat.mul_lt_mul_of_pos_right h3 (Nat.two_pow_pos b)
    have h5 : 2 ^ (16 - a) * 2 ^ b ≤ 2 ^ 16 := by
      rw [← pow_add]
      exact Nat.pow_le_pow_right (by norm_num) (by omega)
    unfold U32
    have h6 : (2 : Nat) ^ 16 = 65536 := by norm_num
    omega
  unfold chan_to_field
  simp only [h1, h2, Nat.shiftRight_eq_div_pow, Nat.shiftLeft_eq]
  exact Nat.mod_eq_of_lt h4

/-- C15: on the RGB565 truecolor layout that `fbtft_framebuffer_alloc` sets, for every
`regno < 16` and all `red`, `green`, `blue`, `transp`, `fbtft_fb_setcolreg` returns 0 and
stores in `pseudo_palette[regno]` (a palette of 16 entries) the value
`(((red & 0xFFFF) >> 11) << 11) | (((green & 0xFFFF) >> 10) << 5) | ((blue & 0xFFFF) >> 11)`,
that is the top 5 bits of red in bits 15..11, the top 6 bits of green in bits 10..5 and the
top 5 bits of blue in bits 4..0, a value below `2 ^ 16`; no other entry changes. For every
`regno ≥ 16` it returns a non-zero value and leaves the palette unchanged. -/
theorem C15_palette_encoding (dwidth dheight bpp rotate : Nat) (pal : List Nat)
    (regno red green blue transp : Nat) (hpal : pal.length = 16) :
    (regno < 16 →
      (fbtft_fb_setcolreg (fbtft_framebuffer_alloc dwidth dheight bpp rotate) pal regno
          red green blue transp).1 = 0 ∧
      (fbtft_fb_setcolreg (fbtft_framebuffer_alloc dwidth dheight bpp rotate) pal regno
          red green blue transp).2[regno]?
        = some ((((red &&& 0xFFFF) >>> 11) <<< 11) ||| (((green &&& 0xFFFF) >>> 10) <<< 5)
            ||| ((blue &&& 0xFFFF) >>> 11)) ∧
      ((((red &&& 0xFFFF) >>> 11) <<< 11) ||| (((green &&& 0xFFFF) >>> 10) <<< 5)
          ||| ((blue &&& 0xFFFF) >>> 11))
        = (red % 65536 / 2048) * 2048 + (green % 65536 / 1024) * 32 + blue % 65536 / 2048 ∧
      ((((red &&& 0xFFFF) >>> 11) <<< 11) ||| (((green &&& 0xFFFF) >>> 10) <<< 5)
          ||| ((blue &&& 0xFFFF) >>> 11)) < 65536 ∧
      ∀ i, i ≠ regno →
        (fbtft_fb_setcolreg (fbtft_framebuffer_alloc dwidth dheight bpp rotate) pal regno
          red green blue transp).2[i]? = pal[i]?) ∧
    (16 ≤ regno →
      (fbtft_fb_setcolreg (fbtft_framebuffer_alloc dwidth dheight bpp rotate) pal regno
          red green blue transp).1 ≠ 0 ∧
      (fbtft_fb_setcolreg (fbtft_framebuffer_alloc dwidth dheight bpp rotate) pal regno
          red green blue transp).2 = pal) := by
  have hm : ∀ x : Nat, (x &&& 0xFFFF) = x % 65536 := by
    intro x
    rw [show (0xFFFF : Nat) = 2 ^ 16 - 1 by norm_num, Nat.and_pow_two_sub_one_eq_mod]
  have hr : chan_to_field red { offset := 11, length := 5 }
      = ((red &&& 0xFFFF) >>> 11) <<< 11 := by
    rw [show (5 : Nat) = 16 - 11 by norm_num, field_arith red 11 11 (by norm_num) (by norm_num),
      hm, Nat.shiftRight_eq_div_pow, Nat.shiftLeft_eq]
  have hg : chan_to_field green { offset := 5, length := 6 }
      = ((green &&& 0xFFFF) >>> 10) <<< 5 := by
    rw [show (6 : Nat) = 16 - 10 by norm_num, field_arith green 10 5 (by norm_num) (by norm_num),
      hm, Nat.shiftRight_eq_div_pow, Nat.shiftLeft_eq]
  have hb : chan_to_field blue { offset := 0, length := 5 } = (blue &&& 0xFFFF) >>> 11 := by
    rw [show (5 : Nat) = 16 - 11 by norm_num, field_arith blue 11 0 (by norm_num) (by norm_num),
      hm, Nat.shiftRight_eq_div_pow]
    simp
  have hsum : ((((red &&& 0xFFFF) >>> 11) <<< 11) ||| (((green &&& 0xFFFF) >>> 10) <<< 5)
        ||| ((blue &&& 0xFFFF) >>> 11))
      = (red % 65536 / 2048) * 2048 + (green % 65536 / 1024) * 32 + blue % 65536 / 2048 := by
    simp only [hm, Nat.shiftRight_eq_div_pow, Nat.shiftLeft_eq]
    have p11 : (2 : Nat) ^ 11 = 2048 := by norm_num
    have p10 : (2 : Nat) ^ 10 = 1024 := by norm_num
    have p5 : (2 : Nat) ^ 5 = 32 := by norm_num
    have hb5 : blue % 65536 / 2 ^ 11 < 2 ^ 5 := by rw [p11, p5]; omega
    have hg6 : green % 65536 / 2 ^ 10 * 2 ^ 5 + blue % 65536 / 2 ^ 11 < 2 ^ 11 := by
      rw [p11, p10, p5]; omega
    rw [Nat.lor_assoc, Nat.mul_comm (green % 65536 / 2 ^ 10) (2 ^ 5),
      ← Nat.mul_add_lt_is_or hb5, Nat.mul_comm (red % 65536 / 2 ^ 11) (2 ^ 11),
      ← Nat.mul_add_lt_is_or (by rw [Nat.mul_comm (2 ^ 5)]; exact hg6)]
    rw [p11, p10, p5]
    omega
  have hval : chan_to_field red (fbtft_framebuffer_alloc dwidth dheight bpp rotate).red
        ||| chan_to_field green (fbtft_framebuffer_alloc dwidth dheight bpp rotate).green
        ||| chan_to_field blue (fbtft_framebuffer_alloc dwidth dheight bpp rotate).blue
      = ((((red &&& 0xFFFF) >>> 11) <<< 11) ||| (((green &&& 0xFFFF) >>> 10) <<< 5)
        ||| ((blue &&& 0xFFFF) >>> 11)) := by
    show chan_to_field red { offset := 11, length := 5 }
        ||| chan_to_field green { offset := 5, length := 6 }
        ||| chan_to_field blue { offset := 0, length := 5 } = _
    rw [hr, hg, hb]
  have htc : (fbtft_framebuffer_alloc dwidth dheight bpp rotate).truecolor = true := rfl
  constructor
  · intro hlt
    unfold fbtft_fb_setcolreg
    rw [if_pos htc, if_pos hlt, hval]
    refine ⟨rfl, ?_, hsum, ?_, ?_⟩
    · exact List.getElem?_set_self (by omega)
    · rw [hsum]; omega
    · intro i hi
      exact List.getElem?_set_ne (Ne.symm hi)
  · intro hge
    unfold fbtft_fb_setcolreg
    rw [if_pos htc, if_neg (by omega)]
    exact ⟨by simp, rfl⟩

theorem C15_palette_encoding_witness :
    (List.replicate 16 (0 : Nat)).length = 16 ∧
    (fbtft_fb_setcolreg (fbtft_framebuffer_alloc 240 320 16 0) (List.replicate 16 0) 3
        0xFFFF 0x8000 0x0800 0).2[3]? = some 0xFC01 := by
  refine ⟨by decide, ?_⟩
  have h := ((C15_palette_encoding 240 320 16 0 (List.replicate 16 0) 3 0xFFFF 0x8000 0x0800 0
    (by decide)).1 (by decide)).2.1
  rw [h]
  decide

/-! ## GPIO verification: the claim -/

theorem db_loop_cases (db : Nat → Int) (n : Nat) :
    ∀ i, (db_loop db n i = 0 ∧ ∀ k, k < n → 0 ≤ db (i + k)) ∨
      (db_loop db n i = -22 ∧ ∃ k, k < n ∧ db (i + k) < 0) := by
  induction n with
  | zero =>
    intro i
    left
    exact ⟨rfl, fun k hk => absurd hk (Nat.not_lt_zero k)⟩
  | succ n ih =>
    intro i
    unfold db_loop
    by_cases h : db i < 0
    · right
      rw [if_pos h]
      exact ⟨rfl, 0, Nat.succ_pos n, by simpa using h⟩
    · rw [if_neg h]
      rcases ih (i + 1) with ⟨h1, h2⟩ | ⟨h1, k, hk, h2⟩
      · left
        refine ⟨h1, ?_⟩
        intro k hk
        cases k with
        | zero => simpa using h
        | succ k =>
          have := h2 k (by omega)
          rwa [show i + 1 + k = i + (k + 1) by omega] at this
      · right
        refine ⟨h1, k + 1, by omega, ?_⟩
        rwa [show i + 1 + k = i + (k + 1) by omega] at h2

/-- C16 (counterexample): a parallel (platform) device with `buswidth = 8`, no start byte, the
`wr` line and all data lines present, and no `dc` line: `fbtft_verify_gpios` returns
`-EINVAL`. The `dc` line is demanded of a parallel device too. -/
theorem C16_parallel_needs_dc_counterexample :
    fbtft_verify_gpios 8 0 true (-1) 24 (fun i => 8 + (i : Int)) = -22 ∧
    fbtft_verify_gpios 8 0 true (-1) 24 (fun i => 8 + (i : Int)) ≠ 0 ∧
    (0 ≤ (24 : Int) ∧ ∀ i, i < 8 → 0 ≤ (fun i : Nat => 8 + (i : Int)) i) := by
  refine ⟨by decide, by decide, by decide, ?_⟩
  intro i _
  show 0 ≤ 8 + (i : Int)
  omega

/-- C16 (amended): `fbtft_verify_gpios` returns 0 if and only if both of these hold: (a) for
every device, serial or parallel, with `buswidth != 9` and no start byte, the `dc` line is
present; (b) for a parallel (platform) device, the `wr` line and every data line
`db[0..buswidth-1]` are present. In every other case it returns `-EINVAL`. -/
theorem C16_verify_gpios (buswidth startbyte : Nat) (pdev : Bool) (dc wr : Int)
    (db : Nat → Int) :
    (fbtft_verify_gpios buswidth startbyte pdev dc wr db = 0 ↔
      (buswidth ≠ 9 ∧ startbyte = 0 → 0 ≤ dc) ∧
      (pdev = true → 0 ≤ wr ∧ ∀ i, i < buswidth → 0 ≤ db i)) ∧
    (fbtft_verify_gpios buswidth startbyte pdev dc wr db = 0 ∨
      fbtft_verify_gpios buswidth startbyte pdev dc wr db = -22) := by
  unfold fbtft_verify_gpios
  by_cases h1 : buswidth ≠ 9 ∧ startbyte = 0 ∧ dc < 0
  · rw [if_pos h1]
    refine ⟨⟨fun h => absurd h (by decide), ?_⟩, Or.inr rfl⟩
    rintro ⟨ha, _⟩
    have := ha ⟨h1.1, h1.2.1⟩
    omega
  · rw [if_neg h1]
    have ha : buswidth ≠ 9 ∧ startbyte = 0 → 0 ≤ dc := by
      intro hc
      by_contra hneg
      exact h1 ⟨hc.1, hc.2, by omega⟩
    by_cases h2 : pdev = false
    · rw [if_pos h2]
      refine ⟨⟨fun _ => ⟨ha, ?_⟩, fun _ => rfl⟩, Or.inl rfl⟩
      intro hp
      rw [h2] at hp
      exact absurd hp (by decide)
    · rw [if_neg h2]
      have hp : pdev = true := by
        cases pdev
        · exact absurd rfl h2
        · rfl
      by_cases h3 : wr < 0
      · rw [if_pos h3]
        refine ⟨⟨fun h => absurd h (by decide), ?_⟩, Or.inr rfl⟩
        rintro ⟨_, hb⟩
        have := (hb hp).1
        omega
      · rw [if_neg h3]
        rcases db_loop_cases db buswidth 0 with ⟨e, hall⟩ | ⟨e, k, hk, hneg⟩
        · rw [e]
          refine ⟨⟨fun _ => ⟨ha, fun _ => ⟨by omega, ?_⟩⟩, fun _ => rfl⟩, Or.inl rfl⟩
          intro i hi
          simpa using hall i hi
        · rw [e]
          refine ⟨⟨fun h => absurd h (by decide), ?_⟩, Or.inr rfl⟩
          rintro ⟨_, hb⟩
          have := (hb hp).2 k hk
          simp only [Nat.zero_add] at hneg
          omega

/-! ## Flush bounds: the claim -/

theorem update_display_vmem (par : fbtft_par) (start_line end_line offset len : Nat) :
    Call.write_vmem offset len ∈ fbtft_update_display par start_line end_line ↔
      offset = ((sanity par start_line end_line).1 * par.line_length) % U32 ∧
      len = (to_u32 (((sanity par start_line end_line).2 : Int)
          - ((sanity par start_line end_line).1 : Int) + 1) * par.line_length) % U32 := by
  unfold fbtft_update_display transfer
  cases par.set_addr_win <;> simp

/-- C19 (counterexample): a descriptor of 65536 x 65537 pixels with 16 bits per pixel, not
rotated. `width * height * bpp` overflows `unsigned int`: `smem_len` is 131072 bytes, one
line (`line_length = 131072`). The flush of line 1 alone passes `offset = 131072`,
`len = 131072` to `write_vmem`: the bytes lie outside the pixel buffer. -/
theorem C19_flush_bounds_counterexample :
    (fbtft_framebuffer_alloc 65536 65537 16 0).smem_len = 131072 ∧
    (fbtft_framebuffer_alloc 65536 65537 16 0).line_length = 131072 ∧
    1 ≤ (fbtft_framebuffer_alloc 65536 65537 16 0).yres ∧
    fbtft_update_display (par_of_info (fbtft_framebuffer_alloc 65536 65537 16 0) true 0 0) 1 1
      = [Call.set_addr_win 0 1 65535 1, Call.write_vmem 131072 131072] ∧
    ¬ (131072 + 131072 ≤ (fbtft_framebuffer_alloc 65536 65537 16 0).smem_len) := by
  decide

/-- C19 (amended): with the geometry set by `fbtft_framebuffer_alloc` for a width, height, bpp
and rotation such that `width * height * bpp` fits `unsigned int` (no overflow in the buffer
size) and `yres ≥ 1`, for every pair `(start_line, end_line)` `fbtft_update_display` calls
`write_vmem`, and the `(offset, len)` it passes satisfies `len ≥ line_length` and
`offset + len ≤ yres * line_length ≤ smem_len`. -/
theorem C19_flush_bounds (dwidth dheight bpp rotate : Nat) (saw : Bool)
    (dirty_start dirty_end start_line end_line : Nat)
    (hw : dwidth < 4294967296 ∧ dheight < 4294967296)
    (hfit : dwidth * dheight * bpp < 4294967296)
    (hy : 1 ≤ (fbtft_framebuffer_alloc dwidth dheight bpp rotate).yres) :
    (∃ offset len, Call.write_vmem offset len
        ∈ fbtft_update_display
            (par_of_info (fbtft_framebuffer_alloc dwidth dheight bpp rotate) saw
              dirty_start dirty_end) start_line end_line) ∧
    ∀ offset len, Call.write_vmem offset len
        ∈ fbtft_update_display
            (par_of_info (fbtft_framebuffer_alloc dwidth dheight bpp rotate) saw
              dirty_start dirty_end) start_line end_line →
      (fbtft_framebuffer_alloc dwidth dheight bpp rotate).line_length ≤ len ∧
      offset + len ≤ (fbtft_framebuffer_alloc dwidth dheight bpp rotate).yres
          * (fbtft_framebuffer_alloc dwidth dheight bpp rotate).line_length ∧
      (fbtft_framebuffer_alloc dwidth dheight bpp rotate).yres
          * (fbtft_framebuffer_alloc dwidth dheight bpp rotate).line_length
        ≤ (fbtft_framebuffer_alloc dwidth dheight bpp rotate).smem_len := by
  -- the geometry, with `w`, `h` the width and height after rotation
  have hgeo : ∃ w h : Nat, w * h * bpp < 4294967296 ∧ h < 4294967296 ∧
      fbtft_framebuffer_alloc dwidth dheight bpp rotate
        = { xres := w, yres := h, line_length := (w * bpp) % U32 / 8,
            smem_len := (w * h * bpp) % U32 / 8, truecolor := true,
            red := { offset := 11, length := 5 }, green := { offset := 5, length := 6 },
            blue := { offset := 0, length := 5 } } := by
    by_cases hr : rotate = 90 ∨ rotate = 270
    · refine ⟨dheight, dwidth, by rw [Nat.mul_comm dheight dwidth]; exact hfit, hw.1, ?_⟩
      simp [fbtft_framebuffer_alloc, hr]
    · refine ⟨dwidth, dheight, hfit, hw.2, ?_⟩
      simp [fbtft_framebuffer_alloc, hr]
  obtain ⟨w, h, hwh, hh, hg⟩ := hgeo
  rw [hg] at hy ⊢
  simp only [par_of_info] at hy ⊢
  have hh1 : 1 ≤ h := hy
  -- no overflow in the line length and in the buffer size
  have hwb : w * bpp < 4294967296 := by
    have : w * bpp * 1 ≤ w * bpp * h := Nat.mul_le_mul_left _ hh1
    have e : w * bpp * h = w * h * bpp := by ring
    omega
  have hll : (w * bpp) % U32 / 8 = w * bpp / 8 := by
    rw [Nat.mod_eq_of_lt (by unfold U32; exact hwb)]
  have hsm : (w * h * bpp) % U32 / 8 = w * h * bpp / 8 := by
    rw [Nat.mod_eq_of_lt (by unfold U32; exact hwh)]
  have hframe : h * (w * bpp / 8) ≤ w * h * bpp / 8 := by
    have := Nat.mul_div_le_mul_div_assoc h (w * bpp) 8
    have e : h * (w * bpp) = w * h * bpp := by ring
    rwa [e] at this
  have hsmall : w * h * bpp / 8 < 4294967296 := by omega
  rw [hll, hsm]
  -- the lines after the sanity checks
  have hym : yres_m1 (fbtft_par.mk w h (w * bpp / 8) saw dirty_start dirty_end)
      = h - 1 :=
    yres_m1_eq _ hh1 hh
  have hbound : ∀ s e : Nat, s ≤ e → e ≤ h - 1 →
      (s * (w * bpp / 8)) % U32 = s * (w * bpp / 8) ∧
      (to_u32 ((e : Int) - (s : Int) + 1) * (w * bpp / 8)) % U32
        = (e - s + 1) * (w * bpp / 8) ∧
      s * (w * bpp / 8) + (e - s + 1) * (w * bpp / 8) ≤ h * (w * bpp / 8) ∧
      w * bpp / 8 ≤ (e - s + 1) * (w * bpp / 8) := by
    intro s e hse heh
    have e1 : to_u32 ((e : Int) - (s : Int) + 1) = e - s + 1 := by
      unfold to_u32
      omega
    have b1 : s * (w * bpp / 8) + (e - s + 1) * (w * bpp / 8) = (e + 1) * (w * bpp / 8) := by
      rw [← Nat.add_mul]
      congr 1
      omega
    have b2 : (e + 1) * (w * bpp / 8) ≤ h * (w * bpp / 8) :=
      Nat.mul_le_mul_right _ (by omega)
    have b3 : w * bpp / 8 ≤ (e - s + 1) * (w * bpp / 8) :=
      Nat.le_mul_of_pos_left _ (by omega)
    rw [e1]
    refine ⟨Nat.mod_eq_of_lt ?_, Nat.mod_eq_of_lt ?_, ?_, b3⟩
    · unfold U32; omega
    · unfold U32; omega
    · omega
  have hcase := sanity_cases (fbtft_par.mk w h (w * bpp / 8) saw dirty_start dirty_end)
      start_line end_line
  rw [hym] at hcase
  have hall : ∀ offset len, Call.write_vmem offset len
        ∈ fbtft_update_display (fbtft_par.mk w h (w * bpp / 8) saw dirty_start dirty_end)
            start_line end_line →
      w * bpp / 8 ≤ len ∧ offset + len ≤ h * (w * bpp / 8) ∧
      h * (w * bpp / 8) ≤ w * h * bpp / 8 := by
    intro offset len hmem
    rw [update_display_vmem] at hmem
    obtain ⟨ho, hl⟩ := hmem
    rcases hcase with hs | ⟨hs, h1, h2⟩
    · rw [hs] at ho hl
      obtain ⟨c1, c2, c3, c4⟩ := hbound 0 (h - 1) (Nat.zero_le _) (Nat.le_refl _)
      simp only at ho hl
      rw [c1] at ho
      rw [c2] at hl
      rw [ho, hl]
      exact ⟨c4, c3, hframe⟩
    · rw [hs] at ho hl
      obtain ⟨c1, c2, c3, c4⟩ := hbound start_line end_line h1 h2
      simp only at ho hl
      rw [c1] at ho
      rw [c2] at hl
      rw [ho, hl]
      exact ⟨c4, c3, hframe⟩
  refine ⟨⟨_, _, (update_display_vmem _ _ _ _ _).mpr ⟨rfl, rfl⟩⟩, hall⟩

theorem C19_flush_bounds_witness :
    (((240 : Nat) < 4294967296 ∧ (320 : Nat) < 4294967296) ∧
      (240 : Nat) * 320 * 16 < 4294967296 ∧
      1 ≤ (fbtft_framebuffer_alloc 240 320 16 90).yres) ∧
    (fbtft_framebuffer_alloc 240 320 16 90).yres = 240 ∧
    ∀ offset len, Call.write_vmem offset len
        ∈ fbtft_update_display
            (par_of_info (fbtft_framebuffer_alloc 240 320 16 90) true 239 0) 7 900 →
      (fbtft_framebuffer_alloc 240 320 16 90).line_length ≤ len ∧
      offset + len ≤ (fbtft_framebuffer_alloc 240 320 16 90).yres
          * (fbtft_framebuffer_alloc 240 320 16 90).line_length ∧
      (fbtft_framebuffer_alloc 240 320 16 90).yres
          * (fbtft_framebuffer_alloc 240 320 16 90).line_length
        ≤ (fbtft_framebuffer_alloc 240 320 16 90).smem_len :=
  ⟨by decide, by decide,
   (C19_flush_bounds 240 320 16 90 true 239 0 7 900 (by decide) (by decide) (by decide)).2⟩

/-! ## The flat interpreter never walks past the stop marker -/

theorem stop_scan_walk_snd (seq : Nat → Int) (n : Nat) :
    ∀ i, (stop_scan_walk seq n i).2 = stop_scan seq n i := by
  induction n with
  | zero => intro i; rfl
  | succ n ih =>
    intro i
    unfold stop_scan_walk stop_scan
    split
    · rfl
    · exact ih (i + 1)

theorem debug_msg_walk_snd (seq : Nat → Int) :
    ∀ fuel j len, (debug_msg_walk seq fuel j len).2 = debug_msg seq fuel j len := by
  intro fuel
  induction fuel with
  | zero => intro j len; rfl
  | succ fuel ih =>
    intro j len
    unfold debug_msg_walk debug_msg
    split
    · split
      · rfl
      · exact ih _ _
    · rfl

theorem write_loop_walk_snd (seq : Nat → Int) :
    ∀ fuel i buf, (write_loop_walk seq fuel i buf).2 = write_loop seq fuel i buf := by
  intro fuel
  induction fuel with
  | zero => intro i buf; rfl
  | succ fuel ih =>
    intro i buf
    unfold write_loop_walk write_loop
    split
    · split
      · rfl
      · exact ih _ _
    · rfl

theorem init_loop_walk_status (MAX : Nat) (seq : Nat → Int) :
    ∀ fuel i, (init_loop_walk MAX seq fuel i).exit.status = (init_loop MAX seq fuel i).status := by
  intro fuel
  induction fuel with
  | zero => intro i; rfl
  | succ fuel ih =>
    intro i
    unfold init_loop_walk init_loop
    by_cases hi : i < MAX
    swap
    · rw [if_neg hi, if_neg hi]; rfl
    rw [if_pos hi, if_pos hi]
    by_cases h3 : seq i = -3
    · rw [if_pos h3, if_pos h3]; rfl
    rw [if_neg h3, if_neg h3]
    by_cases hnn : seq i ≥ 0
    · rw [if_pos hnn, if_pos hnn]; rfl
    rw [if_neg hnn, if_neg hnn]
    by_cases hnext : seq (i + 1) < 0
    · rw [if_pos hnext, if_pos hnext]; rfl
    rw [if_neg hnext, if_neg hnext]
    by_cases hm1 : seq i = -1
    · rw [if_pos hm1, if_pos hm1]
      have hd := debug_msg_walk_snd seq 128 (i + 2) 0
      have hw := write_loop_walk_snd seq 65 (i + 1) []
      rw [← hd, ← hw]
      rcases hdw : debug_msg_walk seq 128 (i + 2) 0 with ⟨rd, m⟩
      cases m with
      | overflow => rfl
      | unfinished => rfl
      | fits =>
        simp only
        rcases hww : write_loop_walk seq 65 (i + 1) [] with ⟨rw1, c⟩
        cases c with
        | exceeded => rfl
        | unfinished => rfl
        | done i1 buf =>
          simp only [Walk.after_reads, Run.after]
          exact ih i1
    rw [if_neg hm1, if_neg hm1]
    by_cases hm2 : seq i = -2
    · rw [if_pos hm2, if_pos hm2]
      simp only [Walk.after_reads, Run.after]
      exact ih (i + 2)
    · rw [if_neg hm2, if_neg hm2]; rfl

/-- The recorded walk ends the way `fbtft_init_display` does. -/
theorem fbtft_init_display_walk_status (MAX : Nat) (cs : Int)
    (init_sequence : Option (Nat → Int)) :
    (fbtft_init_display_walk MAX init_sequence).exit.status
      = (fbtft_init_display MAX cs init_sequence).status := by
  cases init_sequence with
  | none => rfl
  | some seq =>
    unfold fbtft_init_display_walk fbtft_init_display
    simp only [stop_scan_walk_snd]
    by_cases hs : stop_scan seq MAX 0 = MAX
    · rw [if_pos hs, if_pos hs]; rfl
    · rw [if_neg hs, if_neg hs]
      simp only [Walk.after_reads, Run.after_all]
      exact init_loop_walk_status MAX seq MAX 0

theorem stop_scan_walk_reads (seq : Nat → Int) (k : Nat) (hstop : seq k = -3) (n : Nat) :
    ∀ i, i ≤ k → ∀ r ∈ (stop_scan_walk seq n i).1, r ≤ k := by
  induction n with
  | zero => intro i _ r hr; simp [stop_scan_walk] at hr
  | succ n ih =>
    intro i hik r hr
    unfold stop_scan_walk at hr
    by_cases h3 : seq i = -3
    · rw [if_pos h3] at hr
      simp only [List.mem_singleton] at hr
      omega
    · rw [if_neg h3] at hr
      have hne : i ≠ k := by
        intro he
        rw [he] at h3
        exact h3 hstop
      rcases List.mem_cons.mp hr with h | h
      · omega
      · exact ih (i + 1) (by omega) r h

theorem debug_msg_walk_reads (seq : Nat → Int) (k : Nat) (hk : seq k < 0) :
    ∀ fuel j len, j ≤ k → ∀ r ∈ (debug_msg_walk seq fuel j len).1, r ≤ k := by
  intro fuel
  induction fuel with
  | zero => intro j len _ r hr; simp [debug_msg_walk] at hr
  | succ fuel ih =>
    intro j len hjk r hr
    unfold debug_msg_walk at hr
    by_cases hv : seq j ≥ 0
    · rw [if_pos hv] at hr
      have hne : j ≠ k := by
        intro he
        rw [he] at hv
        omega
      by_cases hb : len + (2 + hex_width (seq j) + 1) + 1 > 128
      · rw [if_pos hb] at hr
        simp only [List.mem_singleton] at hr
        omega
      · rw [if_neg hb] at hr
        rcases List.mem_cons.mp hr with h | h
        · omega
        · exact ih _ _ (by omega) r h
    · rw [if_neg hv] at hr
      simp only [List.mem_singleton] at hr
      omega

theorem write_loop_walk_reads (seq : Nat → Int) (k : Nat) (hk : seq k < 0) :
    ∀ fuel i buf, i ≤ k → ∀ r ∈ (write_loop_walk seq fuel i buf).1, r ≤ k := by
  intro fuel
  induction fuel with
  | zero => intro i buf _ r hr; simp [write_loop_walk] at hr
  | succ fuel ih =>
    intro i buf hik r hr
    unfold write_loop_walk at hr
    by_cases hv : seq i ≥ 0
    · rw [if_pos hv] at hr
      have hne : i ≠ k := by
        intro he
        rw [he] at hv
        omega
      by_cases hb : buf.length > 63
      · rw [if_pos hb] at hr
        simp only [List.mem_singleton] at hr
        omega
      · rw [if_neg hb] at hr
        rcases List.mem_cons.mp hr with h | h
        · omega
        · exact ih _ _ (by omega) r h
    · rw [if_neg hv] at hr
      simp only [List.mem_singleton] at hr
      omega

theorem all_le_append (k : Nat) (a b : List Nat) (ha : ∀ r ∈ a, r ≤ k)
    (hb : ∀ r ∈ b, r ≤ k) : ∀ r ∈ a ++ b, r ≤ k := by
  intro r hr
  rcases List.mem_append.mp hr with h | h
  · exact ha r h
  · exact hb r h

theorem all_le_pair (k i : Nat) (h : i + 1 ≤ k) : ∀ r ∈ [i, i + 1], r ≤ k := by
  intro r hr
  simp only [List.mem_cons, List.mem_singleton, List.not_mem_nil, or_false] at hr
  omega

theorem init_loop_walk_bounds (MAX : Nat) (seq : Nat → Int) (k : Nat) (hkM : k < MAX)
    (hstop : seq k = -3) (hfirst : ∀ j, j < k → seq j ≠ -3) :
    ∀ fuel i, i ≤ k → k < i + fuel →
      (∀ r ∈ (init_loop_walk MAX seq fuel i).reads, r ≤ k) ∧
      (init_loop_walk MAX seq fuel i).exit.within k := by
  have hkneg : seq k < 0 := by rw [hstop]; decide
  intro fuel
  induction fuel with
  | zero => intro i h1 h2; omega
  | succ fuel ih =>
    intro i hik hfuel
    unfold init_loop_walk
    rw [if_pos (show i < MAX by omega)]
    by_cases h3 : seq i = -3
    · rw [if_pos h3]
      have hik2 : i = k := by
        by_contra hne
        exact hfirst i (by omega) h3
      refine ⟨?_, hik2⟩
      intro r hr
      simp only [List.mem_singleton] at hr
      omega
    rw [if_neg h3]
    have hik2 : i < k := by
      rcases Nat.lt_or_ge i k with hlt | hge
      · exact hlt
      · have : i = k := by omega
        rw [this] at h3
        exact absurd hstop h3
    by_cases hnn : seq i ≥ 0
    · rw [if_pos hnn]
      refine ⟨?_, hik2⟩
      intro r hr
      simp only [List.mem_singleton] at hr
      omega
    rw [if_neg hnn]
    by_cases hnext : seq (i + 1) < 0
    · rw [if_pos hnext]
      exact ⟨all_le_pair k i (by omega), hik2⟩
    rw [if_neg hnext]
    have hi2k : i + 2 ≤ k := by
      by_contra hgt
      have : i + 1 = k := by omega
      rw [this] at hnext
      exact hnext hkneg
    have hpair := all_le_pair k i (by omega)
    by_cases hm1 : seq i = -1
    · rw [if_pos hm1]
      have hdr := debug_msg_walk_reads seq k hkneg 128 (i + 2) 0 hi2k
      have hdt := debug_msg_total seq 128 (i + 2) 0 (by omega) (by omega)
      rw [← debug_msg_walk_snd] at hdt
      rcases hdw : debug_msg_walk seq 128 (i + 2) 0 with ⟨rd, m⟩
      rw [hdw] at hdr hdt
      cases m with
      | overflow => exact ⟨all_le_append k _ _ hpair hdr, trivial⟩
      | unfinished => exact absurd rfl hdt
      | fits =>
        simp only
        have hwr := write_loop_walk_reads seq k hkneg 65 (i + 1) [] (by omega)
        have hwt := write_loop_total seq 65 (i + 1) [] (by simp) (by simp)
        rw [← write_loop_walk_snd] at hwt
        rcases hww : write_loop_walk seq 65 (i + 1) [] with ⟨rw1, c⟩
        rw [hww] at hwr hwt
        have hall := all_le_append k _ _ (all_le_append k _ _ hpair hdr) hwr
        cases c with
        | exceeded => exact ⟨hall, hik2⟩
        | unfinished => exact absurd rfl hwt
        | done i1 buf =>
          have hle := write_loop_end_le seq k hkneg 65 (i + 1) [] i1 buf
            (by rw [← write_loop_walk_snd, hww]) (by omega)
          obtain ⟨ihr, ihe⟩ := ih i1 hle.1 (by omega)
          simp only [Walk.after_reads]
          exact ⟨all_le_append k _ _ hall ihr, ihe⟩
    rw [if_neg hm1]
    by_cases hm2 : seq i = -2
    · rw [if_pos hm2]
      obtain ⟨ihr, ihe⟩ := ih (i + 2) hi2k (by omega)
      simp only [Walk.after_reads]
      exact ⟨all_le_append k _ _ hpair ihr, ihe⟩
    · rw [if_neg hm2]
      exact ⟨hpair, hik2⟩

/-- What holds of every walk of `fbtft_init_display` over a program whose first `-3` is at
an index `k < FBTFT_MAX_INIT_SEQUENCE`: every index of `init_sequence` that is read (by the
stop-marker scan, the delimiter and look-ahead checks, the debug loop and the write loop) is
at most `k`; the run ends with `return 0` at index `k`, with one of the `return -EINVAL` of
the loop body at an index below `k`, or with the overflow of `msg[128]`; the final
`return -EINVAL` after the loop is never reached and the steps of the model are never used
up. -/
theorem fbtft_init_display_walk_bounds (MAX : Nat) (seq : Nat → Int) (k : Nat) (hkM : k < MAX)
    (hstop : seq k = -3) (hfirst : ∀ j, j < k → seq j ≠ -3) :
    (∀ r ∈ (fbtft_init_display_walk MAX (some seq)).reads, r ≤ k) ∧
    (fbtft_init_display_walk MAX (some seq)).exit.within k ∧
    (fbtft_init_display_walk MAX (some seq)).exit ≠ Exit.fell_through ∧
    (fbtft_init_display_walk MAX (some seq)).exit ≠ Exit.out_of_fuel := by
  have hscan : (stop_scan_walk seq MAX 0).2 ≠ MAX := by
    rw [stop_scan_walk_snd]
    have := stop_scan_found seq MAX 0 k hkM (by simpa using hstop)
    omega
  have hsr := stop_scan_walk_reads seq k hstop MAX 0 (Nat.zero_le k)
  obtain ⟨hr, he⟩ := init_loop_walk_bounds MAX seq k hkM hstop hfirst MAX 0 (Nat.zero_le k)
    (by omega)
  have hwalk : fbtft_init_display_walk MAX (some seq)
      = (init_loop_walk MAX seq MAX 0).after_reads (stop_scan_walk seq MAX 0).1 := by
    simp only [fbtft_init_display_walk, hscan, if_false]
  rw [hwalk]
  simp only [Walk.after_reads]
  refine ⟨all_le_append k _ _ hsr hr, he, ?_, ?_⟩
  · intro h
    rw [h] at he
    exact he
  · intro h
    rw [h] at he
    exact he

theorem fbtft_init_display_walk_bounds_witness :
    ((8 : Nat) < 512 ∧ seq_of [-1, 0xA, 0x1, 0x2, -2, 5, -1, 0xB, -3] 8 = -3 ∧
      ∀ j, j < 8 → seq_of [-1, 0xA, 0x1, 0x2, -2, 5, -1, 0xB, -3] j ≠ -3) ∧
    (∀ r ∈ (fbtft_init_display_walk 512
        (some (seq_of [-1, 0xA, 0x1, 0x2, -2, 5, -1, 0xB, -3]))).reads, r ≤ 8) ∧
    (fbtft_init_display_walk 512
        (some (seq_of [-1, 0xA, 0x1, 0x2, -2, 5, -1, 0xB, -3]))).exit = Exit.done 8 :=
  ⟨by decide,
   (fbtft_init_display_walk_bounds 512 (seq_of [-1, 0xA, 0x1, 0x2, -2, 5, -1, 0xB, -3]) 8
     (by decide) (by decide) (by decide)).1,
   by decide⟩

/-- C20 (code evaluated at the failing input): the program `-1, 0x2A, 30 data values 0x55,
-3` has its first `-3` at index 32, below `FBTFT_MAX_INIT_SEQUENCE = 512`. Every index
`fbtft_init_display` reads is at most 32, but the walk does not end by returning 0 at index
32 or `-EINVAL` earlier: it ends in the debug loop, where `strcat` writes past `msg[128]`. -/
theorem C20_walk_ends_in_msg_overflow :
    seq_of (flat_encode [Op.cmd 0x2A (List.replicate 30 0x55)]) 32 = -3 ∧
    (∀ j, j < 32 → seq_of (flat_encode [Op.cmd 0x2A (List.replicate 30 0x55)]) j ≠ -3) ∧
    (fbtft_init_display_walk 512
        (some (seq_of (flat_encode [Op.cmd 0x2A (List.replicate 30 0x55)])))).exit
      = Exit.msg_overflow ∧
    (fbtft_init_display 512 (-1)
        (some (seq_of (flat_encode [Op.cmd 0x2A (List.replicate 30 0x55)])))).status
      = Status.msg_overflow ∧
    (∀ r ∈ (fbtft_init_display_walk 512
        (some (seq_of (flat_encode [Op.cmd 0x2A (List.replicate 30 0x55)])))).reads,
      r ≤ 32) := by
  decide

end Fbtft
